import Mathlib

/-!
# upis.c: register command layer of the UPiS command-line controller

A shallow embedding of `src/upis.c`.  C strings are Lean strings (the
characters before the terminating NUL), `int` values are `Int`, the I2C bus
and standard input are an explicit environment, and everything `main` does
that is visible from outside (transport calls, `scanf`, `printf`, `exit`) is
recorded as a list of events.
-/

namespace Upis

/-! ## String helpers (`strlower`, `is_intstr`) and the C library's `atoi` -/

/-- One step of the loop of `strlower`: a character in `'A'..'Z'` is replaced
by the character 32 code points higher, any other character is kept. -/
def lowerChar (c : Char) : Char :=
  if 65 ≤ c.toNat ∧ c.toNat ≤ 90 then Char.ofNat (c.toNat + 32) else c

/-- The function `strlower` (upis.c:703): it rewrites its argument in place;
here it returns the rewritten string. -/
def strlower (string : String) : String :=
  ⟨string.data.map lowerChar⟩

/-- The `for` loop of `is_intstr` (upis.c:720): returns 0 at the first
character below 48 or above 57, and 1 when the end of the string is reached. -/
def is_intstr_loop : List Char → Int
  | [] => 1
  | c :: cs => if c.toNat < 48 ∨ c.toNat > 57 then 0 else is_intstr_loop cs

/-- The function `is_intstr` (upis.c:714).  `intstr[0]` of the empty string is
the terminating NUL, which is not 48. -/
def is_intstr (intstr : String) : Int :=
  if intstr.data.head? = some (Char.ofNat 48) ∧ intstr.data.length > 1 then 0
  else is_intstr_loop intstr.data

/-- The C library's `isspace` in the C locale. -/
def isspace (c : Char) : Bool :=
  c.toNat = 32 || (9 ≤ c.toNat && c.toNat ≤ 13)

/-- The value of the longest prefix of decimal digits, accumulated from `acc`. -/
def digitsValue : Nat → List Char → Nat
  | acc, [] => acc
  | acc, c :: cs =>
    if 48 ≤ c.toNat ∧ c.toNat ≤ 57 then digitsValue (acc * 10 + (c.toNat - 48)) cs else acc

/-- Largest value of a C `int` (32 bits). -/
def INT_MAX : Int := 2147483647

/-- Smallest value of a C `int` (32 bits). -/
def INT_MIN : Int := -2147483648

/-- Largest value of a C `long` where `long` has 64 bits. -/
def LONG_MAX : Int := 9223372036854775807

/-- Smallest value of a C `long` where `long` has 64 bits. -/
def LONG_MIN : Int := -9223372036854775808

/-- The C library's `strtol(s, NULL, 10)`: leading white space is skipped, an
optional sign is read, then the longest run of decimal digits; no digits give
0, and a value that does not fit a `long` is clamped to `LONG_MIN..LONG_MAX`. -/
def strtol (s : String) : Int :=
  match s.data.dropWhile isspace with
  | '-' :: r => max LONG_MIN (-(digitsValue 0 r : Int))
  | '+' :: r => min LONG_MAX (digitsValue 0 r : Int)
  | r => min LONG_MAX (digitsValue 0 r : Int)

/-- The conversion of a `long` to `int`: the low 32 bits of the value, read as
a two's complement number. -/
def long_to_int (x : Int) : Int :=
  (x - INT_MIN) % (INT_MAX - INT_MIN + 1) + INT_MIN

/-- The C library's `atoi`, which is `(int) strtol(s, NULL, 10)`.  The C
standard leaves the result open when the value does not fit an `int`; the
model takes what the library does where `long` has 64 bits: `strtol` returns
the value (clamped only at the range of `long`) and the conversion to `int`
keeps its low 32 bits, so `atoi("4294967311")` is 15. -/
def atoi (s : String) : Int :=
  long_to_int (strtol s)

/-- The function `bcdbyte2dec` (upis.c:843). -/
def bcdbyte2dec (bcd : Nat) : Int :=
  let a := (bcd >>> 4) &&& 0x000F
  let b := bcd &&& 0x000F
  ((a * 10) + b : Nat)

/-- The function `bcdword2dec` (upis.c:829). -/
def bcdword2dec (bcd : Nat) : Int :=
  let a := (bcd >>> 12) &&& 0x000F
  let b := (bcd >>> 8) &&& 0x000F
  let c := (bcd >>> 4) &&& 0x000F
  let d := bcd &&& 0x000F
  ((a * 1000) + (b * 100) + (c * 10) + d : Nat)

/-! ## Environment, events and the program monad -/

/-- A transport call as `main` issues it: bus number, device address,
register (the `__u8 i2c_register`) and, for a write, the byte written. -/
inductive Call where
  | readByte (i2cbus i2caddr i2creg : Nat)
  | readWord (i2cbus i2caddr i2creg : Nat)
  | writeByte (i2cbus i2caddr i2creg i2cval : Nat)
  deriving DecidableEq, Repr

/-- What the host does with one transport call: `open` fails, `ioctl` fails,
or the SMBus transaction returns `i2cresult` (negative on failure). -/
inductive Outcome where
  | openFail
  | accessFail
  | result (i2cresult : Int)
  deriving DecidableEq, Repr

/-- An argument of a `printf` call. -/
inductive Arg where
  | int (i : Int)
  | str (s : String)
  | flt (num den : Int)
  deriving DecidableEq, Repr

/-- What the program does that is visible from outside, in order. -/
inductive Event where
  | call (c : Call) (o : Outcome)
  | scanf (token : Option String)
  | printf (fmt : String) (args : List Arg)
  deriving DecidableEq, Repr

/-- The environment and the program state that matters: the outcomes of the
transport calls still to come, the order in which the two arguments of a
`printf` are evaluated (C leaves it open), the tokens left on standard input,
the content of `strresp`, and the events so far. -/
structure World where
  bus : Nat → Outcome
  rtl : Bool
  stdin : List String
  strresp : String
  out : List Event

/-- A computation either returns to its caller or has called `exit`. -/
inductive Res (α : Type) where
  | ret (a : α) (w : World)
  | exit (code : Nat) (w : World)

/-- The world a computation ends in. -/
def Res.world {α : Type} : Res α → World
  | .ret _ w => w
  | .exit _ w => w

/-- The exit status, when the computation called `exit`. -/
def Res.code {α : Type} : Res α → Option Nat
  | .ret _ _ => none
  | .exit c _ => some c

/-- Computations over the world. -/
def Prog (α : Type) : Type := World → Res α

/-- Return a value, leaving the world as it is. -/
def Prog.pure {α : Type} (a : α) : Prog α := fun w => .ret a w

/-- Sequencing: an `exit` in the first computation skips the second. -/
def Prog.bind {α β : Type} (m : Prog α) (f : α → Prog β) : Prog β := fun w =>
  match m w with
  | .ret a w1 => f a w1
  | .exit c w1 => .exit c w1

instance : Monad Prog where
  pure := Prog.pure
  bind := Prog.bind

/-- The library call `exit(code)`. -/
def exit {α : Type} (code : Nat) : Prog α := fun w => .exit code w

/-- The library call `printf(fmt, args...)`. -/
def printf (fmt : String) (args : List Arg) : Prog Unit := fun w =>
  .ret () { w with out := w.out ++ [.printf fmt args] }

/-- The library call `scanf("%s", strresp)`: the next token of standard input
is stored in `strresp`; at end of input `strresp` is left as it was. -/
def scanf_strresp : Prog Unit := fun w =>
  match w.stdin with
  | [] => .ret () { w with out := w.out ++ [.scanf none] }
  | t :: ts => .ret () { w with stdin := ts, strresp := t, out := w.out ++ [.scanf (some t)] }

/-- Reads the content of `strresp`, for `strcmp(strresp, ...)`. -/
def get_strresp : Prog String := fun w => .ret w.strresp w

/-- The order in which the arguments of a call are evaluated. -/
def get_rtl : Prog Bool := fun w => .ret w.rtl w

/-- The host side of one transport call (`open`, `ioctl`, SMBus transaction):
the call is recorded with the outcome the environment gives it. -/
def transact (c : Call) : Prog Outcome := fun w =>
  .ret (w.bus 0) { w with bus := fun i => w.bus (i + 1), out := w.out ++ [.call c (w.bus 0)] }

/-- The function `readi2cbyte` (upis.c:728). -/
def readi2cbyte (i2cbus i2caddr i2creg : Nat) : Prog Int := do
  match ← transact (.readByte i2cbus i2caddr (i2creg % 256)) with
  | .openFail =>
    printf "Error: Unable to open i2c bus %u\n" [.int i2cbus]
    exit 1
  | .accessFail =>
    printf "Error: Unable to access the PiCO interface at address 0x%02x\n" [.int i2cbus]
    exit 2
  | .result i2cresult =>
    if i2cresult < 0 then
      printf "Error: Unexpected result: u\n" [.int i2cresult]
      exit 2
    else
      pure i2cresult

/-- The function `readi2cword` (upis.c:763). -/
def readi2cword (i2cbus i2caddr i2creg : Nat) : Prog Int := do
  match ← transact (.readWord i2cbus i2caddr (i2creg % 256)) with
  | .openFail =>
    printf "Error: Unable to open i2c bus %u\n" [.int i2cbus]
    exit 1
  | .accessFail =>
    printf "Error: Unable to access the PiCO interface at address 0x%02x\n" [.int i2cbus]
    exit 2
  | .result i2cresult =>
    if i2cresult < 0 then
      printf "Error: Unexpected result: %u\n" [.int i2cresult]
      exit 2
    else
      pure i2cresult

/-- The function `writei2cbyte` (upis.c:798).  The value goes through
`char buf[1]`, so its low 8 bits are written.  A failed transaction prints a
message and returns. -/
def writei2cbyte (i2cbus i2caddr i2creg : Nat) (i2cval : Int) : Prog Unit := do
  match ← transact (.writeByte i2cbus i2caddr (i2creg % 256) (i2cval % 256).toNat) with
  | .openFail =>
    printf "Error: Unable to open i2c bus %u\n" [.int i2cbus]
    exit 1
  | .accessFail =>
    printf "Error: Unable to access the PiCO interface at address 0x%02x\n" [.int i2cbus]
    exit 2
  | .result i2cresult =>
    if i2cresult < 0 then
      printf "Error: Unexpected result %i\n" [.int i2cresult]
    else
      pure ()

/-- The two calls `readi2cbyte(bus, addr, reg)` that are the arguments of one
`printf`: returns the value of the first argument and of the second. -/
def readi2cbyte_twice (i2cbus i2caddr i2creg : Nat) : Prog (Int × Int) := do
  if ← get_rtl then
    let y ← readi2cbyte i2cbus i2caddr i2creg
    let x ← readi2cbyte i2cbus i2caddr i2creg
    pure (x, y)
  else
    let x ← readi2cbyte i2cbus i2caddr i2creg
    let y ← readi2cbyte i2cbus i2caddr i2creg
    pure (x, y)

/-! ## Command line arguments (`struct arguments`, `parse_opt`) -/

/-- The record `struct arguments` (upis.c:29).  A flag is 0 or 1; a `char *`
argument is `none` when it is the null pointer. -/
structure Arguments where
  rtc : Bool
  rtcfactor : Bool
  pwrsrc : Bool
  batvolt : Bool
  rpivolt : Bool
  eprvolt : Bool
  usbvolt : Bool
  current : Bool
  centigrade : Bool
  fahrenheit : Bool
  fwver : Bool
  factory : Bool
  reset : Bool
  bootloader : Bool
  errorno : Bool
  watchdog : Bool
  fssd : Bool
  fssdtimeout : Bool
  fssdtype : Bool
  fssdbatime : Bool
  starttimer : Bool
  stoptimer : Bool
  lprtimer : Bool
  relay : Bool
  eprlowv : Bool
  minlprtime : Bool
  lprcurrent : Bool
  iomode : Bool
  iovalue : Bool
  yes : Bool
  verbose : Bool
  RTCF : Option String
  WDTIM : Option String
  FSSDTIM : Option String
  FSSDACT : Option String
  BATTIM : Option String
  ONTIM : Option String
  OFFTIM : Option String
  LPRTIM : Option String
  RLYSTAT : Option String
  EPRLOWV : Option String
  MINLPRTIM : Option String
  LPRAMP : Option String
  IOMODE : Option String

/-- The defaults `main` stores before parsing (upis.c:166-196). -/
def main_defaults : Arguments where
  rtc := false
  rtcfactor := false
  pwrsrc := false
  batvolt := false
  rpivolt := false
  eprvolt := false
  usbvolt := false
  current := false
  centigrade := false
  fahrenheit := false
  fwver := false
  factory := false
  reset := false
  bootloader := false
  errorno := false
  watchdog := false
  fssd := false
  fssdtimeout := false
  fssdtype := false
  fssdbatime := false
  starttimer := false
  stoptimer := false
  lprtimer := false
  relay := false
  eprlowv := false
  minlprtime := false
  lprcurrent := false
  iomode := false
  iovalue := false
  yes := false
  verbose := false
  RTCF := some ""
  WDTIM := some ""
  FSSDTIM := some ""
  FSSDACT := some ""
  BATTIM := some ""
  ONTIM := some ""
  OFFTIM := some ""
  LPRTIM := some ""
  RLYSTAT := some ""
  EPRLOWV := some ""
  MINLPRTIM := some ""
  LPRAMP := some ""
  IOMODE := some ""

/-- The function `parse_opt` (upis.c:113): `key` is the option character and
`arg` its argument (`none` when the option came without one).  The result is
`none` for `ARGP_ERR_UNKNOWN`. -/
def parse_opt (key : Char) (arg : Option String) (arguments : Arguments) : Option Arguments :=
  match key with
  | 'R' => some { arguments with rtc := true }
  | 'F' => some { arguments with rtcfactor := true, RTCF := arg }
  | 's' => some { arguments with pwrsrc := true }
  | 'b' => some { arguments with batvolt := true }
  | 'p' => some { arguments with rpivolt := true }
  | 'e' => some { arguments with eprvolt := true }
  | 'u' => some { arguments with usbvolt := true }
  | 'a' => some { arguments with current := true }
  | 'c' => some { arguments with centigrade := true }
  | 'f' => some { arguments with fahrenheit := true }
  | 'Q' => some { arguments with fwver := true }
  | 'Z' => some { arguments with factory := true }
  | 'z' => some { arguments with reset := true }
  | 'l' => some { arguments with bootloader := true }
  | 'E' => some { arguments with errorno := true }
  | 'w' => some { arguments with watchdog := true, WDTIM := arg }
  | 'S' => some { arguments with fssd := true }
  | 't' => some { arguments with fssdtimeout := true, FSSDTIM := arg }
  | 'T' => some { arguments with fssdtype := true, FSSDACT := arg }
  | 'B' => some { arguments with fssdbatime := true, BATTIM := arg }
  | 'o' => some { arguments with starttimer := true, ONTIM := arg }
  | 'O' => some { arguments with stoptimer := true, OFFTIM := arg }
  | 'L' => some { arguments with lprtimer := true, LPRTIM := arg }
  | 'r' => some { arguments with relay := true, RLYSTAT := arg }
  | 'h' => some { arguments with eprlowv := true, EPRLOWV := arg }
  | 'm' => some { arguments with minlprtime := true, MINLPRTIM := arg }
  | 'I' => some { arguments with lprcurrent := true, LPRAMP := arg }
  | 'i' => some { arguments with iomode := true, IOMODE := arg }
  | 'V' => some { arguments with iovalue := true }
  | 'y' => some { arguments with yes := true }
  | 'v' => some { arguments with verbose := true }
  | _ => none

/-- The library call `argp_parse` seen from `main`: `parse_opt` is run on the
options of the command line in the order they were given. -/
def argp_parse (opts : List (Char × Option String)) (arguments : Arguments) : Arguments :=
  opts.foldl (fun acc o => (parse_opt o.1 o.2 acc).getD acc) arguments

/-- The number of properties requested, `arg_count` (upis.c:202). -/
def arg_count (a : Arguments) : Nat :=
  a.rtc.toNat + a.rtcfactor.toNat + a.pwrsrc.toNat + a.batvolt.toNat + a.rpivolt.toNat +
  a.eprvolt.toNat + a.usbvolt.toNat + a.current.toNat + a.centigrade.toNat +
  a.fahrenheit.toNat + a.fwver.toNat + a.factory.toNat + a.reset.toNat +
  a.bootloader.toNat + a.errorno.toNat + a.watchdog.toNat + a.fssd.toNat +
  a.fssdtimeout.toNat + a.fssdtype.toNat + a.fssdbatime.toNat + a.starttimer.toNat +
  a.stoptimer.toNat + a.lprtimer.toNat + a.relay.toNat + a.eprlowv.toNat +
  a.minlprtime.toNat + a.lprcurrent.toNat + a.iomode.toNat + a.iovalue.toNat

/-! ## The body of `main`, one definition per `if (arguments.x)` block -/

/-- A run of `printf` calls that print fixed lines. -/
def print_lines : List String → Prog Unit
  | [] => pure ()
  | l :: ls => do
    printf l []
    print_lines ls

/-- The condition under which a "Display/Set" block writes:
`is_intstr(s) && atoi(s) >= lo && atoi(s) <= hi`. -/
def write_valid (s : String) (lo hi : Int) : Bool :=
  decide (is_intstr s ≠ 0 ∧ atoi s ≥ lo ∧ atoi s ≤ hi)

/-- The shape shared by the "Display/Set" blocks of a byte register with a
numeric range (upis.c:256, 468, 497, 520, 543, 576, 651): `value` is the
option's argument, `lo..hi` the range tested, `label`, `setfmt` and `errfmt`
the three format strings of the block. -/
def main_display_set (value : Option String) (verbose : Bool) (arg_count : Nat)
    (i2caddr i2creg : Nat) (lo hi : Int) (label setfmt errfmt : String) : Prog Unit := do
  match value with
  | none =>
    if arg_count > 1 then
      printf label []
    let v ← readi2cbyte 0x01 i2caddr i2creg
    printf "%i" [.int v]
    if verbose then
      let x ← readi2cbyte 0x01 i2caddr i2creg
      printf " (0x%02x)" [.int x]
    printf "\n" []
  | some s =>
    if write_valid s lo hi then
      writei2cbyte 0x01 i2caddr i2creg (atoi s)
      let r ← readi2cbyte_twice 0x01 i2caddr i2creg
      printf setfmt [.int r.1, .int r.2]
    else
      printf errfmt [.str s]

/-- The shape shared by the three guarded actions (upis.c:399, 417, 435):
`warning` are the lines printed before the prompt, `i2cval` the fixed value
written, `aborted` the line printed when the action is not carried out. -/
def main_confirm (yes : Bool) (warning : List String) (i2cval : Int) (aborted : String) :
    Prog Unit := do
  if !yes then
    print_lines warning
    scanf_strresp
  let strresp ← get_strresp
  if yes ∨ strresp = "y" ∨ strresp = "Y" then
    writei2cbyte 0x01 0x69 0x07 i2cval
  else
    printf aborted []

/-- The shape shared by the four voltage blocks (upis.c:307, 319, 331, 343). -/
def main_voltage (verbose : Bool) (arg_count : Nat) (i2creg : Nat) (label : String) :
    Prog Unit := do
  if arg_count > 1 then
    printf label []
  let w ← readi2cword 0x01 0x6A i2creg
  printf "%g" [.flt (bcdword2dec w.toNat) 100]
  if verbose then
    printf "V" []
  printf "\n" []

/-- Display the time from the RTC (upis.c:233). -/
def main_rtc (a : Arguments) : Prog Unit := do
  if a.rtc then
    if arg_count a > 1 then
      printf "RTC Date/Time: " []
    let d ← readi2cbyte 0x01 0x69 0x04
    printf "%02d-" [.int (bcdbyte2dec d.toNat)]
    let mo ← readi2cbyte 0x01 0x69 0x05
    printf "%02d-" [.int (bcdbyte2dec mo.toNat)]
    let y ← readi2cbyte 0x01 0x69 0x06
    printf "20%02d " [.int (bcdbyte2dec y.toNat)]
    let h ← readi2cbyte 0x01 0x69 0x02
    printf "%02d:" [.int (bcdbyte2dec h.toNat)]
    let mi ← readi2cbyte 0x01 0x69 0x01
    printf "%02d:" [.int (bcdbyte2dec mi.toNat)]
    let se ← readi2cbyte 0x01 0x69 0x00
    printf "%02d " [.int (bcdbyte2dec se.toNat)]
    let dow ← readi2cbyte 0x01 0x69 0x03
    match bcdbyte2dec dow.toNat with
    | 1 => printf "(Sunday)\n" []
    | 2 => printf "(Monday)\n" []
    | 3 => printf "(Tuesday)\n" []
    | 4 => printf "(Wednesday)\n" []
    | 5 => printf "(Thursday)\n" []
    | 6 => printf "(Friday)\n" []
    | 7 => printf "(Saturday)\n" []
    | _ => pure ()

/-- Display/Set RTC correction factor (upis.c:256). -/
def main_rtcfactor (a : Arguments) : Prog Unit := do
  if a.rtcfactor then
    main_display_set a.RTCF a.verbose (arg_count a) 0x69 0x07 0 255
      "RTC Correction Factor: "
      "RTC Correction Factor set to: %i (0x%02x)\n"
      "Invalid argument \x27%s\x27 for RTC clock factor - use an integer between 0 and 255\n"

/-- Display power source (upis.c:279). -/
def main_pwrsrc (a : Arguments) : Prog Unit := do
  if a.pwrsrc then
    if a.verbose then
      if arg_count a > 1 then
        printf "Power source: " []
      let i2cresult ← readi2cbyte 0x01 0x6A 0x00
      if i2cresult < 1 ∨ i2cresult > 7 then
        printf "Error: Unexpected result for power mode: u\n" [.int i2cresult]
      else
        match i2cresult with
        | 1 => printf "External Power [EPR]\n" []
        | 2 => printf "UPiS USB Power [USB]\n" []
        | 3 => printf "Raspberry Pi USB Power [RPI]\n" []
        | 4 => printf "Battery Power [BAT]\n" []
        | 5 => printf "Low Power [LPR]\n" []
        | 6 => printf "[CPR]\n" []
        | 7 => printf "[BPR]\n" []
        | _ => pure ()
    else
      if arg_count a > 1 then
        printf "Power source: " []
      let v ← readi2cbyte 0x01 0x6A 0x00
      printf "%u\n" [.int v]

/-- Display the battery voltage (upis.c:307). -/
def main_batvolt (a : Arguments) : Prog Unit := do
  if a.batvolt then
    main_voltage a.verbose (arg_count a) 0x01 "BAT voltage: "

/-- Display RPI voltage (upis.c:319). -/
def main_rpivolt (a : Arguments) : Prog Unit := do
  if a.rpivolt then
    main_voltage a.verbose (arg_count a) 0x03 "RPI Voltage: "

/-- Display EPR voltage (upis.c:331). -/
def main_eprvolt (a : Arguments) : Prog Unit := do
  if a.eprvolt then
    main_voltage a.verbose (arg_count a) 0x07 "EPR Voltage: "

/-- Display USB voltage (upis.c:343). -/
def main_usbvolt (a : Arguments) : Prog Unit := do
  if a.usbvolt then
    main_voltage a.verbose (arg_count a) 0x05 "USB Voltage: "

/-- Current draw (upis.c:355). -/
def main_current (a : Arguments) : Prog Unit := do
  if a.current then
    if arg_count a > 1 then
      printf "Average Current Draw: " []
    let w ← readi2cword 0x01 0x6A 0x09
    printf "%i" [.int (bcdword2dec w.toNat)]
    if a.verbose then
      printf "mA" []
    printf "\n" []

/-- Temperature in C (upis.c:367). -/
def main_centigrade (a : Arguments) : Prog Unit := do
  if a.centigrade then
    if arg_count a > 1 then
      printf "Centigrade Temperature: " []
    let v ← readi2cbyte 0x01 0x6A 0x0B
    printf "%u" [.int (bcdbyte2dec v.toNat)]
    if a.verbose then
      printf "C" []
    printf "\n" []

/-- Temperature in F (upis.c:379). -/
def main_fahrenheit (a : Arguments) : Prog Unit := do
  if a.fahrenheit then
    if arg_count a > 1 then
      printf "Fahrenheit Temperature: " []
    let w ← readi2cword 0x01 0x6A 0x0C
    printf "%u" [.int (bcdword2dec w.toNat)]
    if a.verbose then
      printf "F" []
    printf "\n" []

/-- Firmware version (upis.c:391). -/
def main_fwver (a : Arguments) : Prog Unit := do
  if a.fwver then
    if arg_count a > 1 then
      printf "Firmware Version: " []
    let w ← readi2cword 0x01 0x6B 0x00
    printf "%i\n" [.int w]

/-- The lines printed before the prompt of the factory reset (upis.c:401). -/
def factory_warning : List String :=
  ["WARNING: The UPiS will be returned to factory default and reset.\n",
   "This probably isn\x27t a good idea as the Raspberry Pi will also be reset\n",
   "without a file safe shutdown, resulting in possible file system corruption.\n",
   "Type Y/y to proceed: "]

/-- The lines printed before the prompt of the processor reset (upis.c:419). -/
def reset_warning : List String :=
  ["WARNING: The UPiS processor and RTC will be reset.\n",
   "This probably isn\x27t a good idea as the Raspberry Pi will also be reset\n",
   "without a file safe shutdown, resulting in possible file system corruption.\n",
   "Type Y/y to proceed: "]

/-- The lines printed before the prompt of the bootloader entry (upis.c:437). -/
def bootloader_warning : List String :=
  ["WARNING: The UPiS will be placed in bootloader mode.\n",
   "1. The Red LED on the UPiS will light.\n",
   "2. Recovery from this state is only possible by pressing the RST button\n",
   "   or uploding new firmware.\n",
   "3. Bootloader mode should be used with the RPi firmware upload script.\n",
   "3. All interrupts are disabled during this procedure and the normal\n",
   "   operation of the UPiS is suspended.\n",
   "5. Both the UPiS and RPi must be powered via RPi micro USB during the\n",
   "   boot loading process because the UPiS resets after the firmware is\n",
   "   uploaded.\n",
   "Type Y/y to proceed: "]

/-- Factory reset (upis.c:399). -/
def main_factory (a : Arguments) : Prog Unit := do
  if a.factory then
    main_confirm a.yes factory_warning 0xdd "Factory reset aborted.\n"

/-- Reset (upis.c:417). -/
def main_reset (a : Arguments) : Prog Unit := do
  if a.reset then
    main_confirm a.yes reset_warning 0xee "Reset aborted.\n"

/-- Bootloader (upis.c:435). -/
def main_bootloader (a : Arguments) : Prog Unit := do
  if a.bootloader then
    main_confirm a.yes bootloader_warning 0xff "Bootloader aborted.\n"

/-- Last error (upis.c:460). -/
def main_errorno (a : Arguments) : Prog Unit := do
  if a.errorno then
    if arg_count a > 1 then
      printf "Last Error No: " []
    let v ← readi2cbyte 0x01 0x6B 0x01
    printf "%i\n" [.int v]

/-- Display/Set watchdog timer (upis.c:468). -/
def main_watchdog (a : Arguments) : Prog Unit := do
  if a.watchdog then
    main_display_set a.WDTIM a.verbose (arg_count a) 0x6B 0x02 0 255
      "Watchdog Timer: "
      "Watchdog Timer set to: %i (0x%02x)\n"
      "Invalid argument \x27%s\x27 for watchdog timer - use an integer between 0 and 255\n"

/-- File safe shutdown (upis.c:491). -/
def main_fssd (a : Arguments) : Prog Unit := do
  if a.fssd then
    writei2cbyte 0x01 0x6B 0x02 0x00
    printf "File safe shutdown initiated\n" []

/-- Display/Set FSSD timer (upis.c:497). -/
def main_fssdtimeout (a : Arguments) : Prog Unit := do
  if a.fssdtimeout then
    main_display_set a.FSSDTIM a.verbose (arg_count a) 0x6B 0x03 15 255
      "File Safe Shutdown Timer: "
      "File Safe Shutdown Timer set to: %i (0x%02x)\n"
      "Invalid argument \x27%s\x27 for file safe shutdown timer - use an integer between 15 and 255\n"

/-- Display/Set FSSD type (upis.c:520). -/
def main_fssdtype (a : Arguments) : Prog Unit := do
  if a.fssdtype then
    main_display_set a.FSSDACT a.verbose (arg_count a) 0x6B 0x04 0 2
      "File Safe Shutdown Type: "
      "File Safe Shutdown Type set to: %i (0x%02x)\n"
      "Invalid argument \x27%s\x27 for file safe shutdown type - use an integer between 0 and 2\n"

/-- Display/Set FSSD battery mode timer (upis.c:543). -/
def main_fssdbatime (a : Arguments) : Prog Unit := do
  if a.fssdbatime then
    main_display_set a.BATTIM a.verbose (arg_count a) 0x6B 0x05 0 255
      "File Safe Shutdown BAT Timer: "
      "File Safe Shutdown BAT Timer set to: %i (0x%02x)\n"
      "Invalid argument \x27%s\x27 for file safe shutdown BAT timer - use an integer between 0 and 255\n"

/-- Start timer (upis.c:566). -/
def main_starttimer (a : Arguments) : Prog Unit := do
  if a.starttimer then
    printf "*** Not implemented yet ***\n" []

/-- Stop timer (upis.c:571). -/
def main_stoptimer (a : Arguments) : Prog Unit := do
  if a.stoptimer then
    printf "*** Not implemented yet ***\n" []

/-- LPR wakeup polling timer (upis.c:576). -/
def main_lprtimer (a : Arguments) : Prog Unit := do
  if a.lprtimer then
    main_display_set a.LPRTIM a.verbose (arg_count a) 0x6B 0x0A 0 255
      "LPR Wakeup Polling Timer: "
      "LPR Wakeup Polling Timer set to: %i (0x%02x)\n"
      "Invalid argument \x27%s\x27 for LPR Wakeup Polling timer - use an integer between 0 and 255\n"

/-- Relay control (upis.c:599).  `strlower` rewrites `RLYSTAT` in place, so
the comparisons and the error message see the lowered string. -/
def main_relay (a : Arguments) : Prog Unit := do
  if a.relay then
    match a.RLYSTAT with
    | none =>
      if arg_count a > 1 then
        printf "Relay Status: " []
      if a.verbose then
        let v ← readi2cbyte 0x01 0x6B 0x0B
        if v = 0 then
          printf "on/closed" []
        else
          printf "off/open" []
      else
        let v ← readi2cbyte 0x01 0x6B 0x0B
        printf "%i" [.int v]
      printf "\n" []
    | some s =>
      let RLYSTAT := strlower s
      if RLYSTAT = "closed" ∨ RLYSTAT = "1" ∨ RLYSTAT = "on" then
        writei2cbyte 0x01 0x6B 0x0B 0x01
        printf "Relay set to: on/closed\n" []
      else if RLYSTAT = "open" ∨ RLYSTAT = "0" ∨ RLYSTAT = "off" then
        writei2cbyte 0x01 0x6B 0x0B 0x00
        printf "Relay set to: off/open\n" []
      else
        printf "Invalid argument \x27%s\x27 for relay state - use 0,1,open,closed,off or on\n"
          [.str RLYSTAT]

/-- EPR switch to battery threshold (upis.c:636). -/
def main_eprlowv (a : Arguments) : Prog Unit := do
  if a.eprlowv then
    printf "*** Not implemented yet ***\n" []

/-- EPR hysteresis (upis.c:641). -/
def main_minlprtime (a : Arguments) : Prog Unit := do
  if a.minlprtime then
    printf "*** Not implemented yet ***\n" []

/-- LPR switch current threshold (upis.c:646). -/
def main_lprcurrent (a : Arguments) : Prog Unit := do
  if a.lprcurrent then
    printf "*** Not implemented yet ***\n" []

/-- IO pin function (upis.c:651). -/
def main_iomode (a : Arguments) : Prog Unit := do
  if a.iomode then
    main_display_set a.IOMODE a.verbose (arg_count a) 0x6B 0x10 0 3
      "IO Pin Mode: "
      "IP Pin Mode set to: %i (0x%02x)\n"
      "Invalid argument \x27%s\x27 for io pin mode - use an integer between 0 and 3\n"

/-- IO pin value (upis.c:674). -/
def main_iovalue (a : Arguments) : Prog Unit := do
  if a.iovalue then
    let i2cresult ← readi2cbyte 0x01 0x6B 0x10
    if i2cresult < 0 ∨ i2cresult > 3 then
      printf "Error: Unexpected io pin mode: %i\n" [.int i2cresult]
    else if i2cresult = 0 then
      printf "IO Pin mode is not set\n" []
    else
      if a.verbose ∨ arg_count a > 1 then
        printf "IO Pin Value: " []
      match i2cresult with
      | 1 =>
        let w ← readi2cword 0x01 0x6B 0x11
        printf "%i" [.int w]
      | 2 =>
        let v ← readi2cbyte 0x01 0x6B 0x11
        printf "%i" [.int v]
      | 3 =>
        let v ← readi2cbyte 0x01 0x6B 0x11
        printf "%i" [.int v]
      | _ => pure ()
      printf "\n" []

/-- The body of `main` after `argp_parse` (upis.c:201-699): the blocks run in
the order of the source and `main` returns 0. -/
def main_body (a : Arguments) : Prog Int := do
  main_rtc a
  main_rtcfactor a
  main_pwrsrc a
  main_batvolt a
  main_rpivolt a
  main_eprvolt a
  main_usbvolt a
  main_current a
  main_centigrade a
  main_fahrenheit a
  main_fwver a
  main_factory a
  main_reset a
  main_bootloader a
  main_errorno a
  main_watchdog a
  main_fssd a
  main_fssdtimeout a
  main_fssdtype a
  main_fssdbatime a
  main_starttimer a
  main_stoptimer a
  main_lprtimer a
  main_relay a
  main_eprlowv a
  main_minlprtime a
  main_lprcurrent a
  main_iomode a
  main_iovalue a
  pure 0

/-- The function `main` (upis.c:160) on the options of the command line. -/
def main (opts : List (Char × Option String)) : Prog Int :=
  main_body (argp_parse opts main_defaults)

/-- The world `main` starts in: `strresp` is not initialised, so its content
`strresp` is whatever the stack holds. -/
def World.init (bus : Nat → Outcome) (rtl : Bool) (stdin : List String) (strresp : String) :
    World :=
  { bus := bus, rtl := rtl, stdin := stdin, strresp := strresp, out := [] }

/-- The transport calls among a list of events, in order. -/
def calls : List Event → List Call
  | [] => []
  | .call c _ :: es => c :: calls es
  | _ :: es => calls es

/-- The number of `scanf` calls among a list of events. -/
def asks : List Event → Nat
  | [] => 0
  | .scanf _ :: es => asks es + 1
  | _ :: es => asks es

/-- The events of running `p` from the start world. -/
def run {α : Type} (p : Prog α) (bus : Nat → Outcome) (rtl : Bool) (stdin : List String)
    (strresp : String) : List Event :=
  (p (World.init bus rtl stdin strresp)).world.out

/-! ## Names used to state the properties -/

/-- The three guarded actions of `main`. -/
inductive Action where
  | factory
  | reset
  | bootloader
  deriving DecidableEq, Repr

/-- The block of `main` that carries out a guarded action. -/
def Action.block : Action → Arguments → Prog Unit
  | .factory => main_factory
  | .reset => main_reset
  | .bootloader => main_bootloader

/-- The flag that requests a guarded action. -/
def Action.requested : Action → Arguments → Bool
  | .factory, a => a.factory
  | .reset, a => a.reset
  | .bootloader, a => a.bootloader

/-- The value the register table gives for a guarded action. -/
def Action.sentinel : Action → Nat
  | .factory => 0xDD
  | .reset => 0xEE
  | .bootloader => 0xFF

/-- The line that reports a guarded action as aborted. -/
def Action.aborted : Action → String
  | .factory => "Factory reset aborted.\n"
  | .reset => "Reset aborted.\n"
  | .bootloader => "Bootloader aborted.\n"

/-- An invariant of the world: `p` started where `I` holds ends, by return or
by `exit`, where `I` holds. -/
def Keeps {α : Type} (I : World → Prop) (p : Prog α) : Prop :=
  ∀ w, I w → I (p w).world

/-- The invariant `I` survives a `printf`, a `scanf`, and a transport call
that satisfies `P`. -/
structure Stable (I : World → Prop) (P : Call → Prop) : Prop where
  printf : ∀ w fmt args, I w → I { w with out := w.out ++ [.printf fmt args] }
  scanf : ∀ w, I w → I (scanf_strresp w).world
  call : ∀ w c, P c → I w →
    I { w with bus := fun i => w.bus (i + 1), out := w.out ++ [.call c (w.bus 0)] }

/-- A write of one of the values 0xDD, 0xEE, 0xFF to register 0x07 of device
0x69. -/
def is_sentinel_write : Call → Bool
  | .writeByte _ i2caddr i2creg i2cval =>
    i2caddr == 0x69 && i2creg == 0x07 && (i2cval == 0xDD || i2cval == 0xEE || i2cval == 0xFF)
  | _ => false

/-- A token that `main` takes as consent: `"y"` or `"Y"`. -/
def is_yes (s : String) : Bool := s == "y" || s == "Y"

/-- The read-write properties. -/
inductive RWProperty where
  | rtcfactor
  | watchdog
  | fssdtimeout
  | fssdtype
  | fssdbatime
  | lprtimer
  | relay
  | iomode
  deriving DecidableEq, Repr

/-- The block of `main` that handles a read-write property. -/
def RWProperty.block : RWProperty → Arguments → Prog Unit
  | .rtcfactor => main_rtcfactor
  | .watchdog => main_watchdog
  | .fssdtimeout => main_fssdtimeout
  | .fssdtype => main_fssdtype
  | .fssdbatime => main_fssdbatime
  | .lprtimer => main_lprtimer
  | .relay => main_relay
  | .iomode => main_iomode

/-- The flag that requests a read-write property. -/
def RWProperty.requested : RWProperty → Arguments → Bool
  | .rtcfactor, a => a.rtcfactor
  | .watchdog, a => a.watchdog
  | .fssdtimeout, a => a.fssdtimeout
  | .fssdtype, a => a.fssdtype
  | .fssdbatime, a => a.fssdbatime
  | .lprtimer, a => a.lprtimer
  | .relay, a => a.relay
  | .iomode, a => a.iomode

/-- The write string supplied for a read-write property. -/
def RWProperty.value : RWProperty → Arguments → Option String
  | .rtcfactor, a => a.RTCF
  | .watchdog, a => a.WDTIM
  | .fssdtimeout, a => a.FSSDTIM
  | .fssdtype, a => a.FSSDACT
  | .fssdbatime, a => a.BATTIM
  | .lprtimer, a => a.LPRTIM
  | .relay, a => a.RLYSTAT
  | .iomode, a => a.IOMODE

/-- The device address of a read-write property in the register table. -/
def RWProperty.addr : RWProperty → Nat
  | .rtcfactor => 0x69
  | _ => 0x6B

/-- The register of a read-write property in the register table. -/
def RWProperty.reg : RWProperty → Nat
  | .rtcfactor => 0x07
  | .watchdog => 0x02
  | .fssdtimeout => 0x03
  | .fssdtype => 0x04
  | .fssdbatime => 0x05
  | .lprtimer => 0x0A
  | .relay => 0x0B
  | .iomode => 0x10

/-- The validator of a read-write property: the value a write string is
accepted with, `none` when it is rejected.  The numeric properties use the
test of their block with the range of the register table; the relay compares
the lowered string with its six tokens. -/
def RWProperty.accepts : RWProperty → String → Option Nat
  | .rtcfactor, s => if write_valid s 0 255 then some (atoi s).toNat else none
  | .watchdog, s => if write_valid s 0 255 then some (atoi s).toNat else none
  | .fssdtimeout, s => if write_valid s 15 255 then some (atoi s).toNat else none
  | .fssdtype, s => if write_valid s 0 2 then some (atoi s).toNat else none
  | .fssdbatime, s => if write_valid s 0 255 then some (atoi s).toNat else none
  | .lprtimer, s => if write_valid s 0 255 then some (atoi s).toNat else none
  | .iomode, s => if write_valid s 0 3 then some (atoi s).toNat else none
  | .relay, s =>
    if strlower s = "closed" ∨ strlower s = "1" ∨ strlower s = "on" then some 1
    else if strlower s = "open" ∨ strlower s = "0" ∨ strlower s = "off" then some 0
    else none

/-- The ten digit characters. -/
def digitChars : List Char := ['0', '1', '2', '3', '4', '5', '6', '7', '8', '9']

/-- The BCD encoding of a number below 100: the tens digit in the high nibble,
the units digit in the low nibble. -/
def bcd_encode_byte (n : Nat) : Nat :=
  (n / 10) * 16 + n % 10

/-- The BCD encoding of a number below 10000: its four decimal digits, from
thousands to units, in the four nibbles from most to least significant. -/
def bcd_encode_word (n : Nat) : Nat :=
  (n / 1000) * 4096 + (n / 100 % 10) * 256 + (n / 10 % 10) * 16 + n % 10

/-- A byte both of whose nibbles are at most 9. -/
def valid_bcd_byte (b : Nat) : Prop :=
  b < 256 ∧ b / 16 ≤ 9 ∧ b % 16 ≤ 9

/-- A 16-bit word all of whose four nibbles are at most 9. -/
def valid_bcd_word (w : Nat) : Prop :=
  w < 65536 ∧ w / 4096 ≤ 9 ∧ w / 256 % 16 ≤ 9 ∧ w / 16 % 16 ≤ 9 ∧ w % 16 ≤ 9

/-- The transport calls of the IO pin value block, given the outcome of its
first call (the read of the IO pin mode): none when the block is not
requested; otherwise the byte read of the mode register 0x10, followed by a
word read of register 0x11 for mode 1, a byte read of it for mode 2 or 3, and
nothing else in every other case. -/
def iovalue_calls (requested : Bool) (mode : Outcome) : List Call :=
  if requested then
    .readByte 1 0x6B 0x10 ::
      (match mode with
        | .result m =>
          if m = 1 then [.readWord 1 0x6B 0x11]
          else if m = 2 ∨ m = 3 then [.readByte 1 0x6B 0x11]
          else []
        | _ => [])
  else []

/-- The properties `main` handles, one per block and in the order of the
blocks.  Five of them are not implemented yet (`starttimer`, `stoptimer`,
`eprlowv`, `minlprtime`, `lprcurrent`) and have no row in the register table. -/
inductive Property where
  | rtc
  | rtcfactor
  | pwrsrc
  | batvolt
  | rpivolt
  | eprvolt
  | usbvolt
  | current
  | centigrade
  | fahrenheit
  | fwver
  | factory
  | reset
  | bootloader
  | errorno
  | watchdog
  | fssd
  | fssdtimeout
  | fssdtype
  | fssdbatime
  | starttimer
  | stoptimer
  | lprtimer
  | relay
  | eprlowv
  | minlprtime
  | lprcurrent
  | iomode
  | iovalue
  deriving DecidableEq, Repr

/-- The flag that requests a property. -/
def Property.requested : Property → Arguments → Bool
  | .rtc, a => a.rtc
  | .rtcfactor, a => a.rtcfactor
  | .pwrsrc, a => a.pwrsrc
  | .batvolt, a => a.batvolt
  | .rpivolt, a => a.rpivolt
  | .eprvolt, a => a.eprvolt
  | .usbvolt, a => a.usbvolt
  | .current, a => a.current
  | .centigrade, a => a.centigrade
  | .fahrenheit, a => a.fahrenheit
  | .fwver, a => a.fwver
  | .factory, a => a.factory
  | .reset, a => a.reset
  | .bootloader, a => a.bootloader
  | .errorno, a => a.errorno
  | .watchdog, a => a.watchdog
  | .fssd, a => a.fssd
  | .fssdtimeout, a => a.fssdtimeout
  | .fssdtype, a => a.fssdtype
  | .fssdbatime, a => a.fssdbatime
  | .starttimer, a => a.starttimer
  | .stoptimer, a => a.stoptimer
  | .lprtimer, a => a.lprtimer
  | .relay, a => a.relay
  | .eprlowv, a => a.eprlowv
  | .minlprtime, a => a.minlprtime
  | .lprcurrent, a => a.lprcurrent
  | .iomode, a => a.iomode
  | .iovalue, a => a.iovalue

/-- The block of `main` that handles a property. -/
def Property.block : Property → Arguments → Prog Unit
  | .rtc => main_rtc
  | .rtcfactor => main_rtcfactor
  | .pwrsrc => main_pwrsrc
  | .batvolt => main_batvolt
  | .rpivolt => main_rpivolt
  | .eprvolt => main_eprvolt
  | .usbvolt => main_usbvolt
  | .current => main_current
  | .centigrade => main_centigrade
  | .fahrenheit => main_fahrenheit
  | .fwver => main_fwver
  | .factory => main_factory
  | .reset => main_reset
  | .bootloader => main_bootloader
  | .errorno => main_errorno
  | .watchdog => main_watchdog
  | .fssd => main_fssd
  | .fssdtimeout => main_fssdtimeout
  | .fssdtype => main_fssdtype
  | .fssdbatime => main_fssdbatime
  | .starttimer => main_starttimer
  | .stoptimer => main_stoptimer
  | .lprtimer => main_lprtimer
  | .relay => main_relay
  | .eprlowv => main_eprlowv
  | .minlprtime => main_minlprtime
  | .lprcurrent => main_lprcurrent
  | .iomode => main_iomode
  | .iovalue => main_iovalue

/-- The properties in the order in which `main` runs their blocks
(upis.c:232-697). -/
def catalog : List Property :=
  [.rtc, .rtcfactor, .pwrsrc, .batvolt, .rpivolt, .eprvolt, .usbvolt, .current, .centigrade,
   .fahrenheit, .fwver, .factory, .reset, .bootloader, .errorno, .watchdog, .fssd, .fssdtimeout,
   .fssdtype, .fssdbatime, .starttimer, .stoptimer, .lprtimer, .relay, .eprlowv, .minlprtime,
   .lprcurrent, .iomode, .iovalue]

/-- The blocks of the listed properties run one after the other, followed by
the `return 0` of `main`. -/
def run_blocks (a : Arguments) : List Property → Prog Int
  | [] => pure 0
  | p :: ps => do
    p.block a
    run_blocks a ps

/-- The transport calls a computation adds to the record of events when it is
started in the world `w`. -/
def issued {α : Type} (p : Prog α) (w : World) : List Call :=
  (calls (p w).world.out).drop (calls w.out).length

/-- The transport calls of running the blocks of the listed properties one
after the other from the world `w`, each call paired with the property whose
block issued it.  A block that calls `exit` ends the run. -/
def tagged_calls (a : Arguments) : List Property → World → List (Property × Call)
  | [], _ => []
  | p :: ps, w =>
    (issued (p.block a) w).map (fun c => (p, c)) ++
      match p.block a w with
      | .ret _ w1 => tagged_calls a ps w1
      | .exit _ _ => []

/-- A byte read of register `i2creg` of device `i2caddr` on bus 1. -/
def is_read_byte (i2caddr i2creg : Nat) (c : Call) : Bool :=
  c == .readByte 1 i2caddr i2creg

/-- A word read of register `i2creg` of device `i2caddr` on bus 1. -/
def is_read_word (i2caddr i2creg : Nat) (c : Call) : Bool :=
  c == .readWord 1 i2caddr i2creg

/-- A byte write to register `i2creg` of device `i2caddr` on bus 1 of a value
in `lo..hi`. -/
def is_write_byte (i2caddr i2creg lo hi : Nat) : Call → Bool
  | .writeByte b a r v => b == 1 && a == i2caddr && r == i2creg && decide (lo ≤ v) && decide (v ≤ hi)
  | _ => false

/-- The property → register table of the specification (section 6), as the
set of transport calls it allows for each property: bus 1 throughout, the
device address, register and width of the row, and for a write the range of
the row or its fixed value.  The IO pin value row allows the read of the IO
pin mode that precedes it and either width.  A property that is not
implemented has no row and is allowed no call. -/
def Property.register_table : Property → Call → Bool
  | .rtc, c => (List.range 7).any fun r => is_read_byte 0x69 r c
  | .rtcfactor, c => is_read_byte 0x69 0x07 c || is_write_byte 0x69 0x07 0 255 c
  | .pwrsrc, c => is_read_byte 0x6A 0x00 c
  | .batvolt, c => is_read_word 0x6A 0x01 c
  | .rpivolt, c => is_read_word 0x6A 0x03 c
  | .eprvolt, c => is_read_word 0x6A 0x07 c
  | .usbvolt, c => is_read_word 0x6A 0x05 c
  | .current, c => is_read_word 0x6A 0x09 c
  | .centigrade, c => is_read_byte 0x6A 0x0B c
  | .fahrenheit, c => is_read_word 0x6A 0x0C c
  | .fwver, c => is_read_word 0x6B 0x00 c
  | .factory, c => is_write_byte 0x69 0x07 0xDD 0xDD c
  | .reset, c => is_write_byte 0x69 0x07 0xEE 0xEE c
  | .bootloader, c => is_write_byte 0x69 0x07 0xFF 0xFF c
  | .errorno, c => is_read_byte 0x6B 0x01 c
  | .watchdog, c => is_read_byte 0x6B 0x02 c || is_write_byte 0x6B 0x02 0 255 c
  | .fssd, c => is_write_byte 0x6B 0x02 0x00 0x00 c
  | .fssdtimeout, c => is_read_byte 0x6B 0x03 c || is_write_byte 0x6B 0x03 15 255 c
  | .fssdtype, c => is_read_byte 0x6B 0x04 c || is_write_byte 0x6B 0x04 0 2 c
  | .fssdbatime, c => is_read_byte 0x6B 0x05 c || is_write_byte 0x6B 0x05 0 255 c
  | .starttimer, _ => false
  | .stoptimer, _ => false
  | .lprtimer, c => is_read_byte 0x6B 0x0A c || is_write_byte 0x6B 0x0A 0 255 c
  | .relay, c => is_read_byte 0x6B 0x0B c || is_write_byte 0x6B 0x0B 0 1 c
  | .eprlowv, _ => false
  | .minlprtime, _ => false
  | .lprcurrent, _ => false
  | .iomode, c => is_read_byte 0x6B 0x10 c || is_write_byte 0x6B 0x10 0 3 c
  | .iovalue, c =>
    is_read_byte 0x6B 0x10 c || is_read_word 0x6B 0x11 c || is_read_byte 0x6B 0x11 c

/-- The option characters `parse_opt` knows. -/
def option_keys : List Char :=
  ['R', 'F', 's', 'b', 'p', 'e', 'u', 'a', 'c', 'f', 'Q', 'Z', 'z', 'l', 'E', 'w', 'S', 't', 'T',
   'B', 'o', 'O', 'L', 'r', 'h', 'm', 'I', 'i', 'V', 'y', 'v']

/-- What one call of `parse_opt` does to the record, field by field: the flag
of the option is set, the argument field of the option is overwritten, and
every other field is kept. -/
def parse_opt_update (key : Char) (arg : Option String) (arguments : Arguments) : Arguments where
  rtc := decide (key = 'R') || arguments.rtc
  rtcfactor := decide (key = 'F') || arguments.rtcfactor
  pwrsrc := decide (key = 's') || arguments.pwrsrc
  batvolt := decide (key = 'b') || arguments.batvolt
  rpivolt := decide (key = 'p') || arguments.rpivolt
  eprvolt := decide (key = 'e') || arguments.eprvolt
  usbvolt := decide (key = 'u') || arguments.usbvolt
  current := decide (key = 'a') || arguments.current
  centigrade := decide (key = 'c') || arguments.centigrade
  fahrenheit := decide (key = 'f') || arguments.fahrenheit
  fwver := decide (key = 'Q') || arguments.fwver
  factory := decide (key = 'Z') || arguments.factory
  reset := decide (key = 'z') || arguments.reset
  bootloader := decide (key = 'l') || arguments.bootloader
  errorno := decide (key = 'E') || arguments.errorno
  watchdog := decide (key = 'w') || arguments.watchdog
  fssd := decide (key = 'S') || arguments.fssd
  fssdtimeout := decide (key = 't') || arguments.fssdtimeout
  fssdtype := decide (key = 'T') || arguments.fssdtype
  fssdbatime := decide (key = 'B') || arguments.fssdbatime
  starttimer := decide (key = 'o') || arguments.starttimer
  stoptimer := decide (key = 'O') || arguments.stoptimer
  lprtimer := decide (key = 'L') || arguments.lprtimer
  relay := decide (key = 'r') || arguments.relay
  eprlowv := decide (key = 'h') || arguments.eprlowv
  minlprtime := decide (key = 'm') || arguments.minlprtime
  lprcurrent := decide (key = 'I') || arguments.lprcurrent
  iomode := decide (key = 'i') || arguments.iomode
  iovalue := decide (key = 'V') || arguments.iovalue
  yes := decide (key = 'y') || arguments.yes
  verbose := decide (key = 'v') || arguments.verbose
  RTCF := if key = 'F' then arg else arguments.RTCF
  WDTIM := if key = 'w' then arg else arguments.WDTIM
  FSSDTIM := if key = 't' then arg else arguments.FSSDTIM
  FSSDACT := if key = 'T' then arg else arguments.FSSDACT
  BATTIM := if key = 'B' then arg else arguments.BATTIM
  ONTIM := if key = 'o' then arg else arguments.ONTIM
  OFFTIM := if key = 'O' then arg else arguments.OFFTIM
  LPRTIM := if key = 'L' then arg else arguments.LPRTIM
  RLYSTAT := if key = 'r' then arg else arguments.RLYSTAT
  EPRLOWV := if key = 'h' then arg else arguments.EPRLOWV
  MINLPRTIM := if key = 'm' then arg else arguments.MINLPRTIM
  LPRAMP := if key = 'I' then arg else arguments.LPRAMP
  IOMODE := if key = 'i' then arg else arguments.IOMODE

/-- No transport call fails: every outcome is a transaction result that is not
negative. -/
def NoFail (bus : Nat → Outcome) : Prop :=
  ∀ i, ∃ r, 0 ≤ r ∧ bus i = .result r

/-- When no transport call fails, `p` returns, issues exactly the calls `cs`
whatever the world it starts in, and leaves standard input and `strresp`
alone. -/
structure Emits {α : Type} (p : Prog α) (cs : List Call) : Prop where
  run : ∀ w, NoFail w.bus → ∃ x w1, p w = .ret x w1 ∧ calls w1.out = calls w.out ++ cs
    ∧ w1.bus = (fun i => w.bus (i + cs.length)) ∧ w1.rtl = w.rtl ∧ w1.stdin = w.stdin
    ∧ w1.strresp = w.strresp

/-- The calls of a property that is requested, none when it is not. -/
def seq_if (requested : Bool) (cs : List Call) : List Call :=
  if requested then cs else []

/-- The transport calls of a read-write property as a function of its own
argument and the verbose flag: without an argument the register is read (twice
in verbose mode, except for the relay); with an argument the validator decides,
and an accepted value `n` is written and, except for the relay, read back
twice. -/
def rw_calls (p : RWProperty) (value : Option String) (verbose : Bool) : List Call :=
  match value with
  | none =>
    .readByte 1 p.addr p.reg ::
      (if verbose = true ∧ p ≠ .relay then [.readByte 1 p.addr p.reg] else [])
  | some s =>
    match p.accepts s with
    | none => []
    | some n =>
      .writeByte 1 p.addr p.reg n ::
        (if p = .relay then [] else [.readByte 1 p.addr p.reg, .readByte 1 p.addr p.reg])

/-- The calls of the properties that come before the guarded actions, in the
order of their blocks; each term depends on the flag and argument of its own
property and on the verbose flag only. -/
def calls_before_guard (a : Arguments) : List Call :=
  seq_if a.rtc [.readByte 1 0x69 0x04, .readByte 1 0x69 0x05, .readByte 1 0x69 0x06,
      .readByte 1 0x69 0x02, .readByte 1 0x69 0x01, .readByte 1 0x69 0x00, .readByte 1 0x69 0x03]
    ++ seq_if a.rtcfactor (rw_calls .rtcfactor a.RTCF a.verbose)
    ++ seq_if a.pwrsrc [.readByte 1 0x6A 0x00]
    ++ seq_if a.batvolt [.readWord 1 0x6A 0x01]
    ++ seq_if a.rpivolt [.readWord 1 0x6A 0x03]
    ++ seq_if a.eprvolt [.readWord 1 0x6A 0x07]
    ++ seq_if a.usbvolt [.readWord 1 0x6A 0x05]
    ++ seq_if a.current [.readWord 1 0x6A 0x09]
    ++ seq_if a.centigrade [.readByte 1 0x6A 0x0B]
    ++ seq_if a.fahrenheit [.readWord 1 0x6A 0x0C]
    ++ seq_if a.fwver [.readWord 1 0x6B 0x00]

/-- The calls of the properties between the guarded actions and the IO pin
value, in the order of their blocks; each term depends on the flag and
argument of its own property and on the verbose flag only. -/
def calls_after_guard (a : Arguments) : List Call :=
  seq_if a.errorno [.readByte 1 0x6B 0x01]
    ++ seq_if a.watchdog (rw_calls .watchdog a.WDTIM a.verbose)
    ++ seq_if a.fssd [.writeByte 1 0x6B 0x02 0x00]
    ++ seq_if a.fssdtimeout (rw_calls .fssdtimeout a.FSSDTIM a.verbose)
    ++ seq_if a.fssdtype (rw_calls .fssdtype a.FSSDACT a.verbose)
    ++ seq_if a.fssdbatime (rw_calls .fssdbatime a.BATTIM a.verbose)
    ++ seq_if a.lprtimer (rw_calls .lprtimer a.LPRTIM a.verbose)
    ++ seq_if a.relay (rw_calls .relay a.RLYSTAT a.verbose)
    ++ seq_if a.iomode (rw_calls .iomode a.IOMODE a.verbose)

/-- The blocks of `main` before the guarded actions. -/
def main_pre (a : Arguments) : Prog Unit := do
  main_rtc a
  main_rtcfactor a
  main_pwrsrc a
  main_batvolt a
  main_rpivolt a
  main_eprvolt a
  main_usbvolt a
  main_current a
  main_centigrade a
  main_fahrenheit a
  main_fwver a

/-- The three guarded actions by themselves, in the order of their blocks. -/
def main_guard (a : Arguments) : Prog Unit := do
  main_factory a
  main_reset a
  main_bootloader a

/-- The blocks of `main` between the guarded actions and the IO pin value. -/
def main_mid (a : Arguments) : Prog Unit := do
  main_errorno a
  main_watchdog a
  main_fssd a
  main_fssdtimeout a
  main_fssdtype a
  main_fssdbatime a
  main_starttimer a
  main_stoptimer a
  main_lprtimer a
  main_relay a
  main_eprlowv a
  main_minlprtime a
  main_lprcurrent a
  main_iomode a

/-- One guarded block as a function of what it finds on standard input and
in `strresp`: the calls it issues and what it leaves there. -/
def confirm_step (requested yes : Bool) (i2cval : Nat) (st : List String × String) :
    List Call × List String × String :=
  if requested then
    if yes then ([.writeByte 1 0x69 0x07 i2cval], st)
    else
      match st.1 with
      | [] => (if st.2 = "y" ∨ st.2 = "Y" then [.writeByte 1 0x69 0x07 i2cval] else [], st)
      | t :: ts => (if t = "y" ∨ t = "Y" then [.writeByte 1 0x69 0x07 i2cval] else [], ts, t)
  else ([], st)

/-- The three guarded blocks as a function of standard input and `strresp`. -/
def guard_calls (a : Arguments) (st : List String × String) : List Call :=
  let r1 := confirm_step a.factory a.yes 0xDD st
  let r2 := confirm_step a.reset a.yes 0xEE r1.2
  let r3 := confirm_step a.bootloader a.yes 0xFF r2.2
  r1.1 ++ r2.1 ++ r3.1

/-- The transport calls of the block of a property started in the world `w`
when no call fails, as the register table and the validators give them: the
reads of the row for a read-only property, `rw_calls` for a read-write one, the
fixed write for the FSSD trigger, for a guarded action its fixed write when
the guard lets it through (`confirm_step` on what `w` holds of standard input
and of `strresp`), the two reads of the IO pin value, and nothing for a
property that is not requested or not implemented. -/
def Property.calls (p : Property) (a : Arguments) (w : World) : List Call :=
  match p with
  | .rtc => seq_if a.rtc [.readByte 1 0x69 0x04, .readByte 1 0x69 0x05, .readByte 1 0x69 0x06,
      .readByte 1 0x69 0x02, .readByte 1 0x69 0x01, .readByte 1 0x69 0x00, .readByte 1 0x69 0x03]
  | .rtcfactor => seq_if a.rtcfactor (rw_calls .rtcfactor a.RTCF a.verbose)
  | .pwrsrc => seq_if a.pwrsrc [.readByte 1 0x6A 0x00]
  | .batvolt => seq_if a.batvolt [.readWord 1 0x6A 0x01]
  | .rpivolt => seq_if a.rpivolt [.readWord 1 0x6A 0x03]
  | .eprvolt => seq_if a.eprvolt [.readWord 1 0x6A 0x07]
  | .usbvolt => seq_if a.usbvolt [.readWord 1 0x6A 0x05]
  | .current => seq_if a.current [.readWord 1 0x6A 0x09]
  | .centigrade => seq_if a.centigrade [.readByte 1 0x6A 0x0B]
  | .fahrenheit => seq_if a.fahrenheit [.readWord 1 0x6A 0x0C]
  | .fwver => seq_if a.fwver [.readWord 1 0x6B 0x00]
  | .factory => (confirm_step a.factory a.yes 0xDD (w.stdin, w.strresp)).1
  | .reset => (confirm_step a.reset a.yes 0xEE (w.stdin, w.strresp)).1
  | .bootloader => (confirm_step a.bootloader a.yes 0xFF (w.stdin, w.strresp)).1
  | .errorno => seq_if a.errorno [.readByte 1 0x6B 0x01]
  | .watchdog => seq_if a.watchdog (rw_calls .watchdog a.WDTIM a.verbose)
  | .fssd => seq_if a.fssd [.writeByte 1 0x6B 0x02 0x00]
  | .fssdtimeout => seq_if a.fssdtimeout (rw_calls .fssdtimeout a.FSSDTIM a.verbose)
  | .fssdtype => seq_if a.fssdtype (rw_calls .fssdtype a.FSSDACT a.verbose)
  | .fssdbatime => seq_if a.fssdbatime (rw_calls .fssdbatime a.BATTIM a.verbose)
  | .starttimer => []
  | .stoptimer => []
  | .lprtimer => seq_if a.lprtimer (rw_calls .lprtimer a.LPRTIM a.verbose)
  | .relay => seq_if a.relay (rw_calls .relay a.RLYSTAT a.verbose)
  | .eprlowv => []
  | .minlprtime => []
  | .lprcurrent => []
  | .iomode => seq_if a.iomode (rw_calls .iomode a.IOMODE a.verbose)
  | .iovalue => iovalue_calls a.iovalue (w.bus 0)

/-- The call `c` is the write of the RTC correction factor block: the property
is requested with a string `s` that the test of the block accepts, and `c`
writes `atoi(s)` to register 0x07 of device 0x69. -/
def rtcfactor_writes (a : Arguments) (c : Call) : Prop :=
  a.rtcfactor = true ∧ ∃ s, a.RTCF = some s ∧ write_valid s 0 255 = true
    ∧ c = .writeByte 1 0x69 0x07 (atoi s).toNat

/-- A prompt in the record `es` was answered with consent: a `scanf` read the
token `"y"` or `"Y"`, or a `scanf` met the end of input while `strresp` held
`"y"` or `"Y"` from the start (`strresp0` is what it held when `main`
started). -/
def consented (strresp0 : String) (es : List Event) : Bool :=
  es.any fun e =>
    match e with
    | .scanf (some t) => is_yes t
    | .scanf none => is_yes strresp0
    | _ => false

/-! ## Facts about the string helpers -/

theorem isDigit_iff (c : Char) : c.isDigit = true ↔ 48 ≤ c.toNat ∧ c.toNat ≤ 57 := by
  simp only [Char.isDigit, Char.toNat, Bool.and_eq_true, decide_eq_true_eq, ge_iff_le,
    UInt32.le_def]
  rfl

theorem is_intstr_loop_eq (l : List Char) :
    is_intstr_loop l = if ∀ c ∈ l, c.isDigit = true then 1 else 0 := by
  induction l with
  | nil => simp [is_intstr_loop]
  | cons c cs ih =>
    simp only [is_intstr_loop, List.forall_mem_cons, isDigit_iff] at ih ⊢
    by_cases h : c.toNat < 48 ∨ c.toNat > 57
    · have : ¬ (48 ≤ c.toNat ∧ c.toNat ≤ 57) := by omega
      simp [h, this]
    · have : (48 ≤ c.toNat ∧ c.toNat ≤ 57) := by omega
      simp only [h, this, if_false, true_and]
      simpa [isDigit_iff] using ih

theorem is_intstr_ne_zero (s : String) (h : is_intstr s ≠ 0) :
    (∀ c ∈ s.data, c.isDigit = true) ∧ (s.data.head? = some '0' → s = "0") := by
  obtain ⟨l⟩ := s
  unfold is_intstr at h
  have h48 : Char.ofNat 48 = '0' := by decide
  rw [h48] at h
  by_cases hz : l.head? = some '0' ∧ l.length > 1
  · simp [hz] at h
  · rw [if_neg hz, is_intstr_loop_eq] at h
    have hd : ∀ c ∈ l, c.isDigit = true := by
      by_contra hd
      simp [hd] at h
    refine ⟨hd, fun h0 => ?_⟩
    match l, hz, h0 with
    | [c], _, h0 =>
      simp only [List.head?_cons, Option.some.injEq] at h0
      rw [h0]
    | c :: d :: r, hz, h0 => exact absurd ⟨h0, by simp⟩ hz

/-- C5: `is_intstr` returns 1 exactly when every character of the string is an
ASCII decimal digit and the string does not begin with `'0'` unless it is
exactly `"0"`; in every other case it returns 0. -/
theorem is_intstr_spec (s : String) :
    is_intstr s =
      if (∀ c ∈ s.data, c.isDigit = true) ∧ (s.data.head? = some '0' → s = "0") then 1 else 0 := by
  obtain ⟨l⟩ := s
  unfold is_intstr
  rw [is_intstr_loop_eq]
  have h48 : Char.ofNat 48 = '0' := by decide
  rw [h48]
  match l with
  | [] => simp
  | [c] =>
    by_cases hc : c = '0'
    · subst hc; simp
    · simp [hc]
  | c :: d :: r =>
    by_cases hc : c = '0'
    · subst hc
      have : (⟨'0' :: d :: r⟩ : String) ≠ "0" := by
        intro h
        have := congrArg String.data h
        simp at this
      simp [this]
    · simp [hc]

theorem digit_mem (c : Char) (h : c.isDigit = true) :
    c ∈ ['0', '1', '2', '3', '4', '5', '6', '7', '8', '9'] := by
  rw [isDigit_iff] at h
  have hc : c = Char.ofNat c.toNat := by simp
  obtain ⟨h1, h2⟩ := h
  generalize c.toNat = n at hc h1 h2
  subst hc
  interval_cases n <;> decide

theorem digitsValue_ge (l : List Char) (hl : ∀ c ∈ l, c.isDigit = true) (acc : Nat) :
    acc * 10 ^ l.length ≤ digitsValue acc l := by
  induction l generalizing acc with
  | nil => simp [digitsValue]
  | cons c cs ih =>
    have hc := (isDigit_iff c).1 (hl c (by simp))
    simp only [digitsValue, hc, and_self, if_true, List.length_cons]
    refine le_trans ?_ (ih (fun d hd => hl d (by simp [hd])) _)
    rw [pow_succ]
    nlinarith [Nat.zero_le (10 ^ cs.length), Nat.zero_le (c.toNat - 48)]

theorem digitsValue_lt (l : List Char) (acc : Nat) :
    digitsValue acc l < (acc + 1) * 10 ^ l.length := by
  induction l generalizing acc with
  | nil => simp [digitsValue]
  | cons c cs ih =>
    simp only [digitsValue, List.length_cons]
    split
    · rename_i hc
      refine lt_of_lt_of_le (ih _) ?_
      rw [pow_succ]
      have : acc * 10 + (c.toNat - 48) + 1 ≤ (acc + 1) * 10 := by omega
      calc (acc * 10 + (c.toNat - 48) + 1) * 10 ^ cs.length
          ≤ ((acc + 1) * 10) * 10 ^ cs.length := Nat.mul_le_mul_right _ this
        _ = (acc + 1) * (10 ^ cs.length * 10) := by ring
    · have : 0 < 10 ^ (cs.length + 1) := by positivity
      nlinarith

theorem atoi_digits (s : String) (hl : ∀ c ∈ s.data, c.isDigit = true) :
    atoi s = long_to_int (min LONG_MAX (digitsValue 0 s.data : Int)) := by
  obtain ⟨l⟩ := s
  unfold atoi strtol
  match l with
  | [] => simp
  | c :: r =>
    have hc := (isDigit_iff c).1 (hl c (by simp))
    have hs : isspace c = false := by
      simp only [isspace, Bool.or_eq_false_iff, decide_eq_false_iff_not, Bool.and_eq_false_imp,
        decide_eq_true_eq]
      omega
    have h1 : c ≠ '-' := by rintro rfl; simp at hc
    have h2 : c ≠ '+' := by rintro rfl; simp at hc
    simp only [List.dropWhile, hs]
    split
    · simp_all
    · simp_all
    · rfl

theorem atoi_short (s : String) (hl : ∀ c ∈ s.data, c.isDigit = true) (hlen : s.length ≤ 9) :
    atoi s = (digitsValue 0 s.data : Int) := by
  rw [atoi_digits s hl]
  have h := digitsValue_lt s.data 0
  have hp : 10 ^ s.data.length ≤ 10 ^ 9 := Nat.pow_le_pow_right (by norm_num) hlen
  have hv : digitsValue 0 s.data < 1000000000 := by
    have : (0 + 1) * 10 ^ s.data.length ≤ 1000000000 := by simpa using hp
    omega
  simp only [long_to_int, LONG_MAX, INT_MIN, INT_MAX]
  norm_num
  omega

theorem canon1 : ∀ a ∈ digitChars,
    (⟨[a]⟩ : String) = toString (digitsValue 0 [a]) := by decide!

theorem canon2 : ∀ a ∈ digitChars, ∀ b ∈ digitChars, a ≠ '0' →
    (⟨[a, b]⟩ : String) = toString (digitsValue 0 [a, b]) := by decide!

theorem canon3 : ∀ a ∈ digitChars, ∀ b ∈ digitChars, ∀ c ∈ digitChars, a ≠ '0' →
    (⟨[a, b, c]⟩ : String) = toString (digitsValue 0 [a, b, c]) := by decide!

theorem canonical_of_small (s : String) (hd : ∀ c ∈ s.data, c.isDigit = true)
    (h0 : s.data.head? = some '0' → s = "0") (hne : s.data ≠ [])
    (hv : digitsValue 0 s.data ≤ 999) : s = toString (digitsValue 0 s.data) := by
  obtain ⟨l⟩ := s
  match l with
  | [] => exact absurd rfl hne
  | [a] => exact canon1 a (digit_mem a (hd a (by simp)))
  | [a, b] =>
    have ha : a ≠ '0' := by
      rintro rfl
      have := congrArg String.data (h0 rfl)
      simp at this
    exact canon2 a (digit_mem a (hd a (by simp))) b (digit_mem b (hd b (by simp))) ha
  | [a, b, c] =>
    have ha : a ≠ '0' := by
      rintro rfl
      have := congrArg String.data (h0 rfl)
      simp at this
    exact canon3 a (digit_mem a (hd a (by simp))) b (digit_mem b (hd b (by simp)))
      c (digit_mem c (hd c (by simp))) ha
  | a :: b :: c :: d :: r =>
    exfalso
    have ha : a ≠ '0' := by
      rintro rfl
      have := congrArg String.data (h0 rfl)
      simp at this
    have hda := (isDigit_iff a).1 (hd a (by simp))
    have ha1 : 1 ≤ a.toNat - 48 := by
      have : a.toNat ≠ 48 := fun h => ha (by
        have h2 : a = Char.ofNat a.toNat := by simp
        rw [h2, h])
      omega
    have hge := digitsValue_ge (b :: c :: d :: r) (fun x hx => hd x (by simp at hx ⊢; tauto))
      (0 * 10 + (a.toNat - 48))
    have hval : digitsValue 0 (a :: b :: c :: d :: r)
        = digitsValue (0 * 10 + (a.toNat - 48)) (b :: c :: d :: r) := by
      simp [digitsValue, hda]
    simp only [hval] at hv
    have hp : 1000 ≤ 10 ^ (b :: c :: d :: r).length := by
      simp only [List.length_cons]
      calc 1000 = 10 ^ 3 := by norm_num
        _ ≤ 10 ^ (r.length + 1 + 1 + 1) := Nat.pow_le_pow_right (by norm_num) (by omega)
    have : 1000 ≤ (0 * 10 + (a.toNat - 48)) * 10 ^ (b :: c :: d :: r).length := by
      nlinarith
    omega

theorem toString_valid_list : ∀ n ∈ List.range 256,
    is_intstr (toString n) = 1 ∧ atoi (toString n) = Int.ofNat n := by decide!

theorem toString_valid (n : Nat) (h : n < 256) :
    is_intstr (toString n) = 1 ∧ atoi (toString n) = (n : Int) :=
  toString_valid_list n (List.mem_range.2 h)

theorem write_valid_iff (s : String) (lo hi : Nat) (hlo : 1 ≤ lo) (hhi : hi ≤ 255)
    (hlen : s.length ≤ 9) :
    write_valid s lo hi = true ↔ ∃ n : Nat, lo ≤ n ∧ n ≤ hi ∧ s = toString n := by
  constructor
  · intro h
    simp only [write_valid, decide_eq_true_eq, ge_iff_le] at h
    obtain ⟨h1, h2, h3⟩ := h
    have hc := is_intstr_ne_zero s h1
    have hat := atoi_short s hc.1 hlen
    rw [hat] at h2 h3
    have hv : digitsValue 0 s.data ≤ hi := by omega
    have hne : s.data ≠ [] := by
      intro he
      rw [he] at h2
      simp [digitsValue] at h2
      omega
    exact ⟨digitsValue 0 s.data, by omega, hv, canonical_of_small s hc.1 hc.2 hne (by omega)⟩
  · rintro ⟨n, h1, h2, rfl⟩
    have := toString_valid n (by omega)
    simp only [write_valid, decide_eq_true_eq, ge_iff_le, this.1, this.2]
    omega

/-! ## Running programs -/

theorem bind_run {α β : Type} (m : Prog α) (f : α → Prog β) (w : World) :
    (m >>= f) w = match m w with
      | .ret a w1 => f a w1
      | .exit c w1 => .exit c w1 := rfl

theorem pure_run {α : Type} (a : α) (w : World) : (pure a : Prog α) w = .ret a w := rfl

theorem calls_append (xs ys : List Event) : calls (xs ++ ys) = calls xs ++ calls ys := by
  induction xs with
  | nil => rfl
  | cons e es ih => cases e <;> simp [calls, ih]

theorem asks_append (xs ys : List Event) : asks (xs ++ ys) = asks xs + asks ys := by
  induction xs with
  | nil => simp [asks]
  | cons e es ih =>
    cases e <;> simp [asks, ih]
    omega

theorem display_set_rejected (s : String) (verbose : Bool) (n i2caddr i2creg : Nat) (lo hi : Int)
    (label setfmt errfmt : String) (h : write_valid s lo hi = false) (w : World) :
    main_display_set (some s) verbose n i2caddr i2creg lo hi label setfmt errfmt w
      = .ret () { w with out := w.out ++ [.printf errfmt [.str s]] } := by
  simp [main_display_set, h, printf]

theorem display_set_accepted (s : String) (verbose : Bool) (n i2caddr i2creg : Nat) (lo hi : Int)
    (label setfmt errfmt : String) (h : write_valid s lo hi = true) (w : World)
    (r0 r1 r2 : Int) (h0 : w.bus 0 = .result r0) (h1 : w.bus 1 = .result r1)
    (h2 : w.bus 2 = .result r2) (p0 : 0 ≤ r0) (p1 : 0 ≤ r1) (p2 : 0 ≤ r2) :
    (main_display_set (some s) verbose n i2caddr i2creg lo hi label setfmt errfmt w).world.out
      = w.out ++ [.call (.writeByte 1 i2caddr (i2creg % 256) (atoi s % 256).toNat) (.result r0),
          .call (.readByte 1 i2caddr (i2creg % 256)) (.result r1),
          .call (.readByte 1 i2caddr (i2creg % 256)) (.result r2),
          .printf setfmt (if w.rtl then [.int r2, .int r1] else [.int r1, .int r2])] := by
  have q0 : ¬ r0 < 0 := by omega
  have q1 : ¬ r1 < 0 := by omega
  have q2 : ¬ r2 < 0 := by omega
  cases hr : w.rtl <;>
  simp [main_display_set, h, printf, writei2cbyte, readi2cbyte_twice, readi2cbyte, transact,
    get_rtl, bind_run, pure_run, h0, h1, h2, q0, q1, q2, hr, Res.world]

theorem print_lines_run (ls : List String) (w : World) :
    print_lines ls w = .ret () { w with out := w.out ++ ls.map (fun l => .printf l []) } := by
  induction ls generalizing w with
  | nil => simp [print_lines, pure_run]
  | cons l ls ih => simp [print_lines, bind_run, printf, ih]

theorem calls_printfs (ls : List String) : calls (ls.map (fun l => Event.printf l [])) = [] := by
  induction ls with
  | nil => rfl
  | cons l ls ih => simpa [calls] using ih

theorem asks_printfs (ls : List String) : asks (ls.map (fun l => Event.printf l [])) = 0 := by
  induction ls with
  | nil => rfl
  | cons l ls ih => simpa [asks] using ih

theorem writei2cbyte_calls (b a r : Nat) (v : Int) (w : World) :
    calls (writei2cbyte b a r v w).world.out
      = calls w.out ++ [.writeByte b a (r % 256) (v % 256).toNat] := by
  simp only [writei2cbyte, bind_run, transact]
  cases w.bus 0 with
  | openFail => simp [printf, exit, bind_run, Res.world, calls_append, calls]
  | accessFail => simp [printf, exit, bind_run, Res.world, calls_append, calls]
  | result r =>
    by_cases hr : r < 0 <;> simp [hr, printf, pure_run, Res.world, calls_append, calls]

theorem writei2cbyte_asks (b a r : Nat) (v : Int) (w : World) :
    asks (writei2cbyte b a r v w).world.out = asks w.out := by
  simp only [writei2cbyte, bind_run, transact]
  cases w.bus 0 with
  | openFail => simp [printf, exit, bind_run, Res.world, asks_append, asks]
  | accessFail => simp [printf, exit, bind_run, Res.world, asks_append, asks]
  | result r =>
    by_cases hr : r < 0 <;> simp [hr, printf, pure_run, Res.world, asks_append, asks]

theorem confirm_yes (warning : List String) (v : Int) (aborted : String) (w : World) :
    calls (main_confirm true warning v aborted w).world.out
        = calls w.out ++ [.writeByte 1 0x69 0x07 (v % 256).toNat]
      ∧ asks (main_confirm true warning v aborted w).world.out = asks w.out := by
  have h : main_confirm true warning v aborted w = writei2cbyte 1 0x69 0x07 v w := by
    simp [main_confirm, bind_run, pure_run, get_strresp]
  rw [h]
  exact ⟨writei2cbyte_calls _ _ _ _ _, writei2cbyte_asks _ _ _ _ _⟩

theorem confirm_no_asks (warning : List String) (v : Int) (aborted : String) (w : World) :
    asks (main_confirm false warning v aborted w).world.out = asks w.out + 1 := by
  simp only [main_confirm, bind_run, print_lines_run, scanf_strresp, get_strresp, Bool.not_false,
    if_true]
  cases hs : w.stdin with
  | nil =>
    by_cases hy : w.strresp = "y" ∨ w.strresp = "Y"
    · simp [hy, writei2cbyte_asks, asks_append, asks_printfs, asks]
    · simp [hy, printf, Res.world, asks_append, asks_printfs, asks]
  | cons t ts =>
    by_cases hy : t = "y" ∨ t = "Y"
    · simp [hy, writei2cbyte_asks, asks_append, asks_printfs, asks]
    · simp [hy, printf, Res.world, asks_append, asks_printfs, asks]

theorem confirm_no_token (warning : List String) (v : Int) (aborted : String) (w : World)
    (tok : String) (rest : List String) (hs : w.stdin = tok :: rest) :
    (calls (main_confirm false warning v aborted w).world.out
        = calls w.out ++ (if tok = "y" ∨ tok = "Y" then [.writeByte 1 0x69 0x07 (v % 256).toNat]
            else []))
      ∧ (¬ (tok = "y" ∨ tok = "Y") →
          (main_confirm false warning v aborted w).world.out.getLast?
            = some (.printf aborted [])) := by
  simp only [main_confirm, bind_run, print_lines_run, scanf_strresp, get_strresp, hs,
    Bool.not_false, if_true]
  by_cases hy : tok = "y" ∨ tok = "Y"
  · simp [hy, writei2cbyte_calls, calls_append, calls_printfs, calls]
  · simp [hy, printf, Res.world, calls_append, calls_printfs, calls]

theorem action_block_eq (act : Action) (a : Arguments) (hreq : act.requested a = true) :
    ∃ warning, act.block a = main_confirm a.yes warning (act.sentinel : Int) act.aborted := by
  cases act <;> simp only [Action.requested] at hreq
  · exact ⟨factory_warning, by simp [Action.block, main_factory, hreq]; rfl⟩
  · exact ⟨reset_warning, by simp [Action.block, main_reset, hreq]; rfl⟩
  · exact ⟨bootloader_warning, by simp [Action.block, main_bootloader, hreq]; rfl⟩

theorem action_sentinel_byte (act : Action) : ((act.sentinel : Int) % 256).toNat = act.sentinel := by
  cases act <;> rfl

/-- The guard when `scanf` yields a token, for each of factory reset, processor
reset and bootloader entry: with the override flag set the fixed value is
written to register 0x07 of device 0x69 and `scanf` is not called; with the
flag unset `scanf` is called exactly once, and when it yields a token the write
is issued exactly when the token is `"y"` or `"Y"`, any other token (such as
`"n"`) giving no transport call and the "aborted" line as the last thing
printed. -/
theorem guard_with_token (act : Action) (a : Arguments) (bus : Nat → Outcome) (rtl : Bool)
    (stdin : List String) (strresp : String) (hreq : act.requested a = true) :
    (a.yes = true →
      calls (run (act.block a) bus rtl stdin strresp) = [.writeByte 1 0x69 0x07 act.sentinel]
        ∧ asks (run (act.block a) bus rtl stdin strresp) = 0)
    ∧ (a.yes = false →
      asks (run (act.block a) bus rtl stdin strresp) = 1
        ∧ ∀ tok rest, stdin = tok :: rest →
          (calls (run (act.block a) bus rtl stdin strresp)
              = if tok = "y" ∨ tok = "Y" then [.writeByte 1 0x69 0x07 act.sentinel] else [])
            ∧ (¬ (tok = "y" ∨ tok = "Y") →
              (run (act.block a) bus rtl stdin strresp).getLast?
                = some (.printf act.aborted []))) := by
  obtain ⟨warning, hb⟩ := action_block_eq act a hreq
  simp only [run, hb]
  have hout : (World.init bus rtl stdin strresp).out = [] := rfl
  refine ⟨fun hy => ?_, fun hn => ⟨?_, fun tok rest hs => ?_⟩⟩
  · have h := confirm_yes warning (act.sentinel : Int) act.aborted (World.init bus rtl stdin strresp)
    rw [hy, h.1, h.2, hout, action_sentinel_byte]
    exact ⟨rfl, rfl⟩
  · rw [hn, confirm_no_asks, hout]
    rfl
  · have h := confirm_no_token warning (act.sentinel : Int) act.aborted
      (World.init bus rtl stdin strresp) tok rest hs
    rw [hn, h.1, hout, action_sentinel_byte]
    exact ⟨by simp [calls], h.2⟩

/-- C1 fails on the code: `upis -z -l` with the single token `Y` on standard
input.  The prompt of the bootloader entry gets no response: its `scanf` meets
the end of input and leaves in `strresp` the `Y` given to the processor reset,
and 0xFF is written.  The same happens to one action alone when `strresp`,
which is not initialised, holds `y` and there is no input: the prompt is
issued once, no token is read, and 0xDD is written. -/
theorem guard_writes_without_response :
    run (main [('z', none), ('l', none)]) (fun _ => .result 0) false ["Y"] ""
        = (reset_warning.map fun l => .printf l [])
          ++ [.scanf (some "Y"), .call (.writeByte 1 0x69 0x07 0xEE) (.result 0)]
          ++ (bootloader_warning.map fun l => .printf l [])
          ++ [.scanf none, .call (.writeByte 1 0x69 0x07 0xFF) (.result 0)]
      ∧ run (main [('Z', none)]) (fun _ => .result 0) false [] "y"
        = (factory_warning.map fun l => .printf l [])
          ++ [.scanf none, .call (.writeByte 1 0x69 0x07 0xDD) (.result 0)] := by
  decide!

/-! ## Invariants of programs -/

section keeps
variable {I : World → Prop} {P : Call → Prop}

theorem keeps_pure {α : Type} (a : α) : Keeps I (pure a : Prog α) := fun _ h => h

theorem keeps_exit {α : Type} (code : Nat) : Keeps I (exit code : Prog α) := fun _ h => h

theorem keeps_get_rtl : Keeps I get_rtl := fun _ h => h

theorem keeps_get_strresp : Keeps I get_strresp := fun _ h => h

theorem keeps_bind {α β : Type} {m : Prog α} {f : α → Prog β} (hm : Keeps I m)
    (hf : ∀ a, Keeps I (f a)) : Keeps I (m >>= f) := by
  intro w hw
  have h1 := hm w hw
  rw [bind_run]
  cases hmw : m w with
  | ret a w1 =>
    rw [hmw] at h1
    exact hf a w1 h1
  | exit c w1 =>
    rw [hmw] at h1
    exact h1

theorem keeps_ite {α : Type} {c : Prop} [Decidable c] {x y : Prog α} (hx : c → Keeps I x)
    (hy : ¬ c → Keeps I y) : Keeps I (if c then x else y) := by
  by_cases h : c
  · simpa [h] using hx h
  · simpa [h] using hy h

theorem keeps_printf (h : Stable I P) (fmt : String) (args : List Arg) :
    Keeps I (printf fmt args) := fun w hw => h.printf w fmt args hw

theorem keeps_scanf (h : Stable I P) : Keeps I scanf_strresp := fun w hw => h.scanf w hw

theorem keeps_transact (h : Stable I P) {c : Call} (hc : P c) : Keeps I (transact c) :=
  fun w hw => h.call w c hc hw

theorem keeps_print_lines (h : Stable I P) (ls : List String) : Keeps I (print_lines ls) := by
  induction ls with
  | nil => exact keeps_pure _
  | cons l ls ih => exact keeps_bind (keeps_printf h _ _) (fun _ => ih)

theorem keeps_readi2cbyte (h : Stable I P) {b a r : Nat} (hc : P (.readByte b a (r % 256))) :
    Keeps I (readi2cbyte b a r) := by
  unfold readi2cbyte
  refine keeps_bind (keeps_transact h hc) (fun o => ?_)
  cases o with
  | openFail => exact keeps_bind (keeps_printf h _ _) (fun _ => keeps_exit _)
  | accessFail => exact keeps_bind (keeps_printf h _ _) (fun _ => keeps_exit _)
  | result r =>
    exact keeps_ite (fun _ => keeps_bind (keeps_printf h _ _) (fun _ => keeps_exit _))
      (fun _ => keeps_pure _)

theorem keeps_readi2cword (h : Stable I P) {b a r : Nat} (hc : P (.readWord b a (r % 256))) :
    Keeps I (readi2cword b a r) := by
  unfold readi2cword
  refine keeps_bind (keeps_transact h hc) (fun o => ?_)
  cases o with
  | openFail => exact keeps_bind (keeps_printf h _ _) (fun _ => keeps_exit _)
  | accessFail => exact keeps_bind (keeps_printf h _ _) (fun _ => keeps_exit _)
  | result r =>
    exact keeps_ite (fun _ => keeps_bind (keeps_printf h _ _) (fun _ => keeps_exit _))
      (fun _ => keeps_pure _)

theorem keeps_writei2cbyte (h : Stable I P) {b a r : Nat} {v : Int}
    (hc : P (.writeByte b a (r % 256) (v % 256).toNat)) : Keeps I (writei2cbyte b a r v) := by
  unfold writei2cbyte
  refine keeps_bind (keeps_transact h hc) (fun o => ?_)
  cases o with
  | openFail => exact keeps_bind (keeps_printf h _ _) (fun _ => keeps_exit _)
  | accessFail => exact keeps_bind (keeps_printf h _ _) (fun _ => keeps_exit _)
  | result r => exact keeps_ite (fun _ => keeps_printf h _ _) (fun _ => keeps_pure _)

theorem keeps_readi2cbyte_twice (h : Stable I P) {b a r : Nat}
    (hc : P (.readByte b a (r % 256))) : Keeps I (readi2cbyte_twice b a r) := by
  unfold readi2cbyte_twice
  refine keeps_bind keeps_get_rtl (fun o => ?_)
  exact keeps_ite
    (fun _ => keeps_bind (keeps_readi2cbyte h hc)
      (fun _ => keeps_bind (keeps_readi2cbyte h hc) (fun _ => keeps_pure _)))
    (fun _ => keeps_bind (keeps_readi2cbyte h hc)
      (fun _ => keeps_bind (keeps_readi2cbyte h hc) (fun _ => keeps_pure _)))

theorem keeps_display_set (h : Stable I P) (value : Option String) (verbose : Bool)
    (n i2caddr i2creg : Nat) (lo hi : Int) (label setfmt errfmt : String)
    (hr : P (.readByte 1 i2caddr (i2creg % 256)))
    (hw : ∀ s, value = some s → write_valid s lo hi = true →
      P (.writeByte 1 i2caddr (i2creg % 256) (atoi s % 256).toNat)) :
    Keeps I (main_display_set value verbose n i2caddr i2creg lo hi label setfmt errfmt) := by
  unfold main_display_set
  cases value with
  | none =>
    repeat' first
      | exact keeps_printf h _ _
      | exact keeps_pure _
      | exact keeps_readi2cbyte h hr
      | apply keeps_ite
      | apply keeps_bind
      | intro _
  | some s =>
    exact keeps_ite
      (fun hv => keeps_bind (keeps_writei2cbyte h (hw s rfl hv))
        (fun _ => keeps_bind (keeps_readi2cbyte_twice h hr) (fun _ => keeps_printf h _ _)))
      (fun _ => keeps_printf h _ _)

theorem keeps_confirm (h : Stable I P) (yes : Bool) (warning : List String) (v : Int)
    (aborted : String)
    (hw : ∀ w, I w → (yes = true ∨ w.strresp = "y" ∨ w.strresp = "Y") →
      P (.writeByte 1 0x69 0x07 (v % 256).toNat)) :
    Keeps I (main_confirm yes warning v aborted) := by
  have hrest : Keeps I (do
      let strresp ← get_strresp
      if yes = true ∨ strresp = "y" ∨ strresp = "Y" then writei2cbyte 0x01 0x69 0x07 v
      else printf aborted []) := by
    intro w hI
    simp only [bind_run, get_strresp]
    by_cases hc : yes = true ∨ w.strresp = "y" ∨ w.strresp = "Y"
    · rw [if_pos hc]
      exact keeps_writei2cbyte h (hw w hI hc) w hI
    · rw [if_neg hc]
      exact keeps_printf h _ _ w hI
  unfold main_confirm
  cases yes with
  | true => simpa using hrest
  | false =>
    simp only [Bool.not_false, if_true]
    exact keeps_bind (keeps_print_lines h _) (fun _ => keeps_bind (keeps_scanf h) (fun _ => hrest))

theorem keeps_voltage (h : Stable I P) (verbose : Bool) (n i2creg : Nat) (label : String)
    (hr : P (.readWord 1 0x6A (i2creg % 256))) :
    Keeps I (main_voltage verbose n i2creg label) := by
  unfold main_voltage
  repeat' first
    | exact keeps_printf h _ _
    | exact keeps_pure _
    | exact keeps_readi2cword h hr
    | apply keeps_ite
    | apply keeps_bind
    | intro _

theorem keeps_main_rtc (h : Stable I P) (a : Arguments)
    (hrb : ∀ addr r, P (.readByte 1 addr r)) :
    Keeps I (main_rtc a) := by
  unfold main_rtc
  repeat' first
    | exact keeps_printf h _ _
    | exact keeps_pure _
    | exact keeps_readi2cbyte h (hrb _ _)
    | apply keeps_ite
    | apply keeps_bind
    | split
    | intro _

theorem keeps_main_rtcfactor (h : Stable I P) (a : Arguments)
    (hrb : ∀ addr r, P (.readByte 1 addr r))
    (hrtc : ∀ s, a.rtcfactor = true → a.RTCF = some s → write_valid s 0 255 = true →
      P (.writeByte 1 0x69 0x07 (atoi s % 256).toNat)) :
    Keeps I (main_rtcfactor a) := by
  unfold main_rtcfactor
  repeat' first
    | exact keeps_printf h _ _
    | exact keeps_pure _
    | exact keeps_display_set h _ _ _ _ _ _ _ _ _ _ (hrb _ _)
        (fun s hs hv => hrtc s (by assumption) hs hv)
    | apply keeps_ite
    | apply keeps_bind
    | split
    | intro _

theorem keeps_main_pwrsrc (h : Stable I P) (a : Arguments)
    (hrb : ∀ addr r, P (.readByte 1 addr r)) :
    Keeps I (main_pwrsrc a) := by
  unfold main_pwrsrc
  repeat' first
    | exact keeps_printf h _ _
    | exact keeps_pure _
    | exact keeps_readi2cbyte h (hrb _ _)
    | apply keeps_ite
    | apply keeps_bind
    | split
    | intro _

theorem keeps_main_batvolt (h : Stable I P) (a : Arguments)
    (hrw : ∀ addr r, P (.readWord 1 addr r)) :
    Keeps I (main_batvolt a) := by
  unfold main_batvolt
  repeat' first
    | exact keeps_printf h _ _
    | exact keeps_pure _
    | exact keeps_voltage h _ _ _ _ (hrw _ _)
    | apply keeps_ite
    | apply keeps_bind
    | split
    | intro _

theorem keeps_main_rpivolt (h : Stable I P) (a : Arguments)
    (hrw : ∀ addr r, P (.readWord 1 addr r)) :
    Keeps I (main_rpivolt a) := by
  unfold main_rpivolt
  repeat' first
    | exact keeps_printf h _ _
    | exact keeps_pure _
    | exact keeps_voltage h _ _ _ _ (hrw _ _)
    | apply keeps_ite
    | apply keeps_bind
    | split
    | intro _

theorem keeps_main_eprvolt (h : Stable I P) (a : Arguments)
    (hrw : ∀ addr r, P (.readWord 1 addr r)) :
    Keeps I (main_eprvolt a) := by
  unfold main_eprvolt
  repeat' first
    | exact keeps_printf h _ _
    | exact keeps_pure _
    | exact keeps_voltage h _ _ _ _ (hrw _ _)
    | apply keeps_ite
    | apply keeps_bind
    | split
    | intro _

theorem keeps_main_usbvolt (h : Stable I P) (a : Arguments)
    (hrw : ∀ addr r, P (.readWord 1 addr r)) :
    Keeps I (main_usbvolt a) := by
  unfold main_usbvolt
  repeat' first
    | exact keeps_printf h _ _
    | exact keeps_pure _
    | exact keeps_voltage h _ _ _ _ (hrw _ _)
    | apply keeps_ite
    | apply keeps_bind
    | split
    | intro _

theorem keeps_main_current (h : Stable I P) (a : Arguments)
    (hrw : ∀ addr r, P (.readWord 1 addr r)) :
    Keeps I (main_current a) := by
  unfold main_current
  repeat' first
    | exact keeps_printf h _ _
    | exact keeps_pure _
    | exact keeps_readi2cword h (hrw _ _)
    | apply keeps_ite
    | apply keeps_bind
    | split
    | intro _

theorem keeps_main_centigrade (h : Stable I P) (a : Arguments)
    (hrb : ∀ addr r, P (.readByte 1 addr r)) :
    Keeps I (main_centigrade a) := by
  unfold main_centigrade
  repeat' first
    | exact keeps_printf h _ _
    | exact keeps_pure _
    | exact keeps_readi2cbyte h (hrb _ _)
    | apply keeps_ite
    | apply keeps_bind
    | split
    | intro _

theorem keeps_main_fahrenheit (h : Stable I P) (a : Arguments)
    (hrw : ∀ addr r, P (.readWord 1 addr r)) :
    Keeps I (main_fahrenheit a) := by
  unfold main_fahrenheit
  repeat' first
    | exact keeps_printf h _ _
    | exact keeps_pure _
    | exact keeps_readi2cword h (hrw _ _)
    | apply keeps_ite
    | apply keeps_bind
    | split
    | intro _

theorem keeps_main_fwver (h : Stable I P) (a : Arguments)
    (hrw : ∀ addr r, P (.readWord 1 addr r)) :
    Keeps I (main_fwver a) := by
  unfold main_fwver
  repeat' first
    | exact keeps_printf h _ _
    | exact keeps_pure _
    | exact keeps_readi2cword h (hrw _ _)
    | apply keeps_ite
    | apply keeps_bind
    | split
    | intro _

theorem keeps_main_errorno (h : Stable I P) (a : Arguments)
    (hrb : ∀ addr r, P (.readByte 1 addr r)) :
    Keeps I (main_errorno a) := by
  unfold main_errorno
  repeat' first
    | exact keeps_printf h _ _
    | exact keeps_pure _
    | exact keeps_readi2cbyte h (hrb _ _)
    | apply keeps_ite
    | apply keeps_bind
    | split
    | intro _

theorem keeps_main_watchdog (h : Stable I P) (a : Arguments)
    (hrb : ∀ addr r, P (.readByte 1 addr r))
    (hwr : ∀ r v, P (.writeByte 1 0x6B r v)) :
    Keeps I (main_watchdog a) := by
  unfold main_watchdog
  repeat' first
    | exact keeps_printf h _ _
    | exact keeps_pure _
    | exact keeps_display_set h _ _ _ _ _ _ _ _ _ _ (hrb _ _) (fun _ _ _ => hwr _ _)
    | apply keeps_ite
    | apply keeps_bind
    | split
    | intro _

theorem keeps_main_fssd (h : Stable I P) (a : Arguments)
    (hwr : ∀ r v, P (.writeByte 1 0x6B r v)) :
    Keeps I (main_fssd a) := by
  unfold main_fssd
  repeat' first
    | exact keeps_printf h _ _
    | exact keeps_pure _
    | exact keeps_writei2cbyte h (hwr _ _)
    | apply keeps_ite
    | apply keeps_bind
    | split
    | intro _

theorem keeps_main_fssdtimeout (h : Stable I P) (a : Arguments)
    (hrb : ∀ addr r, P (.readByte 1 addr r))
    (hwr : ∀ r v, P (.writeByte 1 0x6B r v)) :
    Keeps I (main_fssdtimeout a) := by
  unfold main_fssdtimeout
  repeat' first
    | exact keeps_printf h _ _
    | exact keeps_pure _
    | exact keeps_display_set h _ _ _ _ _ _ _ _ _ _ (hrb _ _) (fun _ _ _ => hwr _ _)
    | apply keeps_ite
    | apply keeps_bind
    | split
    | intro _

theorem keeps_main_fssdtype (h : Stable I P) (a : Arguments)
    (hrb : ∀ addr r, P (.readByte 1 addr r))
    (hwr : ∀ r v, P (.writeByte 1 0x6B r v)) :
    Keeps I (main_fssdtype a) := by
  unfold main_fssdtype
  repeat' first
    | exact keeps_printf h _ _
    | exact keeps_pure _
    | exact keeps_display_set h _ _ _ _ _ _ _ _ _ _ (hrb _ _) (fun _ _ _ => hwr _ _)
    | apply keeps_ite
    | apply keeps_bind
    | split
    | intro _

theorem keeps_main_fssdbatime (h : Stable I P) (a : Arguments)
    (hrb : ∀ addr r, P (.readByte 1 addr r))
    (hwr : ∀ r v, P (.writeByte 1 0x6B r v)) :
    Keeps I (main_fssdbatime a) := by
  unfold main_fssdbatime
  repeat' first
    | exact keeps_printf h _ _
    | exact keeps_pure _
    | exact keeps_display_set h _ _ _ _ _ _ _ _ _ _ (hrb _ _) (fun _ _ _ => hwr _ _)
    | apply keeps_ite
    | apply keeps_bind
    | split
    | intro _

theorem keeps_main_starttimer (h : Stable I P) (a : Arguments) :
    Keeps I (main_starttimer a) := by
  unfold main_starttimer
  repeat' first
    | exact keeps_printf h _ _
    | exact keeps_pure _
    | apply keeps_ite
    | apply keeps_bind
    | split
    | intro _

theorem keeps_main_stoptimer (h : Stable I P) (a : Arguments) :
    Keeps I (main_stoptimer a) := by
  unfold main_stoptimer
  repeat' first
    | exact keeps_printf h _ _
    | exact keeps_pure _
    | apply keeps_ite
    | apply keeps_bind
    | split
    | intro _

theorem keeps_main_lprtimer (h : Stable I P) (a : Arguments)
    (hrb : ∀ addr r, P (.readByte 1 addr r))
    (hwr : ∀ r v, P (.writeByte 1 0x6B r v)) :
    Keeps I (main_lprtimer a) := by
  unfold main_lprtimer
  repeat' first
    | exact keeps_printf h _ _
    | exact keeps_pure _
    | exact keeps_display_set h _ _ _ _ _ _ _ _ _ _ (hrb _ _) (fun _ _ _ => hwr _ _)
    | apply keeps_ite
    | apply keeps_bind
    | split
    | intro _

theorem keeps_main_relay (h : Stable I P) (a : Arguments)
    (hrb : ∀ addr r, P (.readByte 1 addr r))
    (hwr : ∀ r v, P (.writeByte 1 0x6B r v)) :
    Keeps I (main_relay a) := by
  unfold main_relay
  repeat' first
    | exact keeps_printf h _ _
    | exact keeps_pure _
    | exact keeps_readi2cbyte h (hrb _ _)
    | exact keeps_writei2cbyte h (hwr _ _)
    | apply keeps_ite
    | apply keeps_bind
    | split
    | intro _

theorem keeps_main_eprlowv (h : Stable I P) (a : Arguments) :
    Keeps I (main_eprlowv a) := by
  unfold main_eprlowv
  repeat' first
    | exact keeps_printf h _ _
    | exact keeps_pure _
    | apply keeps_ite
    | apply keeps_bind
    | split
    | intro _

theorem keeps_main_minlprtime (h : Stable I P) (a : Arguments) :
    Keeps I (main_minlprtime a) := by
  unfold main_minlprtime
  repeat' first
    | exact keeps_printf h _ _
    | exact keeps_pure _
    | apply keeps_ite
    | apply keeps_bind
    | split
    | intro _

theorem keeps_main_lprcurrent (h : Stable I P) (a : Arguments) :
    Keeps I (main_lprcurrent a) := by
  unfold main_lprcurrent
  repeat' first
    | exact keeps_printf h _ _
    | exact keeps_pure _
    | apply keeps_ite
    | apply keeps_bind
    | split
    | intro _

theorem keeps_main_iomode (h : Stable I P) (a : Arguments)
    (hrb : ∀ addr r, P (.readByte 1 addr r))
    (hwr : ∀ r v, P (.writeByte 1 0x6B r v)) :
    Keeps I (main_iomode a) := by
  unfold main_iomode
  repeat' first
    | exact keeps_printf h _ _
    | exact keeps_pure _
    | exact keeps_display_set h _ _ _ _ _ _ _ _ _ _ (hrb _ _) (fun _ _ _ => hwr _ _)
    | apply keeps_ite
    | apply keeps_bind
    | split
    | intro _

theorem keeps_main_iovalue (h : Stable I P) (a : Arguments)
    (hrb : ∀ addr r, P (.readByte 1 addr r))
    (hrw : ∀ addr r, P (.readWord 1 addr r)) :
    Keeps I (main_iovalue a) := by
  unfold main_iovalue
  repeat' first
    | exact keeps_printf h _ _
    | exact keeps_pure _
    | exact keeps_readi2cbyte h (hrb _ _)
    | exact keeps_readi2cword h (hrw _ _)
    | apply keeps_ite
    | apply keeps_bind
    | split
    | intro _

end keeps

theorem write_valid_byte (s : String) (lo hi : Int) (hlo : 0 ≤ lo) (hhi : hi ≤ 255)
    (h : write_valid s lo hi = true) : (atoi s % 256).toNat = (atoi s).toNat := by
  simp only [write_valid, decide_eq_true_eq, ge_iff_le] at h
  have : atoi s % 256 = atoi s := Int.emod_eq_of_lt (by omega) (by omega)
  rw [this]

/-! ## Write validation and write-back of the read-write properties -/

theorem first_call_stable (c : Call) :
    Stable (fun w => (calls w.out).head? = some c) (fun _ => True) where
  printf := by
    intro w fmt args h
    simpa [calls_append, calls] using h
  scanf := by
    intro w h
    unfold scanf_strresp
    cases hs : w.stdin <;> simpa [Res.world, calls_append, calls] using h
  call := by
    intro w x _ h
    simp only [calls_append, calls]
    cases hc : calls w.out with
    | nil => simp [hc] at h
    | cons y ys => simpa [hc] using h

theorem display_set_first_call (s : String) (verbose : Bool) (n i2caddr i2creg : Nat)
    (lo hi : Int) (label setfmt errfmt : String) (h : write_valid s lo hi = true) (w : World)
    (hw : w.out = []) :
    (calls (main_display_set (some s) verbose n i2caddr i2creg lo hi label setfmt errfmt
        w).world.out).head?
      = some (.writeByte 1 i2caddr (i2creg % 256) (atoi s % 256).toNat) := by
  have hfirst := writei2cbyte_calls 1 i2caddr i2creg (atoi s) w
  rw [hw] at hfirst
  simp only [main_display_set, h, if_true, bind_run]
  cases hm : writei2cbyte 1 i2caddr i2creg (atoi s) w with
  | exit c w1 =>
    rw [hm] at hfirst
    simp only [Res.world] at hfirst ⊢
    rw [hfirst]
    rfl
  | ret u w1 =>
    rw [hm] at hfirst
    simp only [Res.world] at hfirst
    have hk : Keeps (fun w => (calls w.out).head?
        = some (.writeByte 1 i2caddr (i2creg % 256) (atoi s % 256).toNat))
        (readi2cbyte_twice 1 i2caddr i2creg >>= fun r => printf setfmt [.int r.1, .int r.2]) :=
      keeps_bind (keeps_readi2cbyte_twice (first_call_stable _) trivial)
        (fun _ => keeps_printf (first_call_stable _) _ _)
    exact hk w1 (by show (calls w1.out).head? = _; rw [hfirst]; rfl)

/-- The FSSD timeout on write strings of at most nine characters, whose value
fits an `int`: such a string is accepted exactly when it is the decimal
representation of an integer `n` with `15 ≤ n ≤ 255`; then the first transport
call is the write of `n` to register 0x03 of device 0x6B, and for every other
such string no transport call is issued. -/
theorem fssdtimeout_short_strings (a : Arguments) (s : String) (bus : Nat → Outcome)
    (rtl : Bool) (stdin : List String) (strresp : String) (hreq : a.fssdtimeout = true)
    (hv : a.FSSDTIM = some s) (hlen : s.length ≤ 9) :
    (∀ n : Nat, 15 ≤ n → n ≤ 255 → s = toString n →
        (calls (run (main_fssdtimeout a) bus rtl stdin strresp)).head?
          = some (.writeByte 1 0x6B 0x03 n))
      ∧ ((¬ ∃ n : Nat, 15 ≤ n ∧ n ≤ 255 ∧ s = toString n) →
        calls (run (main_fssdtimeout a) bus rtl stdin strresp) = []) := by
  have hiff := write_valid_iff s 15 255 (by norm_num) (by norm_num) hlen
  simp only [Nat.cast_ofNat] at hiff
  simp only [run, main_fssdtimeout, hreq, if_true, hv]
  constructor
  · intro n h1 h2 hs
    have hvalid : write_valid s 15 255 = true := hiff.2 ⟨n, h1, h2, hs⟩
    have hb := write_valid_byte s 15 255 (by norm_num) (by norm_num) hvalid
    have hat := (toString_valid n (by omega)).2
    rw [← hs] at hat
    have := display_set_first_call s a.verbose (arg_count a) 0x6B 0x03 15 255
      "File Safe Shutdown Timer: " "File Safe Shutdown Timer set to: %i (0x%02x)\n"
      "Invalid argument \x27%s\x27 for file safe shutdown timer - use an integer between 15 and 255\n"
      hvalid (World.init bus rtl stdin strresp) rfl
    rw [this, hb, hat]
    rfl
  · intro hn
    have hvalid : write_valid s 15 255 = false := by
      rw [Bool.eq_false_iff]
      exact fun h => hn (hiff.1 h)
    rw [display_set_rejected _ _ _ _ _ _ _ _ _ _ hvalid]
    simp [Res.world, World.init, calls]

/-- C6 fails on the code: `upis -t4294967311`.  The string is all digits and
does not begin with 0, `strtol` gives 4294967311 and the conversion to `int`
leaves 15, which is in the range 15 to 255: the string is accepted and 15 is
written to register 0x03 of device 0x6B.  The three strings the claim names
behave as it says. -/
theorem fssdtimeout_accepts_overflow :
    is_intstr "4294967311" = 1 ∧ strtol "4294967311" = 4294967311 ∧ atoi "4294967311" = 15
      ∧ calls (run (main [('t', some "4294967311")]) (fun _ => .result 0) false [] "")
        = [.writeByte 1 0x6B 0x03 15, .readByte 1 0x6B 0x03, .readByte 1 0x6B 0x03]
      ∧ calls (run (main [('t', some "14")]) (fun _ => .result 0) false [] "") = []
      ∧ calls (run (main [('t', some "15")]) (fun _ => .result 0) false [] "")
        = [.writeByte 1 0x6B 0x03 15, .readByte 1 0x6B 0x03, .readByte 1 0x6B 0x03]
      ∧ calls (run (main [('t', some "255")]) (fun _ => .result 0) false [] "")
        = [.writeByte 1 0x6B 0x03 255, .readByte 1 0x6B 0x03, .readByte 1 0x6B 0x03] := by
  decide!

theorem strlower_data (s : String) : (strlower s).data = s.data.map Char.toLower := by
  simp only [strlower]
  apply List.map_congr_left
  intro c _
  simp only [lowerChar, Char.toLower, ge_iff_le]

theorem relay_run_write (v : Int) (fmt : String) (w : World) :
    calls ((writei2cbyte 0x01 0x6B 0x0B v >>= fun _ => printf fmt []) w).world.out
      = calls w.out ++ [.writeByte 1 0x6B 0x0B (v % 256).toNat] := by
  have h := writei2cbyte_calls 1 0x6B 0x0B v w
  rw [bind_run]
  cases hm : writei2cbyte 1 0x6B 0x0B v w with
  | exit c w1 =>
    rw [hm] at h
    exact h
  | ret u w1 =>
    rw [hm] at h
    simp only [Res.world] at h
    simp [printf, Res.world, calls_append, calls, h]

/-- C7: for every relay write string `s`, with `l` the string `strlower`
leaves (upper-case ASCII letters mapped to lower case, every other character
unchanged): when `l` is `"1"`, `"on"` or `"closed"` the relay block issues
exactly the write of 1 to register 0x0B of device 0x6B; when `l` is `"0"`,
`"off"` or `"open"` exactly the write of 0; for every other string it issues no
transport call and only prints the rejection of `l`. -/
theorem relay_write (a : Arguments) (s : String) (bus : Nat → Outcome) (rtl : Bool)
    (stdin : List String) (strresp : String) (hreq : a.relay = true)
    (hv : a.RLYSTAT = some s) :
    (strlower s).data = s.data.map Char.toLower
      ∧ (strlower s = "1" ∨ strlower s = "on" ∨ strlower s = "closed" →
        calls (run (main_relay a) bus rtl stdin strresp) = [.writeByte 1 0x6B 0x0B 1])
      ∧ (strlower s = "0" ∨ strlower s = "off" ∨ strlower s = "open" →
        calls (run (main_relay a) bus rtl stdin strresp) = [.writeByte 1 0x6B 0x0B 0])
      ∧ (¬ (strlower s = "1" ∨ strlower s = "on" ∨ strlower s = "closed") →
        ¬ (strlower s = "0" ∨ strlower s = "off" ∨ strlower s = "open") →
        ∃ fmt, run (main_relay a) bus rtl stdin strresp = [.printf fmt [.str (strlower s)]]) := by
  refine ⟨strlower_data s, ?_, ?_, ?_⟩
  · intro h
    have h1 : strlower s = "closed" ∨ strlower s = "1" ∨ strlower s = "on" := by tauto
    simp only [run, main_relay, hreq, if_true, hv, h1]
    rw [relay_run_write]
    rfl
  · intro h
    have h1 : ¬ (strlower s = "closed" ∨ strlower s = "1" ∨ strlower s = "on") := by
      rintro (h1 | h1 | h1) <;> rcases h with h | h | h <;> rw [h1] at h <;> exact absurd h (by decide)
    have h2 : strlower s = "open" ∨ strlower s = "0" ∨ strlower s = "off" := by tauto
    simp only [run, main_relay, hreq, if_true, hv, h1, h2, if_false]
    rw [relay_run_write]
    rfl
  · intro h h0
    have h1 : ¬ (strlower s = "closed" ∨ strlower s = "1" ∨ strlower s = "on") := by tauto
    have h2 : ¬ (strlower s = "open" ∨ strlower s = "0" ∨ strlower s = "off") := by tauto
    simp only [run, main_relay, hreq, if_true, hv, h1, h2, if_false]
    exact ⟨_, rfl⟩

theorem relay_write_witness :
    calls (run (main_relay (argp_parse [('r', some "ON")] main_defaults))
        (fun _ => .result 0) false [] "") = [.writeByte 1 0x6B 0x0B 1] :=
  (relay_write (argp_parse [('r', some "ON")] main_defaults) "ON" (fun _ => .result 0) false []
    "" rfl rfl).2.1 (by decide)

theorem accepts_numeric (p : RWProperty) (hp : p ≠ .relay) (a : Arguments)
    (hreq : p.requested a = true) :
    ∃ lo hi : Int, ∃ label setfmt errfmt : String, 0 ≤ lo ∧ hi ≤ 255
      ∧ p.block a
        = main_display_set (p.value a) a.verbose (arg_count a) p.addr p.reg lo hi label setfmt
          errfmt
      ∧ ∀ s, p.accepts s = if write_valid s lo hi then some (atoi s).toNat else none := by
  cases p <;> simp only [RWProperty.requested] at hreq
  · exact ⟨0, 255, _, _, _, le_refl _, le_refl _,
      by simp [RWProperty.block, main_rtcfactor, hreq]; rfl, fun _ => rfl⟩
  · exact ⟨0, 255, _, _, _, le_refl _, le_refl _,
      by simp [RWProperty.block, main_watchdog, hreq]; rfl, fun _ => rfl⟩
  · exact ⟨15, 255, _, _, _, by norm_num, le_refl _,
      by simp [RWProperty.block, main_fssdtimeout, hreq]; rfl, fun _ => rfl⟩
  · exact ⟨0, 2, _, _, _, le_refl _, by norm_num,
      by simp [RWProperty.block, main_fssdtype, hreq]; rfl, fun _ => rfl⟩
  · exact ⟨0, 255, _, _, _, le_refl _, le_refl _,
      by simp [RWProperty.block, main_fssdbatime, hreq]; rfl, fun _ => rfl⟩
  · exact ⟨0, 255, _, _, _, le_refl _, le_refl _,
      by simp [RWProperty.block, main_lprtimer, hreq]; rfl, fun _ => rfl⟩
  · exact absurd rfl hp
  · exact ⟨0, 3, _, _, _, le_refl _, by norm_num,
      by simp [RWProperty.block, main_iomode, hreq]; rfl, fun _ => rfl⟩

theorem reg_byte (p : RWProperty) : p.reg % 256 = p.reg := by
  cases p <;> rfl

/-- C8: for every read-write property and every supplied write string that its
validator rejects, the block of the property issues no transport call: all it
does is print one message that quotes the string. -/
theorem rejected_write_no_transport (p : RWProperty) (a : Arguments) (s : String)
    (bus : Nat → Outcome) (rtl : Bool) (stdin : List String) (strresp : String)
    (hreq : p.requested a = true) (hv : p.value a = some s) (hrej : p.accepts s = none) :
    calls (run (p.block a) bus rtl stdin strresp) = []
      ∧ ∃ fmt arg, run (p.block a) bus rtl stdin strresp = [.printf fmt [.str arg]] := by
  by_cases hp : p = .relay
  · subst hp
    simp only [RWProperty.requested, RWProperty.value] at hreq hv
    simp only [RWProperty.accepts] at hrej
    have h1 : ¬ (strlower s = "closed" ∨ strlower s = "1" ∨ strlower s = "on") := by
      intro h
      simp [h] at hrej
    have h2 : ¬ (strlower s = "open" ∨ strlower s = "0" ∨ strlower s = "off") := by
      intro h
      simp [h1, h] at hrej
    have hrun : run (RWProperty.relay.block a) bus rtl stdin strresp
        = [.printf "Invalid argument \x27%s\x27 for relay state - use 0,1,open,closed,off or on\n"
            [.str (strlower s)]] := by
      simp only [run, RWProperty.block, main_relay, hreq, if_true, hv, h1, h2, if_false]
      rfl
    rw [hrun]
    exact ⟨rfl, _, _, rfl⟩
  · obtain ⟨lo, hi, label, setfmt, errfmt, -, -, hb, hacc⟩ := accepts_numeric p hp a hreq
    have hvalid : write_valid s lo hi = false := by
      rw [hacc] at hrej
      cases h : write_valid s lo hi
      · rfl
      · simp [h] at hrej
    have hrun : run (p.block a) bus rtl stdin strresp = [.printf errfmt [.str s]] := by
      simp only [run, hb, hv]
      rw [display_set_rejected _ _ _ _ _ _ _ _ _ _ hvalid]
      rfl
    rw [hrun]
    exact ⟨rfl, _, _, rfl⟩

theorem rejected_write_no_transport_witness :
    calls (run (RWProperty.relay.block (argp_parse [('r', some "maybe")] main_defaults))
        (fun _ => .result 0) false [] "") = [] :=
  (rejected_write_no_transport .relay (argp_parse [('r', some "maybe")] main_defaults) "maybe"
    (fun _ => .result 0) false [] "" rfl rfl (by decide)).1

/-- C9 (as amended): for the seven numeric read-write properties and a write
string accepted with value `n`, when no transport call fails the block issues
the byte write of `n` to the register of the property and then two byte reads
of that register, and the two values it reports are the two values read back;
for the relay the write of `n` is the only transport call and the confirmation
printed carries no value read back. -/
theorem accepted_write_readback (p : RWProperty) (a : Arguments) (s : String) (n : Nat)
    (bus : Nat → Outcome) (rtl : Bool) (stdin : List String) (strresp : String)
    (r0 r1 r2 : Int) (hreq : p.requested a = true) (hv : p.value a = some s)
    (hacc : p.accepts s = some n) (h0 : bus 0 = .result r0) (h1 : bus 1 = .result r1)
    (h2 : bus 2 = .result r2) (p0 : 0 ≤ r0) (p1 : 0 ≤ r1) (p2 : 0 ≤ r2) :
    (p ≠ .relay → ∃ fmt, run (p.block a) bus rtl stdin strresp
        = [.call (.writeByte 1 p.addr p.reg n) (.result r0),
           .call (.readByte 1 p.addr p.reg) (.result r1),
           .call (.readByte 1 p.addr p.reg) (.result r2),
           .printf fmt (if rtl then [.int r2, .int r1] else [.int r1, .int r2])])
      ∧ (p = .relay → ∃ fmt, run (p.block a) bus rtl stdin strresp
        = [.call (.writeByte 1 p.addr p.reg n) (.result r0), .printf fmt []]) := by
  constructor
  · intro hp
    obtain ⟨lo, hi, label, setfmt, errfmt, hlo, hhi, hb, hacc2⟩ := accepts_numeric p hp a hreq
    rw [hacc2] at hacc
    have hvalid : write_valid s lo hi = true := by
      cases h : write_valid s lo hi
      · simp [h] at hacc
      · rfl
    simp only [hvalid, if_true, Option.some.injEq] at hacc
    refine ⟨setfmt, ?_⟩
    simp only [run, hb, hv]
    rw [display_set_accepted s a.verbose (arg_count a) p.addr p.reg lo hi label setfmt errfmt
      hvalid (World.init bus rtl stdin strresp) r0 r1 r2 h0 h1 h2 p0 p1 p2,
      write_valid_byte s lo hi hlo hhi hvalid, hacc, reg_byte]
    rfl
  · intro hp
    subst hp
    simp only [RWProperty.requested, RWProperty.value] at hreq hv
    simp only [RWProperty.accepts] at hacc
    have q0 : ¬ r0 < 0 := by omega
    by_cases c1 : strlower s = "closed" ∨ strlower s = "1" ∨ strlower s = "on"
    · simp only [c1, if_true, Option.some.injEq] at hacc
      subst hacc
      refine ⟨"Relay set to: on/closed\n", ?_⟩
      simp [run, RWProperty.block, main_relay, hreq, hv, c1, writei2cbyte, transact, printf,
        bind_run, pure_run, World.init, h0, q0, Res.world, RWProperty.addr, RWProperty.reg]
    · by_cases c2 : strlower s = "open" ∨ strlower s = "0" ∨ strlower s = "off"
      · simp only [c1, c2, if_true, if_false, Option.some.injEq] at hacc
        subst hacc
        refine ⟨"Relay set to: off/open\n", ?_⟩
        simp [run, RWProperty.block, main_relay, hreq, hv, c1, c2, writei2cbyte, transact,
          printf, bind_run, pure_run, World.init, h0, q0, Res.world, RWProperty.addr,
          RWProperty.reg]
      · simp [c1, c2] at hacc

theorem accepted_write_readback_witness :
    ∃ fmt, run (RWProperty.watchdog.block (argp_parse [('w', some "5")] main_defaults))
        (fun i => .result (7 + i)) false [] ""
      = [.call (.writeByte 1 0x6B 0x02 5) (.result 7),
         .call (.readByte 1 0x6B 0x02) (.result 8),
         .call (.readByte 1 0x6B 0x02) (.result 9),
         .printf fmt [.int 8, .int 9]] :=
  (accepted_write_readback .watchdog (argp_parse [('w', some "5")] main_defaults) "5" 5
    (fun i => .result (7 + i)) false [] "" 7 8 9 rfl rfl (by decide) (by decide) (by decide) (by decide)
    (by norm_num) (by norm_num) (by norm_num)).1 (by decide)

/-- C9 (as stated) fails for the relay: `upis -r1` is accepted with value 1, the
write to register 0x0B of device 0x6B is the only transport call (no read
follows it), and what is printed is a fixed line, not a value read back. -/
theorem relay_write_has_no_readback :
    RWProperty.relay.accepts "1" = some 1
      ∧ run (main [('r', some "1")]) (fun _ => .result 0) false [] ""
        = [.call (.writeByte 1 0x6B 0x0B 1) (.result 0), .printf "Relay set to: on/closed\n" []] := by
  decide!

/-- C3 fails on the code: `upis -Z -z` with the single token `y` on standard
input.  The second `scanf` meets the end of input and leaves `strresp` as the
first prompt filled it, so the processor reset is carried out too. -/
theorem stale_response_confirms_reset :
    run (main [('Z', none), ('z', none)]) (fun _ => .result 0) false ["y"] ""
      = (factory_warning.map fun l => .printf l [])
        ++ [.scanf (some "y"), .call (.writeByte 1 0x69 0x07 0xDD) (.result 0)]
        ++ (reset_warning.map fun l => .printf l [])
        ++ [.scanf none, .call (.writeByte 1 0x69 0x07 0xEE) (.result 0)] := by
  decide!

/-- C4 fails on the code: `upis --watchdog=` hands the empty string to the
watchdog block; `is_intstr` returns 1 for it, `atoi` gives 0, and 0 is written
to register 0x02 of device 0x6B. -/
theorem empty_string_is_written :
    is_intstr "" = 1 ∧ atoi "" = 0
      ∧ calls (run (main [('w', some "")]) (fun _ => .result 0) false [] "")
        = [.writeByte 1 0x6B 0x02 0, .readByte 1 0x6B 0x02, .readByte 1 0x6B 0x02] := by
  decide!

/-- C10 fails on the code: `upis -w5 -V` where the write transaction fails
(status -1).  `writei2cbyte` prints a message and returns, so the run goes on
with the read-back, then the next property, and `main` returns 0. -/
theorem failed_write_does_not_exit :
    calls (run (main [('w', some "5"), ('V', none)])
        (fun i => if i = 0 then .result (-1) else .result 2) false [] "")
      = [.writeByte 1 0x6B 0x02 5, .readByte 1 0x6B 0x02, .readByte 1 0x6B 0x02,
         .readByte 1 0x6B 0x10, .readByte 1 0x6B 0x11]
      ∧ (main [('w', some "5"), ('V', none)]
          (World.init (fun i => if i = 0 then .result (-1) else .result 2) false [] "")).code
        = none := by
  decide!

/-! ## The BCD decoders -/

theorem nibble_eq (x k : Nat) : (x >>> k) &&& 0x000F = x / 2 ^ k % 16 := by
  rw [Nat.shiftRight_eq_div_pow]
  exact Nat.and_pow_two_sub_one_eq_mod _ 4

theorem low_nibble_eq (x : Nat) : x &&& 0x000F = x % 16 :=
  Nat.and_pow_two_sub_one_eq_mod x 4

theorem bcdbyte2dec_eq (b : Nat) : bcdbyte2dec b = ((b / 16 % 16 * 10 + b % 16 : Nat) : Int) := by
  have h : (b >>> 4) &&& 0x000F = b / 16 % 16 := nibble_eq b 4
  simp only [bcdbyte2dec, h, low_nibble_eq]

theorem bcdword2dec_eq (w : Nat) :
    bcdword2dec w
      = ((w / 4096 % 16 * 1000 + w / 256 % 16 * 100 + w / 16 % 16 * 10 + w % 16 : Nat) : Int) := by
  have h3 : (w >>> 12) &&& 0x000F = w / 4096 % 16 := nibble_eq w 12
  have h2 : (w >>> 8) &&& 0x000F = w / 256 % 16 := nibble_eq w 8
  have h1 : (w >>> 4) &&& 0x000F = w / 16 % 16 := nibble_eq w 4
  simp only [bcdword2dec, h3, h2, h1, low_nibble_eq]

theorem word_digits (w : Nat) (hw : w < 65536) :
    ∃ a b c d, a = w / 4096 ∧ b = w / 256 % 16 ∧ c = w / 16 % 16 ∧ d = w % 16
      ∧ w = a * 4096 + b * 256 + c * 16 + d ∧ a < 16 ∧ b < 16 ∧ c < 16 ∧ d < 16 :=
  ⟨_, _, _, _, rfl, rfl, rfl, rfl, by omega, by omega, by omega, by omega, by omega⟩

theorem decimal_digits (n : Nat) (hn : n ≤ 9999) :
    ∃ p q r s, p = n / 1000 ∧ q = n / 100 % 10 ∧ r = n / 10 % 10 ∧ s = n % 10
      ∧ n = p * 1000 + q * 100 + r * 10 + s ∧ p ≤ 9 ∧ q ≤ 9 ∧ r ≤ 9 ∧ s ≤ 9 :=
  ⟨_, _, _, _, rfl, rfl, rfl, rfl, by omega, by omega, by omega, by omega, by omega⟩

/-- C11: for every byte value `b` in 0..255, `bcdbyte2dec b` is `high * 10 + low`
with `high = b >> 4` (that is `b / 16`) and `low = b & 0xF` (that is `b % 16`);
no nibble is checked against 9, so 0xFF decodes to 165.  In particular 0x23,
0x00 and 0x99 decode to 23, 0 and 99. -/
theorem bcdbyte2dec_nibbles :
    (∀ b : Nat, b < 256 →
        b >>> 4 = b / 16 ∧ b &&& 0xF = b % 16
          ∧ bcdbyte2dec b = ((b >>> 4) * 10 + (b &&& 0xF) : Nat))
      ∧ bcdbyte2dec 0x23 = 23 ∧ bcdbyte2dec 0x00 = 0 ∧ bcdbyte2dec 0x99 = 99
      ∧ bcdbyte2dec 0xFF = 165 := by
  refine ⟨fun b hb => ?_, by decide, by decide, by decide, by decide⟩
  have h1 : b >>> 4 = b / 16 := Nat.shiftRight_eq_div_pow b 4
  have h2 : b / 16 % 16 = b / 16 := Nat.mod_eq_of_lt (by omega)
  have h3 : b &&& 0xF = b % 16 := low_nibble_eq b
  refine ⟨h1, h3, ?_⟩
  rw [bcdbyte2dec_eq, h1, h3, h2]

theorem bcdbyte2dec_nibbles_witness :
    0x9A >>> 4 = 0x9A / 16 ∧ 0x9A &&& 0xF = 0x9A % 16
      ∧ bcdbyte2dec 0x9A = ((0x9A >>> 4) * 10 + (0x9A &&& 0xF) : Nat) :=
  bcdbyte2dec_nibbles.1 0x9A (by norm_num)

/-- C12: for every word value `w` in 0..65535, `bcdword2dec w` is
`n3 * 1000 + n2 * 100 + n1 * 10 + n0` where `n3 .. n0` are the four nibbles of
`w` from most to least significant; no nibble is checked against 9, so 0xFFFF
decodes to 16665.  In particular 0x1234, 0x0000 and 0x0985 decode to 1234, 0
and 985. -/
theorem bcdword2dec_nibbles :
    (∀ w : Nat, w < 65536 →
        bcdword2dec w
          = ((w / 4096) * 1000 + (w / 256 % 16) * 100 + (w / 16 % 16) * 10 + w % 16 : Nat)
          ∧ (w >>> 12) &&& 0xF = w / 4096 ∧ (w >>> 8) &&& 0xF = w / 256 % 16
          ∧ (w >>> 4) &&& 0xF = w / 16 % 16 ∧ w &&& 0xF = w % 16
          ∧ w = (w / 4096) * 4096 + (w / 256 % 16) * 256 + (w / 16 % 16) * 16 + w % 16)
      ∧ bcdword2dec 0x1234 = 1234 ∧ bcdword2dec 0x0000 = 0 ∧ bcdword2dec 0x0985 = 985
      ∧ bcdword2dec 0xFFFF = 16665 := by
  refine ⟨fun w hw => ?_, by decide, by decide, by decide, by decide⟩
  have h2 : w / 4096 % 16 = w / 4096 := Nat.mod_eq_of_lt (by omega)
  have n3 : (w >>> 12) &&& 0xF = w / 4096 % 16 := nibble_eq w 12
  refine ⟨?_, by rw [n3, h2], nibble_eq w 8, nibble_eq w 4, low_nibble_eq w, by omega⟩
  rw [bcdword2dec_eq, h2]

theorem bcdword2dec_nibbles_witness :
    bcdword2dec 0xA5C3
        = ((0xA5C3 / 4096) * 1000 + (0xA5C3 / 256 % 16) * 100 + (0xA5C3 / 16 % 16) * 10
            + 0xA5C3 % 16 : Nat) :=
  (bcdword2dec_nibbles.1 0xA5C3 (by norm_num)).1

/-- C17: on valid BCD input the decoders invert BCD encoding.  A word with all
four nibbles at most 9 decodes into 0..9999 and encoding the result gives the
word back; every `n` in 0..9999 has a valid BCD encoding that decodes to `n`;
the same holds for bytes with both nibbles at most 9 and the range 0..99. -/
theorem bcd_decode_bijective :
    (∀ w, valid_bcd_word w →
        0 ≤ bcdword2dec w ∧ bcdword2dec w ≤ 9999
          ∧ bcd_encode_word (bcdword2dec w).toNat = w)
      ∧ (∀ n, n ≤ 9999 →
        valid_bcd_word (bcd_encode_word n) ∧ bcdword2dec (bcd_encode_word n) = n)
      ∧ (∀ b, valid_bcd_byte b →
        0 ≤ bcdbyte2dec b ∧ bcdbyte2dec b ≤ 99 ∧ bcd_encode_byte (bcdbyte2dec b).toNat = b)
      ∧ (∀ n, n ≤ 99 →
        valid_bcd_byte (bcd_encode_byte n) ∧ bcdbyte2dec (bcd_encode_byte n) = n) := by
  refine ⟨fun w hw => ?_, fun n hn => ?_, fun b hb => ?_, fun n hn => ?_⟩
  · obtain ⟨h0, h1, h2, h3, h4⟩ := hw
    obtain ⟨a, b, c, d, ea, eb, ec, ed, e, -, -, -, -⟩ := word_digits w h0
    have hv : w / 4096 % 16 = a := by omega
    rw [bcdword2dec_eq, hv, ← eb, ← ec, ← ed]
    rw [← ea] at h1
    rw [← eb] at h2
    rw [← ec] at h3
    rw [← ed] at h4
    clear ea eb ec ed hv
    simp only [Int.toNat_ofNat, bcd_encode_word]
    have d3 : (a * 1000 + b * 100 + c * 10 + d) / 1000 = a := by omega
    have d2' : (a * 1000 + b * 100 + c * 10 + d) / 100 = a * 10 + b := by omega
    have d1' : (a * 1000 + b * 100 + c * 10 + d) / 10 = a * 100 + b * 10 + c := by omega
    have d0 : (a * 1000 + b * 100 + c * 10 + d) % 10 = d := by omega
    have g2 : (a * 10 + b) % 10 = b := by omega
    have g1 : (a * 100 + b * 10 + c) % 10 = c := by omega
    refine ⟨by omega, by omega, ?_⟩
    rw [d3, d2', d1', d0, g2, g1]
    exact e.symm
  · obtain ⟨p, q, r, s, ep, eq, er, es, e, hp, hq, hr, hs⟩ := decimal_digits n hn
    have he : bcd_encode_word n = p * 4096 + q * 256 + r * 16 + s := by
      simp only [bcd_encode_word, ← ep, ← eq, ← er, ← es]
    rw [he, bcdword2dec_eq]
    clear he ep eq er es
    unfold valid_bcd_word
    have e3 : (p * 4096 + q * 256 + r * 16 + s) / 4096 = p := by omega
    have e2' : (p * 4096 + q * 256 + r * 16 + s) / 256 = p * 16 + q := by omega
    have e1' : (p * 4096 + q * 256 + r * 16 + s) / 16 = p * 256 + q * 16 + r := by omega
    have e0 : (p * 4096 + q * 256 + r * 16 + s) % 16 = s := by omega
    rw [e3, e2', e1', e0]
    have f3 : p % 16 = p := by omega
    have f2 : (p * 16 + q) % 16 = q := by omega
    have f1 : (p * 256 + q * 16 + r) % 16 = r := by omega
    rw [f3, f2, f1]
    refine ⟨⟨by omega, hp, hq, hr, hs⟩, ?_⟩
    rw [e]
  · obtain ⟨h0, h1, h2⟩ := hb
    rw [bcdbyte2dec_eq]
    simp only [Int.toNat_ofNat, bcd_encode_byte]
    refine ⟨by omega, by omega, by omega⟩
  · simp only [valid_bcd_byte, bcd_encode_byte, bcdbyte2dec_eq]
    refine ⟨by omega, by omega⟩

theorem bcd_decode_bijective_witness :
    bcd_encode_word (bcdword2dec 0x0985).toNat = 0x0985
      ∧ bcdword2dec (bcd_encode_word 985) = 985
      ∧ bcd_encode_byte (bcdbyte2dec 0x59).toNat = 0x59
      ∧ bcdbyte2dec (bcd_encode_byte 59) = 59 :=
  ⟨(bcd_decode_bijective.1 0x0985 (by unfold valid_bcd_word; omega)).2.2,
   (bcd_decode_bijective.2.1 985 (by norm_num)).2,
   (bcd_decode_bijective.2.2.1 0x59 (by unfold valid_bcd_byte; omega)).2.2,
   (bcd_decode_bijective.2.2.2 59 (by norm_num)).2⟩

/-! ## The IO pin value -/

theorem printf_calls (fmt : String) (args : List Arg) (w : World) :
    calls (printf fmt args w).world.out = calls w.out := by
  simp [printf, Res.world, calls_append, calls]

theorem calls_bind_silent {α β : Type} (m : Prog α) (g : α → Prog β)
    (hg : ∀ v w, calls (g v w).world.out = calls w.out) (w : World) :
    calls ((m >>= g) w).world.out = calls (m w).world.out := by
  rw [bind_run]
  cases hm : m w with
  | ret v w1 => simpa [Res.world] using hg v w1
  | exit c w1 => rfl

theorem readi2cbyte_calls (b a r : Nat) (w : World) :
    calls (readi2cbyte b a r w).world.out = calls w.out ++ [.readByte b a (r % 256)] := by
  simp only [readi2cbyte, bind_run, transact]
  cases w.bus 0 with
  | openFail => simp [printf, exit, bind_run, Res.world, calls_append, calls]
  | accessFail => simp [printf, exit, bind_run, Res.world, calls_append, calls]
  | result r =>
    by_cases hr : r < 0 <;>
      simp [hr, printf, exit, bind_run, pure_run, Res.world, calls_append, calls]

theorem readi2cword_calls (b a r : Nat) (w : World) :
    calls (readi2cword b a r w).world.out = calls w.out ++ [.readWord b a (r % 256)] := by
  simp only [readi2cword, bind_run, transact]
  cases w.bus 0 with
  | openFail => simp [printf, exit, bind_run, Res.world, calls_append, calls]
  | accessFail => simp [printf, exit, bind_run, Res.world, calls_append, calls]
  | result r =>
    by_cases hr : r < 0 <;>
      simp [hr, printf, exit, bind_run, pure_run, Res.world, calls_append, calls]

theorem iovalue_run_calls (a : Arguments) (w : World) :
    calls (main_iovalue a w).world.out = calls w.out ++ iovalue_calls a.iovalue (w.bus 0) := by
  unfold main_iovalue iovalue_calls
  cases hreq : a.iovalue with
  | false => simp [pure_run, Res.world]
  | true =>
    simp only [if_true, bind_run, readi2cbyte, transact]
    cases hb : w.bus 0 with
    | openFail => simp [printf, exit, bind_run, Res.world, calls_append, calls]
    | accessFail => simp [printf, exit, bind_run, Res.world, calls_append, calls]
    | result m =>
      by_cases hneg : m < 0
      · have h1 : m ≠ 1 := by omega
        have h2 : ¬ (m = 2 ∨ m = 3) := by omega
        simp [hneg, h1, h2, printf, exit, bind_run, Res.world, calls_append, calls]
      · by_cases hbig : m > 3
        · have h1 : m ≠ 1 := by omega
          have h2 : ¬ (m = 2 ∨ m = 3) := by omega
          simp [hneg, hbig, h1, h2, printf, pure_run, Res.world, calls_append, calls]
        · have hm : m = 0 ∨ m = 1 ∨ m = 2 ∨ m = 3 := by omega
          rcases hm with rfl | rfl | rfl | rfl
          · simp [printf, pure_run, Res.world, calls_append, calls]
          all_goals
            by_cases hv : (a.verbose = true ∨ 1 < arg_count a) <;>
            cases h1 : w.bus (0 + 1) with
            | openFail =>
              simp [hv, h1, readi2cword, readi2cbyte, transact, printf, exit, bind_run, pure_run,
                Res.world, calls_append, calls]
            | accessFail =>
              simp [hv, h1, readi2cword, readi2cbyte, transact, printf, exit, bind_run, pure_run,
                Res.world, calls_append, calls]
            | result r =>
              by_cases hr : r < 0 <;>
              simp [hv, h1, hr, readi2cword, readi2cbyte, transact, printf, exit, bind_run,
                pure_run, Res.world, calls_append, calls]

/-- C13: the IO pin value block first reads the IO pin mode (byte read of
register 0x10 of device 0x6B); then for mode 0 it only reports that the mode is
not set, for mode 1 it issues exactly one word read of register 0x11, for mode
2 or 3 exactly one byte read of register 0x11, and for a mode above 3 it only
reports the unexpected mode. -/
theorem iovalue_reads_by_mode (a : Arguments) (bus : Nat → Outcome) (rtl : Bool)
    (stdin : List String) (strresp : String) (m : Int) (hreq : a.iovalue = true)
    (hm : 0 ≤ m) (h0 : bus 0 = .result m) :
    (calls (run (main_iovalue a) bus rtl stdin strresp)).head? = some (.readByte 1 0x6B 0x10)
      ∧ (m = 0 → run (main_iovalue a) bus rtl stdin strresp
          = [.call (.readByte 1 0x6B 0x10) (.result 0), .printf "IO Pin mode is not set\n" []])
      ∧ (m = 1 → calls (run (main_iovalue a) bus rtl stdin strresp)
          = [.readByte 1 0x6B 0x10, .readWord 1 0x6B 0x11])
      ∧ (m = 2 ∨ m = 3 → calls (run (main_iovalue a) bus rtl stdin strresp)
          = [.readByte 1 0x6B 0x10, .readByte 1 0x6B 0x11])
      ∧ (3 < m → run (main_iovalue a) bus rtl stdin strresp
          = [.call (.readByte 1 0x6B 0x10) (.result m),
             .printf "Error: Unexpected io pin mode: %i\n" [.int m]]) := by
  have hc : calls (run (main_iovalue a) bus rtl stdin strresp)
      = iovalue_calls true (.result m) := by
    have h := iovalue_run_calls a (World.init bus rtl stdin strresp)
    rw [hreq] at h
    simpa [run, World.init, calls, h0] using h
  have hneg : ¬ m < 0 := by omega
  refine ⟨by rw [hc]; rfl, ?_, ?_, ?_, ?_⟩
  · rintro rfl
    simp [run, main_iovalue, hreq, readi2cbyte, transact, printf, bind_run, pure_run, World.init,
      h0, Res.world]
  · rintro rfl
    rw [hc]
    rfl
  · intro h
    rw [hc]
    rcases h with rfl | rfl <;> rfl
  · intro h
    simp [run, main_iovalue, hreq, readi2cbyte, transact, printf, bind_run, pure_run, World.init,
      h0, Res.world, hneg, h]

theorem iovalue_reads_by_mode_witness :
    calls (run (main_iovalue (argp_parse [('V', none)] main_defaults))
        (fun i => if i = 0 then .result 1 else .result 321) false [] "")
      = [.readByte 1 0x6B 0x10, .readWord 1 0x6B 0x11] :=
  (iovalue_reads_by_mode (argp_parse [('V', none)] main_defaults)
    (fun i => if i = 0 then .result 1 else .result 321) false [] "" 1 rfl (by norm_num)
    rfl).2.2.1 rfl

/-- C16 fails on the code: `upis -ron` writes 1 and reports "on/closed", but
`upis -r -v` shows a register value of 1 as "off/open" and a value of 0 as
"on/closed": the verbose read branch tests the register against 0. -/
theorem relay_read_label_is_reversed :
    run (main [('r', some "on")]) (fun _ => .result 0) false [] ""
        = [.call (.writeByte 1 0x6B 0x0B 1) (.result 0), .printf "Relay set to: on/closed\n" []]
      ∧ run (main [('r', none), ('v', none)]) (fun _ => .result 1) false [] ""
        = [.call (.readByte 1 0x6B 0x0B) (.result 1), .printf "off/open" [], .printf "\n" []]
      ∧ run (main [('r', some "off")]) (fun _ => .result 0) false [] ""
        = [.call (.writeByte 1 0x6B 0x0B 0) (.result 0), .printf "Relay set to: off/open\n" []]
      ∧ run (main [('r', none), ('v', none)]) (fun _ => .result 0) false [] ""
        = [.call (.readByte 1 0x6B 0x0B) (.result 0), .printf "on/closed" [], .printf "\n" []] := by
  decide!

/-! ## Conformance to the register table -/

theorem write_valid_range (s : String) (lo hi : Nat) (hhi : hi ≤ 255)
    (h : write_valid s lo hi = true) :
    lo ≤ (atoi s % 256).toNat ∧ (atoi s % 256).toNat ≤ hi := by
  simp only [write_valid, decide_eq_true_eq, ge_iff_le] at h
  have : atoi s % 256 = atoi s := Int.emod_eq_of_lt (by omega) (by omega)
  rw [this]
  omega

theorem is_write_byte_iff (addr reg lo hi v : Nat) :
    is_write_byte addr reg lo hi (.writeByte 1 addr reg v) = true ↔ lo ≤ v ∧ v ≤ hi := by
  simp [is_write_byte]

theorem listed_main_rtc {I : World → Prop} (a : Arguments)
    (h : Stable I (fun c => a.rtc = true ∧ Property.rtc.register_table c = true)) :
    Keeps I (main_rtc a) := by
  unfold main_rtc
  repeat' first
    | exact keeps_printf h _ _
    | exact keeps_pure _
    | exact keeps_readi2cbyte h ⟨by assumption, by decide⟩
    | apply keeps_ite
    | apply keeps_bind
    | split
    | intro _

theorem listed_main_rtcfactor {I : World → Prop} (a : Arguments)
    (h : Stable I (fun c => a.rtcfactor = true ∧ Property.rtcfactor.register_table c = true)) :
    Keeps I (main_rtcfactor a) := by
  unfold main_rtcfactor
  repeat' first
    | exact keeps_printf h _ _
    | exact keeps_pure _
    | exact keeps_display_set h _ _ _ _ _ _ _ _ _ _ ⟨by assumption, by decide⟩
        (fun s _ hv => ⟨by assumption, by
          have hr := write_valid_range s 0 255 (by norm_num) (by simpa using hv)
          simp only [Property.register_table, Bool.or_eq_true]
          exact Or.inr ((is_write_byte_iff _ _ _ _ _).2 hr)⟩)
    | apply keeps_ite
    | apply keeps_bind
    | split
    | intro _

theorem listed_main_pwrsrc {I : World → Prop} (a : Arguments)
    (h : Stable I (fun c => a.pwrsrc = true ∧ Property.pwrsrc.register_table c = true)) :
    Keeps I (main_pwrsrc a) := by
  unfold main_pwrsrc
  repeat' first
    | exact keeps_printf h _ _
    | exact keeps_pure _
    | exact keeps_readi2cbyte h ⟨by assumption, by decide⟩
    | apply keeps_ite
    | apply keeps_bind
    | split
    | intro _

theorem listed_main_batvolt {I : World → Prop} (a : Arguments)
    (h : Stable I (fun c => a.batvolt = true ∧ Property.batvolt.register_table c = true)) :
    Keeps I (main_batvolt a) := by
  unfold main_batvolt
  repeat' first
    | exact keeps_printf h _ _
    | exact keeps_pure _
    | exact keeps_voltage h _ _ _ _ ⟨by assumption, by decide⟩
    | apply keeps_ite
    | apply keeps_bind
    | split
    | intro _

theorem listed_main_rpivolt {I : World → Prop} (a : Arguments)
    (h : Stable I (fun c => a.rpivolt = true ∧ Property.rpivolt.register_table c = true)) :
    Keeps I (main_rpivolt a) := by
  unfold main_rpivolt
  repeat' first
    | exact keeps_printf h _ _
    | exact keeps_pure _
    | exact keeps_voltage h _ _ _ _ ⟨by assumption, by decide⟩
    | apply keeps_ite
    | apply keeps_bind
    | split
    | intro _

theorem listed_main_eprvolt {I : World → Prop} (a : Arguments)
    (h : Stable I (fun c => a.eprvolt = true ∧ Property.eprvolt.register_table c = true)) :
    Keeps I (main_eprvolt a) := by
  unfold main_eprvolt
  repeat' first
    | exact keeps_printf h _ _
    | exact keeps_pure _
    | exact keeps_voltage h _ _ _ _ ⟨by assumption, by decide⟩
    | apply keeps_ite
    | apply keeps_bind
    | split
    | intro _

theorem listed_main_usbvolt {I : World → Prop} (a : Arguments)
    (h : Stable I (fun c => a.usbvolt = true ∧ Property.usbvolt.register_table c = true)) :
    Keeps I (main_usbvolt a) := by
  unfold main_usbvolt
  repeat' first
    | exact keeps_printf h _ _
    | exact keeps_pure _
    | exact keeps_voltage h _ _ _ _ ⟨by assumption, by decide⟩
    | apply keeps_ite
    | apply keeps_bind
    | split
    | intro _

theorem listed_main_current {I : World → Prop} (a : Arguments)
    (h : Stable I (fun c => a.current = true ∧ Property.current.register_table c = true)) :
    Keeps I (main_current a) := by
  unfold main_current
  repeat' first
    | exact keeps_printf h _ _
    | exact keeps_pure _
    | exact keeps_readi2cword h ⟨by assumption, by decide⟩
    | apply keeps_ite
    | apply keeps_bind
    | split
    | intro _

theorem listed_main_centigrade {I : World → Prop} (a : Arguments)
    (h : Stable I (fun c => a.centigrade = true ∧ Property.centigrade.register_table c = true)) :
    Keeps I (main_centigrade a) := by
  unfold main_centigrade
  repeat' first
    | exact keeps_printf h _ _
    | exact keeps_pure _
    | exact keeps_readi2cbyte h ⟨by assumption, by decide⟩
    | apply keeps_ite
    | apply keeps_bind
    | split
    | intro _

theorem listed_main_fahrenheit {I : World → Prop} (a : Arguments)
    (h : Stable I (fun c => a.fahrenheit = true ∧ Property.fahrenheit.register_table c = true)) :
    Keeps I (main_fahrenheit a) := by
  unfold main_fahrenheit
  repeat' first
    | exact keeps_printf h _ _
    | exact keeps_pure _
    | exact keeps_readi2cword h ⟨by assumption, by decide⟩
    | apply keeps_ite
    | apply keeps_bind
    | split
    | intro _

theorem listed_main_fwver {I : World → Prop} (a : Arguments)
    (h : Stable I (fun c => a.fwver = true ∧ Property.fwver.register_table c = true)) :
    Keeps I (main_fwver a) := by
  unfold main_fwver
  repeat' first
    | exact keeps_printf h _ _
    | exact keeps_pure _
    | exact keeps_readi2cword h ⟨by assumption, by decide⟩
    | apply keeps_ite
    | apply keeps_bind
    | split
    | intro _

theorem listed_main_factory {I : World → Prop} (a : Arguments)
    (h : Stable I (fun c => a.factory = true ∧ Property.factory.register_table c = true)) :
    Keeps I (main_factory a) := by
  unfold main_factory
  repeat' first
    | exact keeps_printf h _ _
    | exact keeps_pure _
    | exact keeps_confirm h _ _ _ _ (fun _ _ _ => ⟨by assumption, by decide⟩)
    | apply keeps_ite
    | apply keeps_bind
    | split
    | intro _

theorem listed_main_reset {I : World → Prop} (a : Arguments)
    (h : Stable I (fun c => a.reset = true ∧ Property.reset.register_table c = true)) :
    Keeps I (main_reset a) := by
  unfold main_reset
  repeat' first
    | exact keeps_printf h _ _
    | exact keeps_pure _
    | exact keeps_confirm h _ _ _ _ (fun _ _ _ => ⟨by assumption, by decide⟩)
    | apply keeps_ite
    | apply keeps_bind
    | split
    | intro _

theorem listed_main_bootloader {I : World → Prop} (a : Arguments)
    (h : Stable I (fun c => a.bootloader = true ∧ Property.bootloader.register_table c = true)) :
    Keeps I (main_bootloader a) := by
  unfold main_bootloader
  repeat' first
    | exact keeps_printf h _ _
    | exact keeps_pure _
    | exact keeps_confirm h _ _ _ _ (fun _ _ _ => ⟨by assumption, by decide⟩)
    | apply keeps_ite
    | apply keeps_bind
    | split
    | intro _

theorem listed_main_errorno {I : World → Prop} (a : Arguments)
    (h : Stable I (fun c => a.errorno = true ∧ Property.errorno.register_table c = true)) :
    Keeps I (main_errorno a) := by
  unfold main_errorno
  repeat' first
    | exact keeps_printf h _ _
    | exact keeps_pure _
    | exact keeps_readi2cbyte h ⟨by assumption, by decide⟩
    | apply keeps_ite
    | apply keeps_bind
    | split
    | intro _

theorem listed_main_watchdog {I : World → Prop} (a : Arguments)
    (h : Stable I (fun c => a.watchdog = true ∧ Property.watchdog.register_table c = true)) :
    Keeps I (main_watchdog a) := by
  unfold main_watchdog
  repeat' first
    | exact keeps_printf h _ _
    | exact keeps_pure _
    | exact keeps_display_set h _ _ _ _ _ _ _ _ _ _ ⟨by assumption, by decide⟩
        (fun s _ hv => ⟨by assumption, by
          have hr := write_valid_range s 0 255 (by norm_num) (by simpa using hv)
          simp only [Property.register_table, Bool.or_eq_true]
          exact Or.inr ((is_write_byte_iff _ _ _ _ _).2 hr)⟩)
    | apply keeps_ite
    | apply keeps_bind
    | split
    | intro _

theorem listed_main_fssd {I : World → Prop} (a : Arguments)
    (h : Stable I (fun c => a.fssd = true ∧ Property.fssd.register_table c = true)) :
    Keeps I (main_fssd a) := by
  unfold main_fssd
  repeat' first
    | exact keeps_printf h _ _
    | exact keeps_pure _
    | exact keeps_writei2cbyte h ⟨by assumption, by decide⟩
    | apply keeps_ite
    | apply keeps_bind
    | split
    | intro _

theorem listed_main_fssdtimeout {I : World → Prop} (a : Arguments)
    (h : Stable I (fun c => a.fssdtimeout = true ∧ Property.fssdtimeout.register_table c = true)) :
    Keeps I (main_fssdtimeout a) := by
  unfold main_fssdtimeout
  repeat' first
    | exact keeps_printf h _ _
    | exact keeps_pure _
    | exact keeps_display_set h _ _ _ _ _ _ _ _ _ _ ⟨by assumption, by decide⟩
        (fun s _ hv => ⟨by assumption, by
          have hr := write_valid_range s 15 255 (by norm_num) (by simpa using hv)
          simp only [Property.register_table, Bool.or_eq_true]
          exact Or.inr ((is_write_byte_iff _ _ _ _ _).2 hr)⟩)
    | apply keeps_ite
    | apply keeps_bind
    | split
    | intro _

theorem listed_main_fssdtype {I : World → Prop} (a : Arguments)
    (h : Stable I (fun c => a.fssdtype = true ∧ Property.fssdtype.register_table c = true)) :
    Keeps I (main_fssdtype a) := by
  unfold main_fssdtype
  repeat' first
    | exact keeps_printf h _ _
    | exact keeps_pure _
    | exact keeps_display_set h _ _ _ _ _ _ _ _ _ _ ⟨by assumption, by decide⟩
        (fun s _ hv => ⟨by assumption, by
          have hr := write_valid_range s 0 2 (by norm_num) (by simpa using hv)
          simp only [Property.register_table, Bool.or_eq_true]
          exact Or.inr ((is_write_byte_iff _ _ _ _ _).2 hr)⟩)
    | apply keeps_ite
    | apply keeps_bind
    | split
    | intro _

theorem listed_main_fssdbatime {I : World → Prop} (a : Arguments)
    (h : Stable I (fun c => a.fssdbatime = true ∧ Property.fssdbatime.register_table c = true)) :
    Keeps I (main_fssdbatime a) := by
  unfold main_fssdbatime
  repeat' first
    | exact keeps_printf h _ _
    | exact keeps_pure _
    | exact keeps_display_set h _ _ _ _ _ _ _ _ _ _ ⟨by assumption, by decide⟩
        (fun s _ hv => ⟨by assumption, by
          have hr := write_valid_range s 0 255 (by norm_num) (by simpa using hv)
          simp only [Property.register_table, Bool.or_eq_true]
          exact Or.inr ((is_write_byte_iff _ _ _ _ _).2 hr)⟩)
    | apply keeps_ite
    | apply keeps_bind
    | split
    | intro _

theorem listed_main_starttimer {I : World → Prop} (a : Arguments)
    (h : Stable I (fun c => a.starttimer = true ∧ Property.starttimer.register_table c = true)) :
    Keeps I (main_starttimer a) := by
  unfold main_starttimer
  repeat' first
    | exact keeps_printf h _ _
    | exact keeps_pure _
    | apply keeps_ite
    | apply keeps_bind
    | split
    | intro _

theorem listed_main_stoptimer {I : World → Prop} (a : Arguments)
    (h : Stable I (fun c => a.stoptimer = true ∧ Property.stoptimer.register_table c = true)) :
    Keeps I (main_stoptimer a) := by
  unfold main_stoptimer
  repeat' first
    | exact keeps_printf h _ _
    | exact keeps_pure _
    | apply keeps_ite
    | apply keeps_bind
    | split
    | intro _

theorem listed_main_lprtimer {I : World → Prop} (a : Arguments)
    (h : Stable I (fun c => a.lprtimer = true ∧ Property.lprtimer.register_table c = true)) :
    Keeps I (main_lprtimer a) := by
  unfold main_lprtimer
  repeat' first
    | exact keeps_printf h _ _
    | exact keeps_pure _
    | exact keeps_display_set h _ _ _ _ _ _ _ _ _ _ ⟨by assumption, by decide⟩
        (fun s _ hv => ⟨by assumption, by
          have hr := write_valid_range s 0 255 (by norm_num) (by simpa using hv)
          simp only [Property.register_table, Bool.or_eq_true]
          exact Or.inr ((is_write_byte_iff _ _ _ _ _).2 hr)⟩)
    | apply keeps_ite
    | apply keeps_bind
    | split
    | intro _

theorem listed_main_relay {I : World → Prop} (a : Arguments)
    (h : Stable I (fun c => a.relay = true ∧ Property.relay.register_table c = true)) :
    Keeps I (main_relay a) := by
  unfold main_relay
  repeat' first
    | exact keeps_printf h _ _
    | exact keeps_pure _
    | exact keeps_readi2cbyte h ⟨by assumption, by decide⟩
    | exact keeps_writei2cbyte h ⟨by assumption, by decide⟩
    | apply keeps_ite
    | apply keeps_bind
    | split
    | intro _

theorem listed_main_eprlowv {I : World → Prop} (a : Arguments)
    (h : Stable I (fun c => a.eprlowv = true ∧ Property.eprlowv.register_table c = true)) :
    Keeps I (main_eprlowv a) := by
  unfold main_eprlowv
  repeat' first
    | exact keeps_printf h _ _
    | exact keeps_pure _
    | apply keeps_ite
    | apply keeps_bind
    | split
    | intro _

theorem listed_main_minlprtime {I : World → Prop} (a : Arguments)
    (h : Stable I (fun c => a.minlprtime = true ∧ Property.minlprtime.register_table c = true)) :
    Keeps I (main_minlprtime a) := by
  unfold main_minlprtime
  repeat' first
    | exact keeps_printf h _ _
    | exact keeps_pure _
    | apply keeps_ite
    | apply keeps_bind
    | split
    | intro _

theorem listed_main_lprcurrent {I : World → Prop} (a : Arguments)
    (h : Stable I (fun c => a.lprcurrent = true ∧ Property.lprcurrent.register_table c = true)) :
    Keeps I (main_lprcurrent a) := by
  unfold main_lprcurrent
  repeat' first
    | exact keeps_printf h _ _
    | exact keeps_pure _
    | apply keeps_ite
    | apply keeps_bind
    | split
    | intro _

theorem listed_main_iomode {I : World → Prop} (a : Arguments)
    (h : Stable I (fun c => a.iomode = true ∧ Property.iomode.register_table c = true)) :
    Keeps I (main_iomode a) := by
  unfold main_iomode
  repeat' first
    | exact keeps_printf h _ _
    | exact keeps_pure _
    | exact keeps_display_set h _ _ _ _ _ _ _ _ _ _ ⟨by assumption, by decide⟩
        (fun s _ hv => ⟨by assumption, by
          have hr := write_valid_range s 0 3 (by norm_num) (by simpa using hv)
          simp only [Property.register_table, Bool.or_eq_true]
          exact Or.inr ((is_write_byte_iff _ _ _ _ _).2 hr)⟩)
    | apply keeps_ite
    | apply keeps_bind
    | split
    | intro _

theorem listed_main_iovalue {I : World → Prop} (a : Arguments)
    (h : Stable I (fun c => a.iovalue = true ∧ Property.iovalue.register_table c = true)) :
    Keeps I (main_iovalue a) := by
  unfold main_iovalue
  repeat' first
    | exact keeps_printf h _ _
    | exact keeps_pure _
    | exact keeps_readi2cbyte h ⟨by assumption, by decide⟩
    | exact keeps_readi2cword h ⟨by assumption, by decide⟩
    | apply keeps_ite
    | apply keeps_bind
    | split
    | intro _

/-! ### The calls of a run, block by block -/

theorem main_body_blocks (a : Arguments) : main_body a = run_blocks a catalog := rfl

theorem since_stable (base : List Event) (P : Call → Prop) :
    Stable (fun w => ∃ es, w.out = base ++ es ∧ ∀ c ∈ calls es, P c) P where
  printf := by
    rintro w fmt args ⟨es, h1, h2⟩
    exact ⟨es ++ [.printf fmt args], by simp [h1], by simpa [calls_append, calls] using h2⟩
  scanf := by
    rintro w ⟨es, h1, h2⟩
    unfold scanf_strresp
    cases hs : w.stdin with
    | nil =>
      exact ⟨es ++ [.scanf none], by simp [Res.world, h1], by simpa [calls_append, calls] using h2⟩
    | cons t ts =>
      exact ⟨es ++ [.scanf (some t)], by simp [Res.world, h1],
        by simpa [calls_append, calls] using h2⟩
  call := by
    rintro w c hc ⟨es, h1, h2⟩
    refine ⟨es ++ [.call c (w.bus 0)], by simp [h1], ?_⟩
    intro x hx
    simp only [calls_append, calls, List.mem_append, List.mem_singleton] at hx
    rcases hx with hx | rfl
    · exact h2 x hx
    · exact hc

theorem conforms_block (a : Arguments) (p : Property) {I : World → Prop}
    (h : Stable I (fun c => p.requested a = true ∧ p.register_table c = true)) :
    Keeps I (p.block a) := by
  cases p
  case rtc => exact listed_main_rtc a h
  case rtcfactor => exact listed_main_rtcfactor a h
  case pwrsrc => exact listed_main_pwrsrc a h
  case batvolt => exact listed_main_batvolt a h
  case rpivolt => exact listed_main_rpivolt a h
  case eprvolt => exact listed_main_eprvolt a h
  case usbvolt => exact listed_main_usbvolt a h
  case current => exact listed_main_current a h
  case centigrade => exact listed_main_centigrade a h
  case fahrenheit => exact listed_main_fahrenheit a h
  case fwver => exact listed_main_fwver a h
  case factory => exact listed_main_factory a h
  case reset => exact listed_main_reset a h
  case bootloader => exact listed_main_bootloader a h
  case errorno => exact listed_main_errorno a h
  case watchdog => exact listed_main_watchdog a h
  case fssd => exact listed_main_fssd a h
  case fssdtimeout => exact listed_main_fssdtimeout a h
  case fssdtype => exact listed_main_fssdtype a h
  case fssdbatime => exact listed_main_fssdbatime a h
  case starttimer => exact listed_main_starttimer a h
  case stoptimer => exact listed_main_stoptimer a h
  case lprtimer => exact listed_main_lprtimer a h
  case relay => exact listed_main_relay a h
  case eprlowv => exact listed_main_eprlowv a h
  case minlprtime => exact listed_main_minlprtime a h
  case lprcurrent => exact listed_main_lprcurrent a h
  case iomode => exact listed_main_iomode a h
  case iovalue => exact listed_main_iovalue a h

theorem issued_of_out {α : Type} (p : Prog α) (w : World) (es : List Event)
    (h : (p w).world.out = w.out ++ es) : issued p w = calls es := by
  simp [issued, h, calls_append]

theorem issued_of_calls {α : Type} (p : Prog α) (w : World) (cs : List Call)
    (h : calls (p w).world.out = calls w.out ++ cs) : issued p w = cs := by
  simp [issued, h]

theorem block_out (a : Arguments) (p : Property) (w : World) :
    ∃ es, (p.block a w).world.out = w.out ++ es
      ∧ ∀ c ∈ calls es, p.requested a = true ∧ p.register_table c = true :=
  conforms_block a p (since_stable w.out _) w ⟨[], by simp, by simp [calls]⟩

theorem run_blocks_cons (a : Arguments) (p : Property) (ps : List Property) (w : World) :
    run_blocks a (p :: ps) w = match p.block a w with
      | .ret _ w1 => run_blocks a ps w1
      | .exit c w1 => .exit c w1 := by
  rw [run_blocks, bind_run]
  cases p.block a w <;> rfl

theorem tagged_calls_run (a : Arguments) (ps : List Property) (w : World) :
    calls (run_blocks a ps w).world.out = calls w.out ++ (tagged_calls a ps w).map Prod.snd := by
  induction ps generalizing w with
  | nil => simp [run_blocks, tagged_calls, pure_run, Res.world]
  | cons p ps ih =>
    obtain ⟨es, hes, -⟩ := block_out a p w
    have hi := issued_of_out (p.block a) w es hes
    rw [run_blocks_cons]
    simp only [tagged_calls, List.map_append, List.map_map, hi]
    have hid : (Prod.snd ∘ fun c => (p, c)) = (id : Call → Call) := rfl
    rw [hid, List.map_id]
    cases hb : p.block a w with
    | ret u w1 =>
      rw [hb] at hes
      simp only [Res.world] at hes
      simp only [ih w1, hes, calls_append, List.append_assoc]
    | exit c w1 =>
      rw [hb] at hes
      simp only [Res.world] at hes
      simp [Res.world, hes, calls_append]

theorem tagged_conform (a : Arguments) (ps : List Property) (w : World) :
    ∀ pc ∈ tagged_calls a ps w,
      pc.1.requested a = true ∧ pc.1.register_table pc.2 = true := by
  induction ps generalizing w with
  | nil => simp [tagged_calls]
  | cons p ps ih =>
    obtain ⟨es, hes, hq⟩ := block_out a p w
    have hi := issued_of_out (p.block a) w es hes
    intro pc hpc
    simp only [tagged_calls, hi, List.mem_append, List.mem_map] at hpc
    rcases hpc with ⟨c, hc, rfl⟩ | hpc
    · exact hq c hc
    · cases hb : p.block a w with
      | ret u w1 =>
        rw [hb] at hpc
        exact ih w1 pc hpc
      | exit c w1 =>
        rw [hb] at hpc
        simp at hpc

/-! ## Order of the options -/

theorem parse_opt_getD (key : Char) (arg : Option String) (arguments : Arguments) :
    (parse_opt key arg arguments).getD arguments = parse_opt_update key arg arguments := by
  unfold parse_opt
  split
  case h_32 =>
    simp_all [parse_opt_update]
  all_goals rfl

theorem parse_opt_update_comm (k1 k2 : Char) (v1 v2 : Option String) (a : Arguments)
    (h : k1 ≠ k2) :
    parse_opt_update k2 v2 (parse_opt_update k1 v1 a)
      = parse_opt_update k1 v1 (parse_opt_update k2 v2 a) := by
  simp only [parse_opt_update, Bool.or_left_comm (decide (k2 = _)) (decide (k1 = _))]
  congr 1 <;> (split_ifs <;> simp_all)

theorem argp_parse_perm (opts opts' : List (Char × Option String)) (a : Arguments)
    (hperm : opts.Perm opts') (hkeys : (opts.map Prod.fst).Nodup) :
    argp_parse opts' a = argp_parse opts a := by
  unfold argp_parse
  refine (List.Perm.foldl_eq' hperm ?_ a).symm
  intro x hx y hy z
  by_cases hxy : x = y
  · rw [hxy]
  · have hk : x.1 ≠ y.1 := by
      intro hk
      exact hxy (List.inj_on_of_nodup_map hkeys hx hy hk)
    simp only [parse_opt_getD]
    exact parse_opt_update_comm x.1 y.1 x.2 y.2 z hk

/-! ## Calls of a run in which no transport call fails -/

theorem noFail_shift {bus : Nat → Outcome} (h : NoFail bus) (n : Nat) :
    NoFail (fun i => bus (i + n)) := fun i => h (i + n)

theorem emits_congr {α : Type} {p : Prog α} {cs cs' : List Call} (h : Emits p cs)
    (e : cs = cs') : Emits p cs' := e ▸ h

theorem emits_pure {α : Type} (x : α) : Emits (pure x : Prog α) [] := by
  refine ⟨fun w _ => ?_⟩
  exact ⟨x, w, rfl, by simp, by simp, rfl, rfl, rfl⟩

theorem emits_printf (fmt : String) (args : List Arg) : Emits (printf fmt args) [] := by
  refine ⟨fun w _ => ?_⟩
  exact ⟨(), _, rfl, by simp [calls_append, calls], by simp, rfl, rfl, rfl⟩

theorem emits_get_rtl : Emits get_rtl [] := by
  refine ⟨fun w _ => ?_⟩
  exact ⟨w.rtl, w, rfl, by simp, by simp, rfl, rfl, rfl⟩

theorem emits_bind {α β : Type} {m : Prog α} {f : α → Prog β} {c1 c2 : List Call}
    (hm : Emits m c1) (hf : ∀ x, Emits (f x) c2) : Emits (m >>= f) (c1 ++ c2) := by
  refine ⟨fun w hw => ?_⟩
  obtain ⟨x, w1, e1, k1, b1, r1, s1, t1⟩ := hm.run w hw
  obtain ⟨y, w2, e2, k2, b2, r2, s2, t2⟩ := (hf x).run w1 (by rw [b1]; exact noFail_shift hw _)
  refine ⟨y, w2, by rw [bind_run, e1]; exact e2, ?_, ?_, ?_, ?_, ?_⟩
  · rw [k2, k1, List.append_assoc]
  · rw [b2, b1]
    funext i
    simp only [List.length_append]
    congr 1
    omega
  · rw [r2, r1]
  · rw [s2, s1]
  · rw [t2, t1]

theorem emits_ite {α : Type} {c : Prop} {inst : Decidable c} {x y : Prog α}
    {c1 c2 : List Call} (hx : Emits x c1) (hy : Emits y c2) :
    Emits (@ite _ c inst x y) (@ite _ c inst c1 c2) := by
  by_cases h : c
  · simpa [h] using hx
  · simpa [h] using hy

theorem emits_transact (c : Call) (w : World) (hw : NoFail w.bus) :
    ∃ r, 0 ≤ r ∧ transact c w = .ret (.result r)
      { w with bus := fun i => w.bus (i + 1), out := w.out ++ [.call c (.result r)] } := by
  obtain ⟨r, hr, e⟩ := hw 0
  exact ⟨r, hr, by simp [transact, e]⟩

theorem emits_readi2cbyte (b a r : Nat) : Emits (readi2cbyte b a r) [.readByte b a (r % 256)] := by
  refine ⟨fun w hw => ?_⟩
  obtain ⟨v, hv, e⟩ := emits_transact (.readByte b a (r % 256)) w hw
  have hneg : ¬ v < 0 := by omega
  refine ⟨v, World.mk (fun i => w.bus (i + 1)) w.rtl w.stdin w.strresp
      (w.out ++ [.call (.readByte b a (r % 256)) (.result v)]), ?_, ?_, ?_, rfl, rfl, rfl⟩
  · simp [readi2cbyte, bind_run, e, hneg, pure_run]
  · simp [calls_append, calls]
  · simp

theorem emits_readi2cword (b a r : Nat) : Emits (readi2cword b a r) [.readWord b a (r % 256)] := by
  refine ⟨fun w hw => ?_⟩
  obtain ⟨v, hv, e⟩ := emits_transact (.readWord b a (r % 256)) w hw
  have hneg : ¬ v < 0 := by omega
  refine ⟨v, World.mk (fun i => w.bus (i + 1)) w.rtl w.stdin w.strresp
      (w.out ++ [.call (.readWord b a (r % 256)) (.result v)]), ?_, ?_, ?_, rfl, rfl, rfl⟩
  · simp [readi2cword, bind_run, e, hneg, pure_run]
  · simp [calls_append, calls]
  · simp

theorem emits_writei2cbyte (b a r : Nat) (v : Int) :
    Emits (writei2cbyte b a r v) [.writeByte b a (r % 256) (v % 256).toNat] := by
  refine ⟨fun w hw => ?_⟩
  obtain ⟨x, hx, e⟩ := emits_transact (.writeByte b a (r % 256) (v % 256).toNat) w hw
  have hneg : ¬ x < 0 := by omega
  refine ⟨(), World.mk (fun i => w.bus (i + 1)) w.rtl w.stdin w.strresp
      (w.out ++ [.call (.writeByte b a (r % 256) (v % 256).toNat) (.result x)]),
    ?_, ?_, ?_, rfl, rfl, rfl⟩
  · simp [writei2cbyte, bind_run, e, hneg, pure_run]
  · simp [calls_append, calls]
  · simp

theorem emits_nil {α : Type} {p : Prog α} (h : Emits p []) : Emits p [] := h

theorem emits_print_lines (ls : List String) : Emits (print_lines ls) [] := by
  induction ls with
  | nil => exact emits_pure _
  | cons l ls ih => exact emits_bind (emits_printf _ _) (fun _ => ih)

theorem emits_readi2cbyte_twice (b a r : Nat) :
    Emits (readi2cbyte_twice b a r) [.readByte b a (r % 256), .readByte b a (r % 256)] := by
  unfold readi2cbyte_twice
  apply emits_congr
  · repeat' first
      | exact emits_printf _ _
      | exact emits_pure _
      | exact emits_get_rtl
      | exact emits_readi2cbyte _ _ _
      | apply emits_ite
      | apply emits_bind
      | dsimp only
      | intro _
      | split
  · simp

theorem emits_voltage (verbose : Bool) (n i2creg : Nat) (label : String) :
    Emits (main_voltage verbose n i2creg label) [.readWord 1 0x6A (i2creg % 256)] := by
  unfold main_voltage
  apply emits_congr
  · repeat' first
      | exact emits_printf _ _
      | exact emits_pure _
      | exact emits_get_rtl
      | exact emits_readi2cword _ _ _
      | apply emits_ite
      | apply emits_bind
      | dsimp only
      | intro _
  · simp

theorem emits_display_set (value : Option String) (verbose : Bool) (n i2caddr i2creg : Nat)
    (lo hi : Int) (label setfmt errfmt : String) :
    Emits (main_display_set value verbose n i2caddr i2creg lo hi label setfmt errfmt)
      (match value with
        | none =>
          .readByte 1 i2caddr (i2creg % 256) ::
            (if verbose = true then [.readByte 1 i2caddr (i2creg % 256)] else [])
        | some s =>
          if write_valid s lo hi = true then
            [.writeByte 1 i2caddr (i2creg % 256) (atoi s % 256).toNat,
             .readByte 1 i2caddr (i2creg % 256), .readByte 1 i2caddr (i2creg % 256)]
          else []) := by
  unfold main_display_set
  cases value with
  | none =>
    apply emits_congr
    · repeat' first
      | exact emits_printf _ _
      | exact emits_pure _
      | exact emits_get_rtl
      | exact emits_readi2cbyte _ _ _
      | apply emits_ite
      | apply emits_bind
      | dsimp only
      | intro _
    · simp
  | some s =>
    apply emits_congr
    · repeat' first
        | exact emits_printf _ _
        | exact emits_pure _
        | exact emits_get_rtl
        | exact emits_writei2cbyte _ _ _ _
        | exact emits_readi2cbyte_twice _ _ _
        | apply emits_ite
        | apply emits_bind
        | dsimp only
        | intro _
    · simp

theorem emits_main_rtc (a : Arguments) :
    Emits (main_rtc a)
      (seq_if a.rtc [.readByte 1 0x69 0x04, .readByte 1 0x69 0x05, .readByte 1 0x69 0x06,
        .readByte 1 0x69 0x02, .readByte 1 0x69 0x01, .readByte 1 0x69 0x00, .readByte 1 0x69 0x03]) := by
  unfold main_rtc
  apply emits_congr
  · repeat' first
      | exact emits_printf _ _
      | exact emits_pure _
      | exact emits_readi2cbyte _ _ _
      | apply emits_ite
      | apply emits_bind
      | dsimp only
      | intro _
      | split
      | (refine emits_nil ?_; split)
  · simp [seq_if]

theorem emits_main_pwrsrc (a : Arguments) :
    Emits (main_pwrsrc a)
      (seq_if a.pwrsrc [.readByte 1 0x6A 0x00]) := by
  unfold main_pwrsrc
  apply emits_congr
  · repeat' first
      | exact emits_printf _ _
      | exact emits_pure _
      | exact emits_readi2cbyte _ _ _
      | apply emits_ite
      | apply emits_bind
      | dsimp only
      | intro _
      | split
  · simp [seq_if]

theorem emits_main_batvolt (a : Arguments) :
    Emits (main_batvolt a)
      (seq_if a.batvolt [.readWord 1 0x6A 0x01]) := by
  unfold main_batvolt
  apply emits_congr
  · repeat' first
      | exact emits_printf _ _
      | exact emits_pure _
      | exact emits_voltage _ _ _ _
      | apply emits_ite
  · simp [seq_if]

theorem emits_main_rpivolt (a : Arguments) :
    Emits (main_rpivolt a)
      (seq_if a.rpivolt [.readWord 1 0x6A 0x03]) := by
  unfold main_rpivolt
  apply emits_congr
  · repeat' first
      | exact emits_printf _ _
      | exact emits_pure _
      | exact emits_voltage _ _ _ _
      | apply emits_ite
  · simp [seq_if]

theorem emits_main_eprvolt (a : Arguments) :
    Emits (main_eprvolt a)
      (seq_if a.eprvolt [.readWord 1 0x6A 0x07]) := by
  unfold main_eprvolt
  apply emits_congr
  · repeat' first
      | exact emits_printf _ _
      | exact emits_pure _
      | exact emits_voltage _ _ _ _
      | apply emits_ite
  · simp [seq_if]

theorem emits_main_usbvolt (a : Arguments) :
    Emits (main_usbvolt a)
      (seq_if a.usbvolt [.readWord 1 0x6A 0x05]) := by
  unfold main_usbvolt
  apply emits_congr
  · repeat' first
      | exact emits_printf _ _
      | exact emits_pure _
      | exact emits_voltage _ _ _ _
      | apply emits_ite
  · simp [seq_if]

theorem emits_main_current (a : Arguments) :
    Emits (main_current a)
      (seq_if a.current [.readWord 1 0x6A 0x09]) := by
  unfold main_current
  apply emits_congr
  · repeat' first
      | exact emits_printf _ _
      | exact emits_pure _
      | exact emits_readi2cword _ _ _
      | apply emits_ite
      | apply emits_bind
      | dsimp only
      | intro _
  · simp [seq_if]

theorem emits_main_centigrade (a : Arguments) :
    Emits (main_centigrade a)
      (seq_if a.centigrade [.readByte 1 0x6A 0x0B]) := by
  unfold main_centigrade
  apply emits_congr
  · repeat' first
      | exact emits_printf _ _
      | exact emits_pure _
      | exact emits_readi2cbyte _ _ _
      | apply emits_ite
      | apply emits_bind
      | dsimp only
      | intro _
  · simp [seq_if]

theorem emits_main_fahrenheit (a : Arguments) :
    Emits (main_fahrenheit a)
      (seq_if a.fahrenheit [.readWord 1 0x6A 0x0C]) := by
  unfold main_fahrenheit
  apply emits_congr
  · repeat' first
      | exact emits_printf _ _
      | exact emits_pure _
      | exact emits_readi2cword _ _ _
      | apply emits_ite
      | apply emits_bind
      | dsimp only
      | intro _
  · simp [seq_if]

theorem emits_main_fwver (a : Arguments) :
    Emits (main_fwver a)
      (seq_if a.fwver [.readWord 1 0x6B 0x00]) := by
  unfold main_fwver
  apply emits_congr
  · repeat' first
      | exact emits_printf _ _
      | exact emits_pure _
      | exact emits_readi2cword _ _ _
      | apply emits_ite
      | apply emits_bind
      | dsimp only
      | intro _
  · simp [seq_if]

theorem emits_main_errorno (a : Arguments) :
    Emits (main_errorno a)
      (seq_if a.errorno [.readByte 1 0x6B 0x01]) := by
  unfold main_errorno
  apply emits_congr
  · repeat' first
      | exact emits_printf _ _
      | exact emits_pure _
      | exact emits_readi2cbyte _ _ _
      | apply emits_ite
      | apply emits_bind
      | dsimp only
      | intro _
  · simp [seq_if]

theorem emits_main_fssd (a : Arguments) :
    Emits (main_fssd a)
      (seq_if a.fssd [.writeByte 1 0x6B 0x02 0x00]) := by
  unfold main_fssd
  apply emits_congr
  · repeat' first
      | exact emits_printf _ _
      | exact emits_pure _
      | exact emits_writei2cbyte _ _ _ _
      | apply emits_ite
      | apply emits_bind
      | dsimp only
      | intro _
  · simp [seq_if]

theorem emits_main_starttimer (a : Arguments) :
    Emits (main_starttimer a)
      ([]) := by
  unfold main_starttimer
  apply emits_congr
  · repeat' first
      | exact emits_printf _ _
      | exact emits_pure _
      | apply emits_ite
  · simp [seq_if]

theorem emits_main_stoptimer (a : Arguments) :
    Emits (main_stoptimer a)
      ([]) := by
  unfold main_stoptimer
  apply emits_congr
  · repeat' first
      | exact emits_printf _ _
      | exact emits_pure _
      | apply emits_ite
  · simp [seq_if]

theorem emits_main_eprlowv (a : Arguments) :
    Emits (main_eprlowv a)
      ([]) := by
  unfold main_eprlowv
  apply emits_congr
  · repeat' first
      | exact emits_printf _ _
      | exact emits_pure _
      | apply emits_ite
  · simp [seq_if]

theorem emits_main_minlprtime (a : Arguments) :
    Emits (main_minlprtime a)
      ([]) := by
  unfold main_minlprtime
  apply emits_congr
  · repeat' first
      | exact emits_printf _ _
      | exact emits_pure _
      | apply emits_ite
  · simp [seq_if]

theorem emits_main_lprcurrent (a : Arguments) :
    Emits (main_lprcurrent a)
      ([]) := by
  unfold main_lprcurrent
  apply emits_congr
  · repeat' first
      | exact emits_printf _ _
      | exact emits_pure _
      | apply emits_ite
  · simp [seq_if]

theorem rw_block_not_requested (p : RWProperty) (a : Arguments) (h : p.requested a = false) :
    p.block a = pure () := by
  cases p <;> simp only [RWProperty.requested] at h <;>
    simp [RWProperty.block, main_rtcfactor, main_watchdog, main_fssdtimeout, main_fssdtype,
      main_fssdbatime, main_lprtimer, main_relay, main_iomode, h]

theorem emits_main_relay (a : Arguments) :
    Emits (main_relay a) (seq_if a.relay (rw_calls .relay a.RLYSTAT a.verbose)) := by
  unfold main_relay
  cases hv : a.RLYSTAT with
  | none =>
    apply emits_congr
    · repeat' first
        | exact emits_printf _ _
        | exact emits_pure _
        | exact emits_readi2cbyte _ _ _
        | apply emits_ite
        | apply emits_bind
        | dsimp only
        | intro _
        | split
    · simp [seq_if, rw_calls, RWProperty.addr, RWProperty.reg]
  | some s =>
    apply emits_congr
    · repeat' first
        | exact emits_printf _ _
        | exact emits_pure _
        | exact emits_writei2cbyte _ _ _ _
        | apply emits_ite
        | apply emits_bind
        | dsimp only
        | intro _
    · by_cases c1 : strlower s = "closed" ∨ strlower s = "1" ∨ strlower s = "on"
      · simp [seq_if, rw_calls, RWProperty.addr, RWProperty.reg, RWProperty.accepts, c1]
      · by_cases c2 : strlower s = "open" ∨ strlower s = "0" ∨ strlower s = "off"
        · simp [seq_if, rw_calls, RWProperty.addr, RWProperty.reg, RWProperty.accepts, c1, c2]
        · simp [seq_if, rw_calls, RWProperty.addr, RWProperty.reg, RWProperty.accepts, c1, c2]

theorem emits_rw_block (p : RWProperty) (a : Arguments) :
    Emits (p.block a) (seq_if (p.requested a) (rw_calls p (p.value a) a.verbose)) := by
  by_cases hp : p = .relay
  · subst hp
    exact emits_main_relay a
  cases hreq : p.requested a with
  | false =>
    rw [rw_block_not_requested p a hreq]
    exact emits_pure _
  | true =>
    obtain ⟨lo, hi, label, setfmt, errfmt, hlo, hhi, hb, hacc⟩ := accepts_numeric p hp a hreq
    rw [hb]
    refine emits_congr (emits_display_set _ _ _ _ _ _ _ _ _ _) ?_
    simp only [seq_if, if_true, rw_calls, reg_byte, hacc]
    cases p.value a with
    | none => simp [hp]
    | some s =>
      cases hv : write_valid s lo hi with
      | false => simp [hv]
      | true => simp [hp, hv, write_valid_byte s lo hi hlo hhi hv]

/-! ### The guarded blocks -/

theorem confirm_run (yes : Bool) (warning : List String) (v : Nat) (hv : v < 256)
    (aborted : String) (w : World) (hw : NoFail w.bus) :
    ∃ w1, main_confirm yes warning (v : Int) aborted w = .ret () w1
      ∧ calls w1.out = calls w.out ++ (confirm_step true yes v (w.stdin, w.strresp)).1
      ∧ w1.bus = (fun i => w.bus (i + (confirm_step true yes v (w.stdin, w.strresp)).1.length))
      ∧ w1.rtl = w.rtl
      ∧ (w1.stdin, w1.strresp) = (confirm_step true yes v (w.stdin, w.strresp)).2 := by
  have hbyte : ((v : Int) % 256).toNat = v := by omega
  have hwrite := fun w (hw : NoFail w.bus) => (emits_writei2cbyte 1 0x69 0x07 (v : Int)).run w hw
  have hprint := fun w (hw : NoFail w.bus) => (emits_printf aborted []).run w hw
  simp only [hbyte] at hwrite
  cases yes with
  | true =>
    obtain ⟨_, w1, e, k, b, r, s, t⟩ := hwrite w hw
    refine ⟨w1, ?_, by simpa [confirm_step] using k, by simpa [confirm_step] using b, r, ?_⟩
    · simpa [main_confirm, bind_run, pure_run, get_strresp] using e
    · simp [confirm_step, s, t]
  | false =>
    simp only [main_confirm, Bool.not_false, if_true, bind_run, print_lines_run, scanf_strresp,
      get_strresp, Bool.false_eq_true, false_or]
    cases hs : w.stdin with
    | nil =>
      simp only [confirm_step, if_true, Bool.false_eq_true, if_false]
      by_cases hy : w.strresp = "y" ∨ w.strresp = "Y"
      · simp only [hy, if_true]
        obtain ⟨_, w1, e, k, b, r, s, t⟩ := hwrite
          { w with stdin := [],
                   out := w.out ++ List.map (fun l => Event.printf l []) warning
                     ++ [Event.scanf none] }
          hw
        refine ⟨w1, e, ?_, by simpa using b, r, ?_⟩
        · simpa [calls_append, calls_printfs, calls] using k
        · simp [s, t, hs]
      · simp only [hy, if_false]
        obtain ⟨_, w1, e, k, b, r, s, t⟩ := hprint
          { w with stdin := [],
                   out := w.out ++ List.map (fun l => Event.printf l []) warning
                     ++ [Event.scanf none] }
          hw
        refine ⟨w1, e, ?_, by simpa using b, r, ?_⟩
        · simpa [calls_append, calls_printfs, calls] using k
        · simp [s, t, hs]
    | cons tok rest =>
      simp only [confirm_step, if_true, Bool.false_eq_true, if_false]
      by_cases hy : tok = "y" ∨ tok = "Y"
      · simp only [hy, if_true]
        obtain ⟨_, w1, e, k, b, r, s, t⟩ := hwrite
          { w with stdin := rest, strresp := tok,
                   out := w.out ++ List.map (fun l => Event.printf l []) warning
                     ++ [Event.scanf (some tok)] }
          hw
        refine ⟨w1, e, ?_, by simpa using b, r, ?_⟩
        · simpa [calls_append, calls_printfs, calls] using k
        · simp [s, t]
      · simp only [hy, if_false]
        obtain ⟨_, w1, e, k, b, r, s, t⟩ := hprint
          { w with stdin := rest, strresp := tok,
                   out := w.out ++ List.map (fun l => Event.printf l []) warning
                     ++ [Event.scanf (some tok)] }
          hw
        refine ⟨w1, e, ?_, by simpa using b, r, ?_⟩
        · simpa [calls_append, calls_printfs, calls] using k
        · simp [s, t]

theorem guarded_step (requested yes : Bool) (warning : List String) (v : Nat) (hv : v < 256)
    (aborted : String) (w : World) (hw : NoFail w.bus) :
    ∃ w1, (if requested = true then main_confirm yes warning (v : Int) aborted else pure ()) w
        = .ret () w1
      ∧ calls w1.out = calls w.out ++ (confirm_step requested yes v (w.stdin, w.strresp)).1
      ∧ w1.bus
        = (fun i => w.bus (i + (confirm_step requested yes v (w.stdin, w.strresp)).1.length))
      ∧ w1.rtl = w.rtl
      ∧ (w1.stdin, w1.strresp) = (confirm_step requested yes v (w.stdin, w.strresp)).2 := by
  cases requested with
  | false => exact ⟨w, rfl, by simp [confirm_step], by simp [confirm_step], rfl, rfl⟩
  | true => simpa using confirm_run yes warning v hv aborted w hw

theorem guard_run (a : Arguments) (w : World) (hw : NoFail w.bus) :
    ∃ w1, main_guard a w = .ret () w1
      ∧ calls w1.out = calls w.out ++ guard_calls a (w.stdin, w.strresp)
      ∧ w1.bus = (fun i => w.bus (i + (guard_calls a (w.stdin, w.strresp)).length))
      ∧ w1.rtl = w.rtl := by
  obtain ⟨w1, e1, k1, b1, r1, s1⟩ :=
    guarded_step a.factory a.yes factory_warning 0xDD (by norm_num) "Factory reset aborted.\n" w hw
  obtain ⟨w2, e2, k2, b2, r2, s2⟩ :=
    guarded_step a.reset a.yes reset_warning 0xEE (by norm_num) "Reset aborted.\n" w1
      (by rw [b1]; exact noFail_shift hw _)
  obtain ⟨w3, e3, k3, b3, r3, s3⟩ :=
    guarded_step a.bootloader a.yes bootloader_warning 0xFF (by norm_num) "Bootloader aborted.\n"
      w2 (by rw [b2]; exact noFail_shift (by rw [b1]; exact noFail_shift hw _) _)
  have c1 : ((0xDD : Nat) : Int) = 0xdd := rfl
  have c2 : ((0xEE : Nat) : Int) = 0xee := rfl
  have c3 : ((0xFF : Nat) : Int) = 0xff := rfl
  rw [c1] at e1
  rw [c2] at e2
  rw [c3] at e3
  have st1 : (w1.stdin, w1.strresp) = (confirm_step a.factory a.yes 0xDD (w.stdin, w.strresp)).2 := s1
  rw [s1] at k2 b2 s2
  rw [s2] at k3 b3
  refine ⟨w3, ?_, ?_, ?_, ?_⟩
  · simp only [main_guard, main_factory, main_reset, main_bootloader, bind_run]
    rw [e1]
    simp only []
    rw [e2]
    exact e3
  · rw [k3, k2, k1]
    simp [guard_calls, List.append_assoc]
  · rw [b3, b2, b1]
    funext i
    simp only [guard_calls, List.length_append]
    congr 1
    omega
  · rw [r3, r2, r1]

/-! ### The whole of `main` -/

theorem prog_bind_assoc {α β γ : Type} (m : Prog α) (f : α → Prog β) (g : β → Prog γ) :
    (m >>= f) >>= g = m >>= fun x => f x >>= g := by
  funext w
  simp only [bind_run]
  cases m w <;> rfl

theorem main_body_eq (a : Arguments) :
    main_body a
      = (main_pre a >>= fun _ => main_guard a >>= fun _ => main_mid a >>= fun _ =>
          main_iovalue a >>= fun _ => pure 0) := by
  simp only [main_body, main_pre, main_guard, main_mid, prog_bind_assoc]

theorem emits_main_pre (a : Arguments) : Emits (main_pre a) (calls_before_guard a) := by
  unfold main_pre
  refine emits_congr
    (emits_bind (emits_main_rtc a) fun _ =>
      emits_bind (emits_rw_block .rtcfactor a) fun _ =>
      emits_bind (emits_main_pwrsrc a) fun _ =>
      emits_bind (emits_main_batvolt a) fun _ =>
      emits_bind (emits_main_rpivolt a) fun _ =>
      emits_bind (emits_main_eprvolt a) fun _ =>
      emits_bind (emits_main_usbvolt a) fun _ =>
      emits_bind (emits_main_current a) fun _ =>
      emits_bind (emits_main_centigrade a) fun _ =>
      emits_bind (emits_main_fahrenheit a) fun _ => emits_main_fwver a) ?_
  simp only [calls_before_guard, List.append_assoc, RWProperty.requested, RWProperty.value]

theorem emits_main_mid (a : Arguments) : Emits (main_mid a) (calls_after_guard a) := by
  unfold main_mid
  refine emits_congr
    (emits_bind (emits_main_errorno a) fun _ =>
      emits_bind (emits_rw_block .watchdog a) fun _ =>
      emits_bind (emits_main_fssd a) fun _ =>
      emits_bind (emits_rw_block .fssdtimeout a) fun _ =>
      emits_bind (emits_rw_block .fssdtype a) fun _ =>
      emits_bind (emits_rw_block .fssdbatime a) fun _ =>
      emits_bind (emits_main_starttimer a) fun _ =>
      emits_bind (emits_main_stoptimer a) fun _ =>
      emits_bind (emits_rw_block .lprtimer a) fun _ =>
      emits_bind (emits_rw_block .relay a) fun _ =>
      emits_bind (emits_main_eprlowv a) fun _ =>
      emits_bind (emits_main_minlprtime a) fun _ =>
      emits_bind (emits_main_lprcurrent a) fun _ => emits_rw_block .iomode a) ?_
  simp only [calls_after_guard, List.append_assoc, RWProperty.requested, RWProperty.value,
    List.nil_append]

theorem world_bind_pure {α β : Type} (m : Prog α) (y : β) (w : World) :
    ((m >>= fun _ => (pure y : Prog β)) w).world = (m w).world := by
  rw [bind_run]
  cases m w <;> rfl

theorem main_body_calls (a : Arguments) (bus : Nat → Outcome) (rtl : Bool)
    (stdin : List String) (strresp : String) (hbus : NoFail bus) :
    calls (run (main_body a) bus rtl stdin strresp)
      = calls_before_guard a ++ guard_calls a (stdin, strresp) ++ calls_after_guard a
        ++ iovalue_calls a.iovalue
          (bus ((calls_before_guard a ++ guard_calls a (stdin, strresp)
            ++ calls_after_guard a).length)) := by
  obtain ⟨_, w1, e1, k1, b1, r1, s1, t1⟩ :=
    (emits_main_pre a).run (World.init bus rtl stdin strresp) hbus
  have h1 : NoFail w1.bus := by rw [b1]; exact noFail_shift hbus _
  obtain ⟨w2, e2, k2, b2, r2⟩ := guard_run a w1 h1
  have h2 : NoFail w2.bus := by rw [b2]; exact noFail_shift h1 _
  obtain ⟨_, w3, e3, k3, b3, r3, s3, t3⟩ := (emits_main_mid a).run w2 h2
  have hio := iovalue_run_calls a w3
  have hrun : (main_body a (World.init bus rtl stdin strresp)).world = (main_iovalue a w3).world := by
    rw [main_body_eq, bind_run, e1]
    simp only []
    rw [bind_run, e2]
    simp only []
    rw [bind_run, e3]
    exact world_bind_pure _ _ _
  rw [run, hrun, hio, k3, k2, k1, b3, b2, b1, s1, t1]
  simp only [World.init, calls, List.nil_append, List.length_append, Nat.zero_add]
  have hidx : (calls_after_guard a).length + (guard_calls a (stdin, strresp)).length
      + (calls_before_guard a).length
      = (calls_before_guard a).length + (guard_calls a (stdin, strresp)).length
        + (calls_after_guard a).length := by omega
  rw [hidx]

theorem main_guard_calls (a : Arguments) (bus : Nat → Outcome) (rtl : Bool)
    (stdin : List String) (strresp : String) (hbus : NoFail bus) :
    calls (run (main_guard a) bus rtl stdin strresp) = guard_calls a (stdin, strresp) := by
  obtain ⟨w1, e, k, -, -⟩ := guard_run a (World.init bus rtl stdin strresp) hbus
  rw [run, e]
  simpa [World.init, calls] using k

/-- C15 (as amended): when no transport call fails, the transport calls of an
invocation are, in the fixed order of the blocks of `main`: the calls of the
properties before the guarded actions, the calls of the three guarded actions
run by themselves on the same standard input, the calls of the properties
after them, and the calls of the IO pin value for the mode that its first read
returns.  The calls of every property outside the guarded actions and the IO
pin value, and its accept/reject decision, depend on its own flag and argument
and the verbose flag only.  Options given once each may be permuted without
changing the run. -/
theorem calls_in_catalog_order (a : Arguments) (bus : Nat → Outcome) (rtl : Bool)
    (stdin : List String) (strresp : String) (hbus : NoFail bus) :
    calls (run (main_body a) bus rtl stdin strresp)
        = calls_before_guard a ++ calls (run (main_guard a) bus rtl stdin strresp)
          ++ calls_after_guard a
          ++ iovalue_calls a.iovalue
            (bus ((calls_before_guard a ++ calls (run (main_guard a) bus rtl stdin strresp)
              ++ calls_after_guard a).length))
      ∧ ∀ opts opts' : List (Char × Option String), argp_parse opts main_defaults = a →
          opts.Perm opts' → (opts.map Prod.fst).Nodup →
          run (main opts') bus rtl stdin strresp = run (main_body a) bus rtl stdin strresp := by
  constructor
  · rw [main_guard_calls a bus rtl stdin strresp hbus]
    exact main_body_calls a bus rtl stdin strresp hbus
  · intro opts opts' ha hperm hkeys
    rw [main, argp_parse_perm opts opts' main_defaults hperm hkeys, ha]

theorem calls_in_catalog_order_witness :
    calls (run (main_body (argp_parse [('r', some "maybe"), ('w', some "5")] main_defaults))
        (fun _ => .result 7) false [] "")
      = [.writeByte 1 0x6B 0x02 5, .readByte 1 0x6B 0x02, .readByte 1 0x6B 0x02] :=
  (calls_in_catalog_order (argp_parse [('r', some "maybe"), ('w', some "5")] main_defaults)
    (fun _ => .result 7) false [] "" (fun _ => ⟨7, by norm_num, rfl⟩)).1.trans (by decide!)

/-- C15 (as stated) fails for the guarded actions: with the tokens `n` and `y`
on standard input and no transport failure, `upis -z` alone issues no call and
`upis -Z` alone issues no call, but `upis -Z -z` writes 0xEE: the processor
reset answers with the second token once the factory reset has taken the
first. -/
theorem guarded_actions_share_stdin :
    calls (run (main [('z', none)]) (fun _ => .result 0) false ["n", "y"] "") = []
      ∧ calls (run (main [('Z', none)]) (fun _ => .result 0) false ["n", "y"] "") = []
      ∧ calls (run (main [('Z', none), ('z', none)]) (fun _ => .result 0) false ["n", "y"] "")
        = [.writeByte 1 0x69 0x07 0xEE] := by
  decide!

/-! ## The calls of each block and the register table -/

theorem issued_of_emits {α : Type} {p : Prog α} {cs : List Call} (h : Emits p cs) (w : World)
    (hw : NoFail w.bus) : issued p w = cs := by
  obtain ⟨x, w1, e, k, -⟩ := h.run w hw
  exact issued_of_calls p w cs (by rw [e]; exact k)

theorem issued_of_guarded (requested yes : Bool) (warning : List String) (v : Nat)
    (hv : v < 256) (aborted : String) (w : World) (hw : NoFail w.bus) :
    issued (if requested = true then main_confirm yes warning (v : Int) aborted else pure ()) w
      = (confirm_step requested yes v (w.stdin, w.strresp)).1 := by
  obtain ⟨w1, e, k, -⟩ := guarded_step requested yes warning v hv aborted w hw
  exact issued_of_calls _ w _ (by rw [e]; exact k)

theorem block_calls (a : Arguments) (p : Property) (w : World) (hw : NoFail w.bus) :
    issued (p.block a) w = p.calls a w := by
  cases p
  case rtc => exact issued_of_emits (emits_main_rtc a) w hw
  case rtcfactor => exact issued_of_emits (emits_rw_block .rtcfactor a) w hw
  case pwrsrc => exact issued_of_emits (emits_main_pwrsrc a) w hw
  case batvolt => exact issued_of_emits (emits_main_batvolt a) w hw
  case rpivolt => exact issued_of_emits (emits_main_rpivolt a) w hw
  case eprvolt => exact issued_of_emits (emits_main_eprvolt a) w hw
  case usbvolt => exact issued_of_emits (emits_main_usbvolt a) w hw
  case current => exact issued_of_emits (emits_main_current a) w hw
  case centigrade => exact issued_of_emits (emits_main_centigrade a) w hw
  case fahrenheit => exact issued_of_emits (emits_main_fahrenheit a) w hw
  case fwver => exact issued_of_emits (emits_main_fwver a) w hw
  case factory =>
    exact issued_of_guarded a.factory a.yes factory_warning 0xDD (by norm_num)
      "Factory reset aborted.\n" w hw
  case reset =>
    exact issued_of_guarded a.reset a.yes reset_warning 0xEE (by norm_num) "Reset aborted.\n" w hw
  case bootloader =>
    exact issued_of_guarded a.bootloader a.yes bootloader_warning 0xFF (by norm_num)
      "Bootloader aborted.\n" w hw
  case errorno => exact issued_of_emits (emits_main_errorno a) w hw
  case watchdog => exact issued_of_emits (emits_rw_block .watchdog a) w hw
  case fssd => exact issued_of_emits (emits_main_fssd a) w hw
  case fssdtimeout => exact issued_of_emits (emits_rw_block .fssdtimeout a) w hw
  case fssdtype => exact issued_of_emits (emits_rw_block .fssdtype a) w hw
  case fssdbatime => exact issued_of_emits (emits_rw_block .fssdbatime a) w hw
  case starttimer => exact issued_of_emits (emits_main_starttimer a) w hw
  case stoptimer => exact issued_of_emits (emits_main_stoptimer a) w hw
  case lprtimer => exact issued_of_emits (emits_rw_block .lprtimer a) w hw
  case relay => exact issued_of_emits (emits_rw_block .relay a) w hw
  case eprlowv => exact issued_of_emits (emits_main_eprlowv a) w hw
  case minlprtime => exact issued_of_emits (emits_main_minlprtime a) w hw
  case lprcurrent => exact issued_of_emits (emits_main_lprcurrent a) w hw
  case iomode => exact issued_of_emits (emits_rw_block .iomode a) w hw
  case iovalue => exact issued_of_calls _ w _ (iovalue_run_calls a w)

theorem write_then_print (b a r : Nat) (v : Int) (fmt : String) (w : World) :
    calls ((writei2cbyte b a r v >>= fun _ => printf fmt []) w).world.out
      = calls w.out ++ [.writeByte b a (r % 256) (v % 256).toNat] := by
  have h := writei2cbyte_calls b a r v w
  rw [bind_run]
  cases hm : writei2cbyte b a r v w with
  | exit c w1 =>
    rw [hm] at h
    exact h
  | ret u w1 =>
    rw [hm] at h
    simp only [Res.world] at h
    simp [printf, Res.world, calls_append, calls, h]

theorem fssd_issued (a : Arguments) (w : World) (h : a.fssd = true) :
    issued (main_fssd a) w = [.writeByte 1 0x6B 0x02 0x00] := by
  refine issued_of_calls _ w _ ?_
  simp only [main_fssd, h, if_true]
  exact write_then_print 1 0x6B 0x02 0x00 _ w

theorem override_issued (act : Action) (a : Arguments) (w : World)
    (hreq : act.requested a = true) (hyes : a.yes = true) :
    issued (act.block a) w = [.writeByte 1 0x69 0x07 act.sentinel] := by
  obtain ⟨warning, hb⟩ := action_block_eq act a hreq
  refine issued_of_calls _ w _ ?_
  rw [hb, hyes, (confirm_yes warning _ _ w).1, action_sentinel_byte]

/-- C14: every transport call `main` issues conforms to the register table.
The calls of a run are those of the blocks of `main` in the order of the
blocks, each call paired with the property whose block issued it; every such
call lies in the row of that very property, which is requested: bus 1, the
device address, register and width of the row, and for a write a value in the
range of the row or its fixed value.  When no call fails the block of each
property issues exactly the calls the table gives for it.  The fixed-value
writes are issued as the table says: the FSSD trigger, when requested, issues
exactly the write of 0x00 to 0x6B:0x02, and factory reset, processor reset and
bootloader entry, when requested with the override flag, issue exactly the
write of 0xDD, 0xEE and 0xFF to 0x69:0x07. -/
theorem calls_conform_to_register_table (a : Arguments) (bus : Nat → Outcome) (rtl : Bool)
    (stdin : List String) (strresp : String) :
    (tagged_calls a catalog (World.init bus rtl stdin strresp)).map Prod.snd
        = calls (run (main_body a) bus rtl stdin strresp)
      ∧ (∀ pc ∈ tagged_calls a catalog (World.init bus rtl stdin strresp),
          pc.1.requested a = true ∧ pc.1.register_table pc.2 = true)
      ∧ (∀ (p : Property) (w : World), NoFail w.bus → issued (p.block a) w = p.calls a w)
      ∧ (∀ w : World, a.fssd = true → issued (main_fssd a) w = [.writeByte 1 0x6B 0x02 0x00])
      ∧ (∀ (act : Action) (w : World), act.requested a = true → a.yes = true →
          issued (act.block a) w = [.writeByte 1 0x69 0x07 act.sentinel]) := by
  refine ⟨?_, tagged_conform a catalog _, fun p w hw => block_calls a p w hw,
    fun w h => fssd_issued a w h, fun act w hreq hyes => override_issued act a w hreq hyes⟩
  have h := tagged_calls_run a catalog (World.init bus rtl stdin strresp)
  rw [← main_body_blocks] at h
  simpa [run, World.init, calls] using h.symm

theorem calls_conform_to_register_table_witness :
    (Property.iovalue.requested
          (argp_parse [('V', none), ('S', none), ('z', none), ('y', none)] main_defaults) = true
        ∧ Property.iovalue.register_table (.readWord 1 0x6B 0x11) = true)
      ∧ issued (Property.fssd.block
            (argp_parse [('V', none), ('S', none), ('z', none), ('y', none)] main_defaults))
          (World.init (fun _ => .result 1) false [] "") = [.writeByte 1 0x6B 0x02 0x00]
      ∧ issued (main_fssd
            (argp_parse [('V', none), ('S', none), ('z', none), ('y', none)] main_defaults))
          (World.init (fun _ => .result (-1)) false [] "") = [.writeByte 1 0x6B 0x02 0x00]
      ∧ issued (Action.reset.block
            (argp_parse [('V', none), ('S', none), ('z', none), ('y', none)] main_defaults))
          (World.init (fun _ => .openFail) false [] "") = [.writeByte 1 0x69 0x07 0xEE] :=
  ⟨(calls_conform_to_register_table
      (argp_parse [('V', none), ('S', none), ('z', none), ('y', none)] main_defaults)
      (fun _ => .result 1) false [] "").2.1 (.iovalue, .readWord 1 0x6B 0x11) (by decide!),
   ((calls_conform_to_register_table
      (argp_parse [('V', none), ('S', none), ('z', none), ('y', none)] main_defaults)
      (fun _ => .result 1) false [] "").2.2.1 .fssd (World.init (fun _ => .result 1) false [] "")
      (fun _ => ⟨1, by norm_num, rfl⟩)).trans (by decide),
   (calls_conform_to_register_table
      (argp_parse [('V', none), ('S', none), ('z', none), ('y', none)] main_defaults)
      (fun _ => .result 1) false [] "").2.2.2.1 _ rfl,
   (calls_conform_to_register_table
      (argp_parse [('V', none), ('S', none), ('z', none), ('y', none)] main_defaults)
      (fun _ => .result 1) false [] "").2.2.2.2 .reset _ rfl rfl⟩

/-! ## The guard over the whole of `main` -/

theorem is_yes_iff (s : String) : is_yes s = true ↔ s = "y" ∨ s = "Y" := by
  simp [is_yes]

theorem consented_append (s0 : String) (xs ys : List Event) :
    consented s0 (xs ++ ys) = (consented s0 xs || consented s0 ys) := by
  simp [consented, List.any_append]

theorem consented_mono (s0 : String) (xs ys : List Event) (h : consented s0 xs = true) :
    consented s0 (xs ++ ys) = true := by
  rw [consented_append, h]
  rfl

theorem guarded_stable (s0 : String) (base : List Event) (P : Call → Prop) :
    Stable (fun w => (is_yes w.strresp = true → w.strresp = s0 ∨ consented s0 w.out = true)
      ∧ ∃ es, w.out = base ++ es ∧ ∀ c ∈ calls es, P c) P where
  printf := by
    rintro w fmt args ⟨hk, es, h1, h2⟩
    refine ⟨fun hy => ?_, es ++ [.printf fmt args], by simp [h1],
      by simpa [calls_append, calls] using h2⟩
    rcases hk hy with h | h
    · exact Or.inl h
    · exact Or.inr (consented_mono _ _ _ h)
  scanf := by
    rintro w ⟨hk, es, h1, h2⟩
    unfold scanf_strresp
    cases hs : w.stdin with
    | nil =>
      refine ⟨fun hy => ?_, es ++ [.scanf none], by simp [Res.world, h1],
        by simpa [calls_append, calls] using h2⟩
      rcases hk hy with h | h
      · exact Or.inl h
      · exact Or.inr (consented_mono _ _ _ h)
    | cons t ts =>
      refine ⟨fun hy => ?_, es ++ [.scanf (some t)], by simp [Res.world, h1],
        by simpa [calls_append, calls] using h2⟩
      refine Or.inr ?_
      simp only [Res.world] at hy ⊢
      simp [consented_append, consented, hy]
  call := by
    rintro w c hc ⟨hk, es, h1, h2⟩
    refine ⟨fun hy => ?_, es ++ [.call c (w.bus 0)], by simp [h1], ?_⟩
    · rcases hk hy with h | h
      · exact Or.inl h
      · exact Or.inr (consented_mono _ _ _ h)
    · intro x hx
      simp only [calls_append, calls, List.mem_append, List.mem_singleton] at hx
      rcases hx with hx | rfl
      · exact h2 x hx
      · exact hc

theorem unguarded_block (a : Arguments) (p : Property)
    (hp : p ≠ .factory ∧ p ≠ .reset ∧ p ≠ .bootloader) {I : World → Prop}
    (h : Stable I (fun c => is_sentinel_write c = true → p = .rtcfactor ∧ rtcfactor_writes a c)) :
    Keeps I (p.block a) := by
  have hrb : ∀ addr r, is_sentinel_write (.readByte 1 addr r) = true →
      p = .rtcfactor ∧ rtcfactor_writes a (.readByte 1 addr r) :=
    fun _ _ hs => by simp [is_sentinel_write] at hs
  have hrw : ∀ addr r, is_sentinel_write (.readWord 1 addr r) = true →
      p = .rtcfactor ∧ rtcfactor_writes a (.readWord 1 addr r) :=
    fun _ _ hs => by simp [is_sentinel_write] at hs
  have hwr : ∀ r v, is_sentinel_write (.writeByte 1 0x6B r v) = true →
      p = .rtcfactor ∧ rtcfactor_writes a (.writeByte 1 0x6B r v) :=
    fun _ _ hs => by simp [is_sentinel_write] at hs
  cases p
  case rtc => exact keeps_main_rtc h a hrb
  case rtcfactor =>
    exact keeps_main_rtcfactor h a hrb (fun s h1 h2 h3 _ =>
      ⟨rfl, h1, s, h2, h3, by rw [write_valid_byte s 0 255 (by norm_num) (by norm_num) h3]⟩)
  case pwrsrc => exact keeps_main_pwrsrc h a hrb
  case batvolt => exact keeps_main_batvolt h a hrw
  case rpivolt => exact keeps_main_rpivolt h a hrw
  case eprvolt => exact keeps_main_eprvolt h a hrw
  case usbvolt => exact keeps_main_usbvolt h a hrw
  case current => exact keeps_main_current h a hrw
  case centigrade => exact keeps_main_centigrade h a hrb
  case fahrenheit => exact keeps_main_fahrenheit h a hrw
  case fwver => exact keeps_main_fwver h a hrw
  case factory => exact absurd rfl hp.1
  case reset => exact absurd rfl hp.2.1
  case bootloader => exact absurd rfl hp.2.2
  case errorno => exact keeps_main_errorno h a hrb
  case watchdog => exact keeps_main_watchdog h a hrb hwr
  case fssd => exact keeps_main_fssd h a hwr
  case fssdtimeout => exact keeps_main_fssdtimeout h a hrb hwr
  case fssdtype => exact keeps_main_fssdtype h a hrb hwr
  case fssdbatime => exact keeps_main_fssdbatime h a hrb hwr
  case starttimer => exact keeps_main_starttimer h a
  case stoptimer => exact keeps_main_stoptimer h a
  case lprtimer => exact keeps_main_lprtimer h a hrb hwr
  case relay => exact keeps_main_relay h a hrb hwr
  case eprlowv => exact keeps_main_eprlowv h a
  case minlprtime => exact keeps_main_minlprtime h a
  case lprcurrent => exact keeps_main_lprcurrent h a
  case iomode => exact keeps_main_iomode h a hrb hwr
  case iovalue => exact keeps_main_iovalue h a hrb hrw

theorem writei2cbyte_world (b a r : Nat) (v : Int) (w : World) :
    (writei2cbyte b a r v w).world.strresp = w.strresp
      ∧ ∃ es, (writei2cbyte b a r v w).world.out = w.out ++ es := by
  simp only [writei2cbyte, bind_run, transact]
  cases w.bus 0 with
  | openFail => exact ⟨rfl, _, by simp [printf, exit, bind_run, Res.world]; rfl⟩
  | accessFail => exact ⟨rfl, _, by simp [printf, exit, bind_run, Res.world]; rfl⟩
  | result x =>
    by_cases hx : x < 0
    · exact ⟨by simp [hx, printf, Res.world], _, by simp [hx, printf, Res.world]; rfl⟩
    · exact ⟨by simp [hx, pure_run, Res.world], _, by simp [hx, pure_run, Res.world]; rfl⟩

theorem run_blocks_out (a : Arguments) (ps : List Property) (w : World) :
    ∃ es, (run_blocks a ps w).world.out = w.out ++ es := by
  induction ps generalizing w with
  | nil => exact ⟨[], by simp [run_blocks, pure_run, Res.world]⟩
  | cons p ps ih =>
    obtain ⟨es, hes, -⟩ := block_out a p w
    rw [run_blocks_cons]
    cases hb : p.block a w with
    | ret u w1 =>
      rw [hb] at hes
      simp only [Res.world] at hes
      obtain ⟨es2, h2⟩ := ih w1
      exact ⟨es ++ es2, by simp only [h2, hes, List.append_assoc]⟩
    | exit c w1 =>
      rw [hb] at hes
      exact ⟨es, hes⟩

theorem confirm_unprompted (s0 : String) (warning : List String) (v : Int) (aborted : String)
    (w : World) (hk : is_yes w.strresp = true → w.strresp = s0 ∨ consented s0 w.out = true) :
    ∃ es, (main_confirm false warning v aborted w).world.out = w.out ++ es
      ∧ (is_yes (main_confirm false warning v aborted w).world.strresp = true →
          (main_confirm false warning v aborted w).world.strresp = s0
            ∨ consented s0 (main_confirm false warning v aborted w).world.out = true)
      ∧ (calls es = []
          ∨ consented s0 (main_confirm false warning v aborted w).world.out = true) := by
  simp only [main_confirm, Bool.not_false, if_true, bind_run, print_lines_run, scanf_strresp,
    get_strresp, Bool.false_eq_true, false_or]
  cases hs : w.stdin with
  | nil =>
    simp only []
    by_cases hy : w.strresp = "y" ∨ w.strresp = "Y"
    · simp only [hy, if_true]
      obtain ⟨-, es, hes⟩ := writei2cbyte_world 1 0x69 0x07 v
        { w with stdin := [],
                 out := w.out ++ List.map (fun l => Event.printf l []) warning
                   ++ [Event.scanf none] }
      have hc : consented s0 (w.out ++ List.map (fun l => Event.printf l []) warning
          ++ [Event.scanf none]) = true := by
        rcases hk ((is_yes_iff _).2 hy) with h | h
        · have h0 : is_yes s0 = true := by rw [← h]; exact (is_yes_iff _).2 hy
          simp [consented_append, consented, h0]
        · rw [List.append_assoc]
          exact consented_mono _ _ _ h
      have hc2 := consented_mono s0 _ es hc
      rw [hes]
      exact ⟨List.map (fun l => Event.printf l []) warning ++ [Event.scanf none] ++ es,
        by simp only [List.append_assoc], fun _ => Or.inr hc2, Or.inr hc2⟩
    · simp only [hy, if_false, printf, Res.world]
      refine ⟨List.map (fun l => Event.printf l []) warning
          ++ [Event.scanf none, Event.printf aborted []],
        by simp only [List.append_assoc, List.cons_append, List.nil_append],
        fun h => absurd ((is_yes_iff _).1 h) hy, Or.inl ?_⟩
      simp [calls_append, calls_printfs, calls]
  | cons tok rest =>
    simp only []
    by_cases hy : tok = "y" ∨ tok = "Y"
    · simp only [hy, if_true]
      obtain ⟨-, es, hes⟩ := writei2cbyte_world 1 0x69 0x07 v
        { w with stdin := rest, strresp := tok,
                 out := w.out ++ List.map (fun l => Event.printf l []) warning
                   ++ [Event.scanf (some tok)] }
      have hc : consented s0 (w.out ++ List.map (fun l => Event.printf l []) warning
          ++ [Event.scanf (some tok)]) = true := by
        simp [consented_append, consented, (is_yes_iff _).2 hy]
      have hc2 := consented_mono s0 _ es hc
      rw [hes]
      exact ⟨List.map (fun l => Event.printf l []) warning ++ [Event.scanf (some tok)] ++ es,
        by simp only [List.append_assoc], fun _ => Or.inr hc2, Or.inr hc2⟩
    · simp only [hy, if_false, printf, Res.world]
      refine ⟨List.map (fun l => Event.printf l []) warning
          ++ [Event.scanf (some tok), Event.printf aborted []],
        by simp only [List.append_assoc, List.cons_append, List.nil_append],
        fun h => absurd ((is_yes_iff _).1 h) hy, Or.inl ?_⟩
      simp [calls_append, calls_printfs, calls]

theorem guarded_unprompted (s0 : String) (requested : Bool) (warning : List String) (v : Int)
    (aborted : String) (w : World)
    (hk : is_yes w.strresp = true → w.strresp = s0 ∨ consented s0 w.out = true) :
    ∃ es, ((if requested = true then main_confirm false warning v aborted
          else pure ()) w).world.out = w.out ++ es
      ∧ (is_yes ((if requested = true then main_confirm false warning v aborted
            else pure ()) w).world.strresp = true →
          ((if requested = true then main_confirm false warning v aborted
              else pure ()) w).world.strresp = s0
            ∨ consented s0 ((if requested = true then main_confirm false warning v aborted
              else pure ()) w).world.out = true)
      ∧ (calls es = []
          ∨ consented s0 ((if requested = true then main_confirm false warning v aborted
              else pure ()) w).world.out = true) := by
  cases requested with
  | false => exact ⟨[], by simp [pure_run, Res.world], by simpa [pure_run, Res.world] using hk,
      Or.inl rfl⟩
  | true => simpa using confirm_unprompted s0 warning v aborted w hk

theorem block_step (a : Arguments) (hyes : a.yes = false) (s0 : String) (p : Property)
    (w : World) (hk : is_yes w.strresp = true → w.strresp = s0 ∨ consented s0 w.out = true) :
    ∃ es, (p.block a w).world.out = w.out ++ es
      ∧ (is_yes (p.block a w).world.strresp = true →
          (p.block a w).world.strresp = s0 ∨ consented s0 (p.block a w).world.out = true)
      ∧ ((∀ c ∈ calls es, p ≠ .factory ∧ p ≠ .reset ∧ p ≠ .bootloader
            ∧ (is_sentinel_write c = true → p = .rtcfactor ∧ rtcfactor_writes a c))
          ∨ consented s0 (p.block a w).world.out = true) := by
  by_cases hp : p ≠ .factory ∧ p ≠ .reset ∧ p ≠ .bootloader
  · obtain ⟨hk', es, hes, hall⟩ := unguarded_block a p hp (guarded_stable s0 w.out _) w
      ⟨hk, [], by simp, by simp [calls]⟩
    exact ⟨es, hes, hk', Or.inl fun c hc => ⟨hp.1, hp.2.1, hp.2.2, hall c hc⟩⟩
  · have hg : ∃ warning v aborted, p.block a
        = if p.requested a = true then main_confirm false warning v aborted else pure () := by
      cases p
      case factory => exact ⟨factory_warning, 0xdd, "Factory reset aborted.\n", by
        simp only [Property.block, main_factory, Property.requested, hyes]⟩
      case reset => exact ⟨reset_warning, 0xee, "Reset aborted.\n", by
        simp only [Property.block, main_reset, Property.requested, hyes]⟩
      case bootloader => exact ⟨bootloader_warning, 0xff, "Bootloader aborted.\n", by
        simp only [Property.block, main_bootloader, Property.requested, hyes]⟩
      all_goals exact absurd (by simp) hp
    obtain ⟨warning, v, aborted, hb⟩ := hg
    rw [hb]
    obtain ⟨es, h1, h2, h3⟩ := guarded_unprompted s0 (p.requested a) warning v aborted w hk
    refine ⟨es, h1, h2, ?_⟩
    rcases h3 with h3 | h3
    · exact Or.inl (by rw [h3]; simp)
    · exact Or.inr h3

theorem tagged_unconsented (a : Arguments) (hyes : a.yes = false) (s0 : String)
    (ps : List Property) (w : World)
    (hk : is_yes w.strresp = true → w.strresp = s0 ∨ consented s0 w.out = true)
    (hno : consented s0 (run_blocks a ps w).world.out = false) :
    ∀ pc ∈ tagged_calls a ps w, pc.1 ≠ .factory ∧ pc.1 ≠ .reset ∧ pc.1 ≠ .bootloader
      ∧ (is_sentinel_write pc.2 = true → pc.1 = .rtcfactor ∧ rtcfactor_writes a pc.2) := by
  induction ps generalizing w with
  | nil => simp [tagged_calls]
  | cons p ps ih =>
    obtain ⟨es, hes, hk', hgood⟩ := block_step a hyes s0 p w hk
    have hi := issued_of_out (p.block a) w es hes
    rw [run_blocks_cons] at hno
    intro pc hpc
    simp only [tagged_calls, hi, List.mem_append, List.mem_map] at hpc
    cases hb : p.block a w with
    | ret u w1 =>
      rw [hb] at hno hpc hk' hgood
      have hno1 : consented s0 (run_blocks a ps w1).world.out = false := hno
      have hk1 : is_yes w1.strresp = true → w1.strresp = s0 ∨ consented s0 w1.out = true := hk'
      have hgood1 : (∀ c ∈ calls es, p ≠ .factory ∧ p ≠ .reset ∧ p ≠ .bootloader
            ∧ (is_sentinel_write c = true → p = .rtcfactor ∧ rtcfactor_writes a c))
          ∨ consented s0 w1.out = true := hgood
      obtain ⟨es2, h2⟩ := run_blocks_out a ps w1
      have hw1 : consented s0 w1.out = false := by
        cases h : consented s0 w1.out
        · rfl
        · rw [h2, consented_mono _ _ _ h] at hno1
          cases hno1
      rcases hpc with ⟨c, hc, rfl⟩ | hpc
      · rcases hgood1 with hg | hg
        · exact hg c hc
        · rw [hw1] at hg
          cases hg
      · exact ih w1 hk1 hno1 pc hpc
    | exit c w1 =>
      rw [hb] at hno hpc hgood
      have hno1 : consented s0 w1.out = false := hno
      have hgood1 : (∀ c ∈ calls es, p ≠ .factory ∧ p ≠ .reset ∧ p ≠ .bootloader
            ∧ (is_sentinel_write c = true → p = .rtcfactor ∧ rtcfactor_writes a c))
          ∨ consented s0 w1.out = true := hgood
      rcases hpc with ⟨c, hc, rfl⟩ | hpc
      · rcases hgood1 with hg | hg
        · exact hg c hc
        · rw [hno1] at hg
          cases hg
      · simp at hpc

/-- C2 (as amended): with the override flag unset and no prompt answered with
consent (no `scanf` of the run reads `"y"` or `"Y"`, and none meets the end of
input while `strresp` holds one of them from the start), the three guarded
blocks issue no transport call at all, and every write of 0xDD, 0xEE or 0xFF
to register 0x07 of device 0x69 is issued by the block of the RTC correction
factor: the property is requested with a string its test accepts (range 0 to
255) and the value written is what `atoi` gives for that string.  The calls of
the run are those of the blocks in their order, each paired with the property
whose block issued it. -/
theorem sentinel_write_only_by_rtcfactor (a : Arguments) (bus : Nat → Outcome) (rtl : Bool)
    (stdin : List String) (strresp : String) (hyes : a.yes = false)
    (hno : consented strresp (run (main_body a) bus rtl stdin strresp) = false) :
    (tagged_calls a catalog (World.init bus rtl stdin strresp)).map Prod.snd
        = calls (run (main_body a) bus rtl stdin strresp)
      ∧ ∀ pc ∈ tagged_calls a catalog (World.init bus rtl stdin strresp),
          pc.1 ≠ .factory ∧ pc.1 ≠ .reset ∧ pc.1 ≠ .bootloader
            ∧ (is_sentinel_write pc.2 = true → pc.1 = .rtcfactor ∧ rtcfactor_writes a pc.2) := by
  constructor
  · have h := tagged_calls_run a catalog (World.init bus rtl stdin strresp)
    rw [← main_body_blocks] at h
    simpa [run, World.init, calls] using h.symm
  · refine tagged_unconsented a hyes strresp catalog (World.init bus rtl stdin strresp)
      (fun _ => Or.inl rfl) ?_
    rw [← main_body_blocks]
    exact hno

theorem sentinel_write_only_by_rtcfactor_witness :
    (Property.rtcfactor, Call.writeByte 1 0x69 0x07 0xDD)
        ∈ tagged_calls (argp_parse [('Z', none), ('F', some "221")] main_defaults) catalog
          (World.init (fun _ => .result 0) false ["n", "y"] "y")
      ∧ rtcfactor_writes (argp_parse [('Z', none), ('F', some "221")] main_defaults)
        (.writeByte 1 0x69 0x07 0xDD) :=
  ⟨by decide!,
   (((sentinel_write_only_by_rtcfactor (argp_parse [('Z', none), ('F', some "221")] main_defaults)
      (fun _ => .result 0) false ["n", "y"] "y" rfl (by decide!)).2
      (.rtcfactor, .writeByte 1 0x69 0x07 0xDD) (by decide!)).2.2.2 (by decide)).2⟩

/-- C2 (as stated) fails: with the override flag unset and nothing at all on
standard input, `upis -F221` writes 0xDD to register 0x07 of device 0x69. -/
theorem rtcfactor_221_is_factory_reset :
    (argp_parse [('F', some "221")] main_defaults).yes = false
      ∧ is_sentinel_write (.writeByte 1 0x69 0x07 0xDD) = true
      ∧ Call.writeByte 1 0x69 0x07 0xDD
          ∈ calls (run (main [('F', some "221")]) (fun _ => .result 0) false [] "") := by
  decide!

end Upis
